import Mathlib

/-!
# Region balancer of the placement driver (`server/balancer.go`)

A shallow embedding of the store scoring, store selection and plan assembly of
`resourceBalancer` and `defaultBalancer`, followed by theorems about them.

Conventions of the embedding:

* Go `int` is 64 bits wide: arithmetic on it is arithmetic on `Int` followed by `wrapInt`.
* A pointer that may be `nil` is an `Option`; `[]*storeInfo` is `List (Option storeInfo)`.
* `float64` values are finite binary64 numbers `(-1)^neg * mant * 2^exp`; every operation
  computes the exact result and rounds it once, to nearest, ties to even (`F64.round`).
  Infinities and NaN are not represented, and the two products of `score` are rounded
  separately (no fused multiply-add).
* The conversion `int(x)` of a `float64` outside the range of `int` is left to the
  implementation by Go; `F64.toInt` takes the result of amd64, the most negative `int`.
* A Go `map` is an association list; the order in which `range` visits its keys is
  unspecified in Go and is an explicit argument (`order`) of the functions that iterate.
* A function returning `(*balanceOperator, error)` returns `Except Error (Option balanceOperator)`.
-/

namespace PD

/-! ## Machine integers and binary64 -/

/-- Two's complement wrap-around of a mathematical integer to a 64-bit Go `int`. -/
def wrapInt (x : Int) : Int := (x + 2 ^ 63) % 2 ^ 64 - 2 ^ 63

/-- Finite binary64 number `(-1)^neg * mant * 2^exp`. -/
structure F64 where
  neg : Bool
  mant : Nat
  exp : Int
deriving DecidableEq, Repr

namespace F64

/-- Number of low bits that have to be dropped from `M` to make it fit in 53 bits;
`fuel` bounds the number of halvings (any `fuel ≥ M` is enough). -/
def excess : Nat → Nat → Nat
  | 0, _ => 0
  | fuel + 1, M => if M < 2 ^ 53 then 0 else excess fuel (M / 2) + 1

/-- Round the exact magnitude `M * 2^E` to binary64: 53 significant bits, least exponent
`-1074`, round to nearest, ties to even. -/
def round (neg : Bool) (M : Nat) (E : Int) : F64 :=
  let k := max (excess M M) (Int.toNat (-1074 - E))
  if k = 0 then ⟨neg, M, E⟩
  else
    let q := M / 2 ^ k
    let r := M % 2 ^ k
    let half := 2 ^ (k - 1)
    if half < r ∨ (r = half ∧ q % 2 = 1) then ⟨neg, q + 1, E + k⟩ else ⟨neg, q, E + k⟩

/-- Conversion `float64(n)` of a Go `int`. -/
def ofInt (n : Int) : F64 := round (decide (n < 0)) n.natAbs 0

/-- Signed mantissa. -/
def smant (a : F64) : Int := if a.neg then -(a.mant : Int) else a.mant

/-- Product `a * b` in binary64. -/
def mul (a b : F64) : F64 := round (a.neg != b.neg) (a.mant * b.mant) (a.exp + b.exp)

/-- Sum `a + b` in binary64. -/
def add (a b : F64) : F64 :=
  let e := min a.exp b.exp
  let s : Int := a.smant * 2 ^ (a.exp - e).toNat + b.smant * 2 ^ (b.exp - e).toNat
  round (decide (s < 0)) s.natAbs e

/-- The integer part of `a`: the fraction is discarded (truncation towards zero). -/
def trunc (a : F64) : Int :=
  let mag : Nat := if 0 ≤ a.exp then a.mant * 2 ^ a.exp.toNat else a.mant / 2 ^ (-a.exp).toNat
  if a.neg then -(mag : Int) else mag

/-- Conversion `int(a)` to the 64-bit Go `int`: the integer part of `a` when it is
representable. Go leaves the result of an out-of-range conversion to the implementation;
the value taken here is the one of amd64 (`CVTTSD2SQ`), the most negative `int`. A product
that overflows to infinity in Go converts to that same value, so the finite magnitude kept
here does not change the result. -/
def toInt (a : F64) : Int :=
  let t := a.trunc
  if -2 ^ 63 ≤ t ∧ t < 2 ^ 63 then t else -2 ^ 63

/-- The rational number a binary64 value stands for. -/
def toRat (a : F64) : ℚ := (a.smant : ℚ) * (2 : ℚ) ^ a.exp

/-- The constant `0.6` as binary64 (`0x3FE3333333333333`). -/
def c06 : F64 := ⟨false, 5404319552844595, -53⟩

/-- The constant `0.4` as binary64 (`0x3FD999999999999A`). -/
def c04 : F64 := ⟨false, 7205759403792794, -54⟩

end F64

/-! ## Data model -/

/-- The `metapb.Peer` message: a replica of a region on a store. -/
structure Peer where
  Id : Nat
  StoreId : Nat
deriving DecidableEq, Repr

/-- The nil-safe getter `(*metapb.Peer).GetStoreId`. -/
def Peer.GetStoreId : Option Peer → Nat
  | none => 0
  | some p => p.StoreId

/-- The `metapb.Region` message, reduced to its id and its peers. -/
structure Region where
  Id : Nat
  Peers : List Peer
deriving DecidableEq, Repr

/-- The statistics of a store read by the balancer (`store.stats`). -/
structure StoreStatus where
  LeaderRegionCount : Int
  RegionCount : Nat
  Capacity : Nat
  Available : Nat
  SendingSnapCount : Nat
  ReceivingSnapCount : Nat
deriving DecidableEq, Repr

/-- A store of the cluster view. `usedRatioScore` is the value returned by the method
`store.usedRatioScore()`, whose body is not part of `balancer.go`. -/
structure storeInfo where
  id : Nat
  stats : StoreStatus
  usedRatioScore : Int
deriving DecidableEq, Repr

/-- The `Filter` interface: a pair of rejection predicates over a store. -/
structure Filter where
  FilterFromStore : storeInfo → Bool
  FilterToStore : storeInfo → Bool

/-- Modelled from the spec: the snapshot-count filter (§4.1), which is not part of
`balancer.go`. A source is rejected when it sends at least `maxSending` snapshots, a
target when it receives at least `maxReceiving`. -/
def snapCountFilter (maxSending maxReceiving : Nat) : Filter :=
  ⟨fun store => decide (maxSending ≤ store.stats.SendingSnapCount),
   fun store => decide (maxReceiving ≤ store.stats.ReceivingSnapCount)⟩

/-- The field of `BalanceConfig` read in `balancer.go`. -/
structure BalanceConfig where
  MaxDiffScoreFraction : F64

structure resourceBalancer where
  filters : List Filter
  cfg : BalanceConfig

/-! ## Scoring -/

def leaderScore (leaderCount : Int) (regionCount : Int) : Int :=
  if regionCount = 0 then 0
  else wrapInt (Int.tdiv (wrapInt (leaderCount * 100)) regionCount)

namespace resourceBalancer

def filterFromStore (rb : resourceBalancer) (store : storeInfo) : Bool :=
  rb.filters.any (fun filter => filter.FilterFromStore store)

def filterToStore (rb : resourceBalancer) (store : storeInfo) : Bool :=
  rb.filters.any (fun filter => filter.FilterToStore store)

def score (_rb : resourceBalancer) (store : storeInfo) (leaderCount : Int) (regionCount : Int) :
    Int :=
  let usedRatioScore := store.usedRatioScore
  let leaderScore := leaderScore leaderCount regionCount
  F64.toInt (F64.add (F64.mul (F64.ofInt usedRatioScore) F64.c06)
    (F64.mul (F64.ofInt leaderScore) F64.c04))

/-- The loop of `selectFromStore`, with its two local variables as arguments. -/
def selectFromStoreLoop (rb : resourceBalancer) (regionCount : Int) (useFilter : Bool) :
    List (Option storeInfo) → Int → Option storeInfo → Option storeInfo
  | [], _, resultStore => resultStore
  | none :: rest, score, resultStore =>
    selectFromStoreLoop rb regionCount useFilter rest score resultStore
  | some store :: rest, score, resultStore =>
    if useFilter && rb.filterFromStore store then
      selectFromStoreLoop rb regionCount useFilter rest score resultStore
    else
      let currScore := rb.score store store.stats.LeaderRegionCount regionCount
      match resultStore with
      | none => selectFromStoreLoop rb regionCount useFilter rest currScore (some store)
      | some _ =>
        if currScore > score then
          selectFromStoreLoop rb regionCount useFilter rest currScore (some store)
        else selectFromStoreLoop rb regionCount useFilter rest score resultStore

def selectFromStore (rb : resourceBalancer) (stores : List (Option storeInfo))
    (regionCount : Int) (useFilter : Bool) : Option storeInfo :=
  selectFromStoreLoop rb regionCount useFilter stores 0 none

/-- The loop of `selectToStore`, with its two local variables as arguments. -/
def selectToStoreLoop (rb : resourceBalancer) (excluded : List Nat) (regionCount : Int)
    (useFilter : Bool) : List (Option storeInfo) → Int → Option storeInfo → Option storeInfo
  | [], _, resultStore => resultStore
  | none :: rest, score, resultStore =>
    selectToStoreLoop rb excluded regionCount useFilter rest score resultStore
  | some store :: rest, score, resultStore =>
    if excluded.contains store.id then
      selectToStoreLoop rb excluded regionCount useFilter rest score resultStore
    else if useFilter && rb.filterToStore store then
      selectToStoreLoop rb excluded regionCount useFilter rest score resultStore
    else
      let currScore := rb.score store store.stats.LeaderRegionCount regionCount
      match resultStore with
      | none => selectToStoreLoop rb excluded regionCount useFilter rest currScore (some store)
      | some _ =>
        if currScore < score then
          selectToStoreLoop rb excluded regionCount useFilter rest currScore (some store)
        else selectToStoreLoop rb excluded regionCount useFilter rest score resultStore

/-- The set `excluded map[uint64]struct{}` is the list of its keys (`nil` is `[]`). -/
def selectToStore (rb : resourceBalancer) (stores : List (Option storeInfo))
    (excluded : List Nat) (regionCount : Int) (useFilter : Bool) : Option storeInfo :=
  selectToStoreLoop rb excluded regionCount useFilter stores 0 none

end resourceBalancer

/-! ## Cluster view, allocator and operators -/

abbrev Error := String

/-- Modelled from the spec: the id allocator `idAlloc` (§5, §6), which is not part of
`balancer.go`. `Alloc` either fails, leaving the allocator as it is, or hands out the id
after the last one. -/
structure idAllocator where
  base : Nat
  unavailable : Bool
deriving DecidableEq, Repr

def idAllocator.Alloc (a : idAllocator) : Except Error Nat × idAllocator :=
  if a.unavailable then (.error "alloc failed", a)
  else (.ok (a.base + 1), { a with base := a.base + 1 })

/-- Modelled from the spec: the cluster view `clusterInfo` (§6), which is not part of
`balancer.go`. `randLeaderRegion` and `randRegion` give the outcome of the random choices
of this round. -/
structure clusterInfo where
  stores : List storeInfo
  regionCount : Int
  MaxPeerCount : Nat
  randLeaderRegion : Nat → Option Region
  randRegion : Nat → Option Region × Option Peer × Option Peer
  idAlloc : idAllocator

def clusterInfo.getStores (cluster : clusterInfo) : List (Option storeInfo) :=
  cluster.stores.map some

def clusterInfo.getStore (cluster : clusterInfo) (storeID : Nat) : Option storeInfo :=
  cluster.stores.find? (fun store => store.id == storeID)

/-- Modelled from the spec: the operator variants (§3, §4.6), whose declarations are not
part of `balancer.go`. -/
inductive Operator where
  | AddPeer (regionID : Nat) (peer : Peer)
  | RemovePeer (regionID : Nat) (peer : Option Peer)
  | TransferLeader (regionID : Nat) (oldLeader newLeader : Peer) (maxWaitCount : Nat)
  | Once (inner : Operator)
deriving DecidableEq, Repr

/-- Whether an operator is a leader transfer. -/
def Operator.isTransferLeader : Operator → Bool
  | .TransferLeader _ _ _ _ => true
  | _ => false

/-- The region an operator refers to. -/
def Operator.regionID : Operator → Nat
  | .AddPeer regionID _ => regionID
  | .RemovePeer regionID _ => regionID
  | .TransferLeader regionID _ _ _ => regionID
  | .Once inner => inner.regionID

/-- Modelled from the spec: the ordered operators of one plan with the region snapshot
they were planned against (§3). -/
structure balanceOperator where
  region : Region
  ops : List Operator
deriving DecidableEq, Repr

def newBalanceOperator (region : Region) (ops : List Operator) : balanceOperator :=
  ⟨region, ops⟩

/-- Modelled from the spec: `leaderPeer(region, storeID)` (§4.4), the peer of the region
that lives on the store. -/
def leaderPeer (region : Region) (storeID : Nat) : Option Peer :=
  region.Peers.find? (fun peer => peer.StoreId == storeID)

/-- Modelled from the spec: `getFollowerPeers(region, leader)` (§4.7), following the two
loops `defaultBalancer.addPeer` and `defaultBalancer.removePeer` write out. The first
component is the map from store id to follower peer as the list of its assignments, newest
first (read with `List.lookup`); the second is the set of the store ids of all peers. -/
def getFollowerPeers (region : Region) (leader : Peer) : List (Nat × Peer) × List Nat :=
  region.Peers.foldl (fun acc peer =>
    if peer.Id == leader.Id then (acc.1, peer.StoreId :: acc.2)
    else ((peer.StoreId, peer) :: acc.1, peer.StoreId :: acc.2)) ([], [])

/-! ## Resource balancer -/

namespace resourceBalancer

def checkScore (rb : resourceBalancer) (cluster : clusterInfo) (oldPeer newPeer : Option Peer)
    (isLeaderPeer : Bool) : Bool :=
  let regionCount := cluster.regionCount
  match cluster.getStore (Peer.GetStoreId oldPeer), cluster.getStore (Peer.GetStoreId newPeer) with
  | some oldStore, some newStore =>
    let oldStoreScore := rb.score oldStore oldStore.stats.LeaderRegionCount regionCount
    let newStoreScore :=
      if isLeaderPeer then
        rb.score newStore (wrapInt (newStore.stats.LeaderRegionCount + 1)) regionCount
      else rb.score newStore newStore.stats.LeaderRegionCount regionCount
    let diffScore := wrapInt (oldStoreScore - newStoreScore)
    if diffScore ≤ F64.toInt (F64.mul (F64.ofInt oldStoreScore) rb.cfg.MaxDiffScoreFraction) then
      false
    else true
  | _, _ => false

def selectBalanceRegion (rb : resourceBalancer) (cluster : clusterInfo)
    (stores : List (Option storeInfo)) : Option Region × Option Peer × Option Peer × Bool :=
  match rb.selectFromStore stores cluster.regionCount true with
  | none => (none, none, none, false)
  | some store =>
    let storeID := store.id
    match cluster.randLeaderRegion storeID with
    | none =>
      let (region, leader, follower) := cluster.randRegion storeID
      (region, leader, follower, false)
    | some region => (some region, leaderPeer region storeID, none, true)

/-- The argument `order` is the order in which `range peers` visits the keys of the map. -/
def selectNewLeaderPeer (rb : resourceBalancer) (cluster : clusterInfo)
    (peers : List (Nat × Peer)) (order : List Nat) : Option Peer :=
  let stores := order.map (fun storeID => cluster.getStore storeID)
  match rb.selectToStore stores [] cluster.regionCount false with
  | none => none
  | some store => peers.lookup store.id

def selectAddPeer (rb : resourceBalancer) (cluster : clusterInfo)
    (stores : List (Option storeInfo)) (excluded : List Nat) :
    Except Error (Option Peer) × idAllocator :=
  match rb.selectToStore stores excluded cluster.regionCount true with
  | none => (.ok none, cluster.idAlloc)
  | some store =>
    match cluster.idAlloc.Alloc with
    | (.error err, alloc) => (.error err, alloc)
    | (.ok peerID, alloc) => (.ok (some { Id := peerID, StoreId := store.id }), alloc)

/-- The argument `order` is the order in which `range peers` visits the keys of the map. -/
def selectRemovePeer (rb : resourceBalancer) (cluster : clusterInfo)
    (peers : List (Nat × Peer)) (order : List Nat) : Except Error (Option Peer) :=
  let stores := order.map (fun storeID => cluster.getStore storeID)
  match rb.selectFromStore stores cluster.regionCount false with
  | none => .ok none
  | some store => .ok (peers.lookup store.id)

/-- The package constant `maxWaitCount` is declared outside `balancer.go` and is an
argument here; `order` is the iteration order of the follower map. -/
def doLeaderBalance (rb : resourceBalancer) (cluster : clusterInfo)
    (_stores : List (Option storeInfo)) (region : Region) (leader : Peer) (newPeer : Peer)
    (order : List Nat) (maxWaitCount : Nat) : Except Error (Option balanceOperator) :=
  let regionID := region.Id
  if cluster.MaxPeerCount = 1 then
    let addPeerOperator := Operator.AddPeer regionID newPeer
    let removePeerOperator := Operator.RemovePeer regionID (some leader)
    if !rb.checkScore cluster (some leader) (some newPeer) true then .ok none
    else .ok (some (newBalanceOperator region [addPeerOperator, removePeerOperator]))
  else if !rb.checkScore cluster (some leader) (some newPeer) false then .ok none
  else
    let followerPeers := (getFollowerPeers region leader).1
    match rb.selectNewLeaderPeer cluster followerPeers order with
    | none => .ok none
    | some newLeader =>
      let leaderTransferOperator := Operator.TransferLeader regionID leader newLeader maxWaitCount
      let addPeerOperator := Operator.AddPeer regionID newPeer
      let removePeerOperator := Operator.RemovePeer regionID (some leader)
      .ok (some (newBalanceOperator region
        [leaderTransferOperator, addPeerOperator, removePeerOperator]))

def doFollowerBalance (rb : resourceBalancer) (cluster : clusterInfo)
    (_stores : List (Option storeInfo)) (region : Region) (follower : Option Peer)
    (newPeer : Peer) : Except Error (Option balanceOperator) :=
  if !rb.checkScore cluster follower (some newPeer) false then .ok none
  else
    let addPeerOperator := Operator.AddPeer region.Id newPeer
    let removePeerOperator := Operator.RemovePeer region.Id follower
    .ok (some (newBalanceOperator region [addPeerOperator, removePeerOperator]))

/-- The second component of the result is the id allocator after the call. -/
def Balance (rb : resourceBalancer) (cluster : clusterInfo) (order : List Nat)
    (maxWaitCount : Nat) : Except Error (Option balanceOperator) × idAllocator :=
  let stores := cluster.getStores
  match rb.selectBalanceRegion cluster stores with
  | (some region, some leader, follower, isLeaderBalance) =>
    if region.Peers.length ≠ cluster.MaxPeerCount then (.ok none, cluster.idAlloc)
    else
      let excludedStores := (getFollowerPeers region leader).2
      match rb.selectAddPeer cluster stores excludedStores with
      | (.error err, alloc) => (.error err, alloc)
      | (.ok none, alloc) => (.ok none, alloc)
      | (.ok (some newPeer), alloc) =>
        if isLeaderBalance then
          (rb.doLeaderBalance cluster stores region leader newPeer order maxWaitCount, alloc)
        else (rb.doFollowerBalance cluster stores region follower newPeer, alloc)
  | _ => (.ok none, cluster.idAlloc)

end resourceBalancer

/-! ## Default balancer -/

/-- The embedded `*resourceBalancer` is the field `rb`. -/
structure defaultBalancer where
  rb : resourceBalancer
  region : Region
  leader : Peer

namespace defaultBalancer

def addPeer (db : defaultBalancer) (cluster : clusterInfo) :
    Except Error (Option balanceOperator) × idAllocator :=
  let stores := cluster.getStores
  let excludedStores := db.region.Peers.foldl (fun acc peer => peer.StoreId :: acc) []
  match db.rb.selectAddPeer cluster stores excludedStores with
  | (.error err, alloc) => (.error err, alloc)
  | (.ok none, alloc) => (.ok none, alloc)
  | (.ok (some peer), alloc) =>
    let addPeerOperator := Operator.AddPeer db.region.Id peer
    (.ok (some (newBalanceOperator db.region [Operator.Once addPeerOperator])), alloc)

/-- The argument `order` is the iteration order of the follower map. -/
def removePeer (db : defaultBalancer) (cluster : clusterInfo) (order : List Nat) :
    Except Error (Option balanceOperator) :=
  let followerPeers := db.region.Peers.foldl (fun (acc : List (Nat × Peer)) peer =>
    if peer.Id == db.leader.Id then acc else (peer.StoreId, peer) :: acc) []
  match db.rb.selectRemovePeer cluster followerPeers order with
  | .error err => .error err
  | .ok none => .ok none
  | .ok (some peer) =>
    let removePeerOperator := Operator.RemovePeer db.region.Id (some peer)
    .ok (some (newBalanceOperator db.region [Operator.Once removePeerOperator]))

/-- The second component of the result is the id allocator after the call. -/
def Balance (db : defaultBalancer) (cluster : clusterInfo) (order : List Nat) :
    Except Error (Option balanceOperator) × idAllocator :=
  let peerCount := db.region.Peers.length
  let maxPeerCount := cluster.MaxPeerCount
  if peerCount = maxPeerCount then (.ok none, cluster.idAlloc)
  else if peerCount < maxPeerCount then db.addPeer cluster
  else (db.removePeer cluster order, cluster.idAlloc)

end defaultBalancer

/-! ## Predicates of the statements -/

/-- A store qualifies as a source when the filters are off or none of them rejects it. -/
def qualifiesFrom (rb : resourceBalancer) (useFilter : Bool) (s : storeInfo) : Prop :=
  useFilter = false ∨ rb.filterFromStore s = false

/-- A store qualifies as a target when it is not excluded and the filters are off or none
of them rejects it. -/
def qualifiesTo (rb : resourceBalancer) (excluded : List Nat) (useFilter : Bool)
    (s : storeInfo) : Prop :=
  s.id ∉ excluded ∧ (useFilter = false ∨ rb.filterToStore s = false)

/-- The score the selectors compare: the score of a store with its own leader count. -/
def ownScore (rb : resourceBalancer) (regionCount : Int) (s : storeInfo) : Int :=
  rb.score s s.stats.LeaderRegionCount regionCount

/-- The entry `r` is the first entry of `stores` that qualifies and whose value `f` is
greatest among the qualifying entries. -/
def FirstMax (q : storeInfo → Prop) (f : storeInfo → Int) (stores : List (Option storeInfo))
    (r : storeInfo) : Prop :=
  q r ∧ ∃ l1 l2, stores = l1 ++ some r :: l2 ∧
    (∀ s, some s ∈ l1 → q s → f s < f r) ∧ (∀ s, some s ∈ l2 → q s → f s ≤ f r)

/-- The entry `r` is the first entry of `stores` that qualifies and whose value `f` is
least among the qualifying entries. -/
def FirstMin (q : storeInfo → Prop) (f : storeInfo → Int) (stores : List (Option storeInfo))
    (r : storeInfo) : Prop :=
  q r ∧ ∃ l1 l2, stores = l1 ++ some r :: l2 ∧
    (∀ s, some s ∈ l1 → q s → f r < f s) ∧ (∀ s, some s ∈ l2 → q s → f r ≤ f s)

/-- The score `checkScore` gives the target store: with one more leader when the move
brings a leader. -/
def hypoScore (rb : resourceBalancer) (regionCount : Int) (s : storeInfo)
    (isLeaderPeer : Bool) : Int :=
  if isLeaderPeer then rb.score s (wrapInt (s.stats.LeaderRegionCount + 1)) regionCount
  else rb.score s s.stats.LeaderRegionCount regionCount

/-! ## Concrete views used by the examples -/

/-- A store with used-ratio score 17 and no leader. -/
def exStoreA : storeInfo := ⟨1, ⟨0, 10, 100, 83, 0, 0⟩, 17⟩

/-- A store with used-ratio score 5 and no leader. -/
def exStoreB : storeInfo := ⟨2, ⟨0, 10, 100, 95, 0, 0⟩, 5⟩

/-- The constant `0.7` as binary64 (`0x3FE6666666666666`). -/
def exFraction : F64 := ⟨false, 6305039478318694, -53⟩

/-- A balancer without filters whose `MaxDiffScoreFraction` is `0.7`. -/
def exRb : resourceBalancer := ⟨[], ⟨exFraction⟩⟩

/-- A balancer without filters whose `MaxDiffScoreFraction` is `0.5`. -/
def exRbHalf : resourceBalancer := ⟨[], ⟨⟨false, 1, -1⟩⟩⟩

/-- A view of the two stores `exStoreA` and `exStoreB` with a hundred regions. -/
def exCluster : clusterInfo :=
  { stores := [exStoreA, exStoreB], regionCount := 100, MaxPeerCount := 1,
    randLeaderRegion := fun _ => none, randRegion := fun _ => (none, none, none),
    idAlloc := ⟨100, false⟩ }

/-- A store that leads all five of its regions and uses none of its capacity. -/
def exStoreHot : storeInfo := ⟨3, ⟨5, 5, 100, 100, 0, 0⟩, 0⟩

/-- Four stores: a loaded store `1` that leads nine regions, two lighter stores `2` and
`3`, and a nearly empty store `4`. -/
def exStores : List storeInfo :=
  [⟨1, ⟨9, 10, 100, 10, 0, 0⟩, 90⟩, ⟨2, ⟨1, 10, 100, 70, 0, 0⟩, 30⟩,
   ⟨3, ⟨0, 10, 100, 70, 0, 0⟩, 30⟩, ⟨4, ⟨0, 0, 100, 90, 0, 0⟩, 10⟩]

/-- A region with peers on the stores `1`, `2` and `3`. -/
def exRegion : Region := ⟨7, [⟨101, 1⟩, ⟨102, 2⟩, ⟨103, 3⟩]⟩

/-- A view of `exStores` with three replicas per region, in which the random choice of a
leader region on store `1` yields `exRegion`. -/
def exClusterMulti : clusterInfo :=
  { stores := exStores, regionCount := 10, MaxPeerCount := 3,
    randLeaderRegion := fun storeID => if storeID = 1 then some exRegion else none,
    randRegion := fun _ => (none, none, none),
    idAlloc := ⟨200, false⟩ }

/-- The view `exClusterMulti` configured for five replicas per region. -/
def exClusterGate : clusterInfo := { exClusterMulti with MaxPeerCount := 5 }

/-- A view of `exStores` in which store `1` leads no region and the random choice of a
region on store `1` yields `exRegion`, led from store `2`. -/
def exClusterFollower : clusterInfo :=
  { stores := exStores, regionCount := 10, MaxPeerCount := 3,
    randLeaderRegion := fun _ => none,
    randRegion := fun storeID =>
      if storeID = 1 then (some exRegion, some ⟨102, 2⟩, some ⟨101, 1⟩) else (none, none, none),
    idAlloc := ⟨200, false⟩ }

/-- A view without stores, with three replicas per region. -/
def exClusterEmpty : clusterInfo :=
  { stores := [], regionCount := 10, MaxPeerCount := 3,
    randLeaderRegion := fun _ => none, randRegion := fun _ => (none, none, none),
    idAlloc := ⟨200, false⟩ }

/-- A default balancer for a region with the two peers on the stores `1` and `2`. -/
def exDbUnder : defaultBalancer := ⟨exRbHalf, ⟨9, [⟨101, 1⟩, ⟨102, 2⟩]⟩, ⟨101, 1⟩⟩

/-- The second store of `exStoresSnap`. -/
def exSnap2 : storeInfo := ⟨2, ⟨1, 10, 100, 70, 0, 0⟩, 30⟩

/-- A balancer with the snapshot-count filter at three snapshots each way. -/
def exRbSnap : resourceBalancer := ⟨[snapCountFilter 3 3], ⟨⟨false, 1, -1⟩⟩⟩

/-- The stores of `exStores` where store `1` sends three snapshots and store `4` receives
three, preceded by a nil entry. -/
def exStoresSnap : List (Option storeInfo) :=
  [none, some ⟨1, ⟨9, 10, 100, 10, 3, 0⟩, 90⟩, some exSnap2,
   some ⟨3, ⟨0, 10, 100, 70, 0, 0⟩, 30⟩, some ⟨4, ⟨0, 0, 100, 90, 0, 3⟩, 10⟩]

/-- The plan of `exBalanceFollower`. -/
def exPlanFollower : balanceOperator :=
  ⟨exRegion, [Operator.AddPeer 7 ⟨201, 4⟩, Operator.RemovePeer 7 (some ⟨101, 1⟩)]⟩

/-- A region with a single peer, on store `1`. -/
def exRegionSingle : Region := ⟨8, [⟨10, 1⟩]⟩

/-- The plan of `exBalanceMulti`. -/
def exPlanMulti : balanceOperator :=
  ⟨exRegion, [Operator.TransferLeader 7 ⟨101, 1⟩ ⟨103, 3⟩ 10, Operator.AddPeer 7 ⟨201, 4⟩,
    Operator.RemovePeer 7 (some ⟨101, 1⟩)]⟩

/-- A default balancer for `exRegion`, one peer more than `exClusterPair` asks for. -/
def exDbOver : defaultBalancer := ⟨exRbHalf, exRegion, ⟨101, 1⟩⟩

/-- The view `exClusterMulti` configured for two replicas per region. -/
def exClusterPair : clusterInfo := { exClusterMulti with MaxPeerCount := 2 }

/-- The view `exClusterMulti` with an id allocator that cannot produce ids. -/
def exClusterDown : clusterInfo := { exClusterMulti with idAlloc := ⟨200, true⟩ }

/-- A store that leads the only region of `exClusterOne`. -/
def exStoreLead : storeInfo := ⟨2, ⟨1, 1, 100, 90, 0, 0⟩, 10⟩

/-- A view with a single region and one replica per region. -/
def exClusterOne : clusterInfo :=
  { stores := [⟨1, ⟨0, 0, 100, 5, 0, 0⟩, 95⟩, exStoreLead], regionCount := 1, MaxPeerCount := 1,
    randLeaderRegion := fun _ => none, randRegion := fun _ => (none, none, none),
    idAlloc := ⟨100, false⟩ }

/-- Four stores with the same statistics. -/
def exStoresEven : List storeInfo :=
  [⟨1, ⟨3, 9, 100, 50, 0, 0⟩, 50⟩, ⟨2, ⟨3, 9, 100, 50, 0, 0⟩, 50⟩,
   ⟨3, ⟨3, 9, 100, 50, 0, 0⟩, 50⟩, ⟨4, ⟨3, 9, 100, 50, 0, 0⟩, 50⟩]

/-- A view of `exStoresEven` with twelve regions, three replicas per region, in which the
random choice of a leader region yields `exRegion`. -/
def exClusterEven : clusterInfo :=
  { stores := exStoresEven, regionCount := 12, MaxPeerCount := 3,
    randLeaderRegion := fun _ => some exRegion,
    randRegion := fun _ => (none, none, none),
    idAlloc := ⟨200, false⟩ }

/-- A balancer without filters whose `MaxDiffScoreFraction` is `10^18`. -/
def exRbHuge : resourceBalancer := ⟨[], ⟨⟨false, 3814697265625, 18⟩⟩⟩

/-- A store whose leader count is the greatest whose hundredfold fits in an `int`. -/
def exStoreWrap : storeInfo := ⟨1, ⟨92233720368547758, 1, 100, 99, 0, 0⟩, 1⟩

/-- A view of `exStoreWrap` alone whose region count is `2^63 - 8`. -/
def exClusterWrap : clusterInfo :=
  { stores := [exStoreWrap], regionCount := 9223372036854775800, MaxPeerCount := 1,
    randLeaderRegion := fun _ => none, randRegion := fun _ => (none, none, none),
    idAlloc := ⟨100, false⟩ }

set_option maxRecDepth 100000

/-! ## Theorems about store selection -/

theorem filterFrom_cond (rb : resourceBalancer) (useFilter : Bool) (s : storeInfo) :
    (useFilter && rb.filterFromStore s) = true ↔ ¬ qualifiesFrom rb useFilter s := by
  unfold qualifiesFrom
  cases useFilter <;> cases rb.filterFromStore s <;> simp

theorem fromLoop_some (rb : resourceBalancer) (N : Int) (uf : Bool) :
    ∀ (rest l1 l2 : List (Option storeInfo)) (r : storeInfo),
      qualifiesFrom rb uf r →
      (∀ s, some s ∈ l1 → qualifiesFrom rb uf s → ownScore rb N s < ownScore rb N r) →
      (∀ s, some s ∈ l2 → qualifiesFrom rb uf s → ownScore rb N s ≤ ownScore rb N r) →
      ∃ r', rb.selectFromStoreLoop N uf rest (ownScore rb N r) (some r) = some r' ∧
        FirstMax (qualifiesFrom rb uf) (ownScore rb N) (l1 ++ some r :: l2 ++ rest) r' := by
  intro rest
  induction rest with
  | nil =>
    intro l1 l2 r hq h1 h2
    exact ⟨r, rfl, hq, l1, l2, by simp, h1, h2⟩
  | cons x rest ih =>
    intro l1 l2 r hq h1 h2
    cases x with
    | none =>
      obtain ⟨r', hr', hf⟩ := ih l1 (l2 ++ [none]) r hq h1 (by
        intro s hs; simp at hs; exact h2 s hs)
      refine ⟨r', by simpa [resourceBalancer.selectFromStoreLoop] using hr', ?_⟩
      simpa using hf
    | some x =>
      by_cases hx : qualifiesFrom rb uf x
      · have hc : (uf && rb.filterFromStore x) = false := by
          have := (filterFrom_cond rb uf x).not.mpr (not_not.mpr hx)
          simpa using this
        by_cases hgt : ownScore rb N x > ownScore rb N r
        · obtain ⟨r', hr', hf⟩ := ih (l1 ++ some r :: l2) [] x hx (by
            intro s hs hqs
            simp at hs
            rcases hs with hs | hs | hs
            · exact lt_trans (h1 s hs hqs) hgt
            · subst hs; exact hgt
            · exact lt_of_le_of_lt (h2 s hs hqs) hgt) (by simp)
          refine ⟨r', ?_, ?_⟩
          · simp only [resourceBalancer.selectFromStoreLoop, hc]
            have hgt' : rb.score x x.stats.LeaderRegionCount N > ownScore rb N r := hgt
            simpa [hgt'] using hr'
          · simpa using hf
        · obtain ⟨r', hr', hf⟩ := ih l1 (l2 ++ [some x]) r hq h1 (by
            intro s hs hqs
            simp at hs
            rcases hs with hs | hs
            · exact h2 s hs hqs
            · subst hs; exact not_lt.mp hgt)
          refine ⟨r', ?_, ?_⟩
          · simp only [resourceBalancer.selectFromStoreLoop, hc]
            have hgt' : ¬ rb.score x x.stats.LeaderRegionCount N > ownScore rb N r := hgt
            simpa [hgt'] using hr'
          · simpa using hf
      · have hc : (uf && rb.filterFromStore x) = true := (filterFrom_cond rb uf x).mpr hx
        obtain ⟨r', hr', hf⟩ := ih l1 (l2 ++ [some x]) r hq h1 (by
          intro s hs hqs
          simp at hs
          rcases hs with hs | hs
          · exact h2 s hs hqs
          · subst hs; exact absurd hqs hx)
        refine ⟨r', ?_, ?_⟩
        · simpa [resourceBalancer.selectFromStoreLoop, hc] using hr'
        · simpa using hf

theorem fromLoop_none (rb : resourceBalancer) (N : Int) (uf : Bool) :
    ∀ (rest pre : List (Option storeInfo)) (score : Int),
      (∀ s, some s ∈ pre → ¬ qualifiesFrom rb uf s) →
      (rb.selectFromStoreLoop N uf rest score none = none ∧
          ∀ s, some s ∈ pre ++ rest → ¬ qualifiesFrom rb uf s) ∨
        ∃ r', rb.selectFromStoreLoop N uf rest score none = some r' ∧
          FirstMax (qualifiesFrom rb uf) (ownScore rb N) (pre ++ rest) r' := by
  intro rest
  induction rest with
  | nil =>
    intro pre score hpre
    exact Or.inl ⟨rfl, by simpa using hpre⟩
  | cons x rest ih =>
    intro pre score hpre
    cases x with
    | none =>
      have := ih (pre ++ [none]) score (by intro s hs; simp at hs; exact hpre s hs)
      simpa [resourceBalancer.selectFromStoreLoop] using this
    | some x =>
      by_cases hx : qualifiesFrom rb uf x
      · have hc : (uf && rb.filterFromStore x) = false := by
          have := (filterFrom_cond rb uf x).not.mpr (not_not.mpr hx)
          simpa using this
        obtain ⟨r', hr', hf⟩ := fromLoop_some rb N uf rest pre [] x hx
          (by intro s hs hqs; exact absurd hqs (hpre s hs)) (by simp)
        refine Or.inr ⟨r', ?_, ?_⟩
        · simp only [resourceBalancer.selectFromStoreLoop, hc]
          simpa [ownScore] using hr'
        · simpa using hf
      · have hc : (uf && rb.filterFromStore x) = true := (filterFrom_cond rb uf x).mpr hx
        have := ih (pre ++ [some x]) score (by
          intro s hs
          simp at hs
          rcases hs with hs | hs
          · exact hpre s hs
          · subst hs; exact hx)
        simpa [resourceBalancer.selectFromStoreLoop, hc] using this

theorem toLoop_skip (rb : resourceBalancer) (ex : List Nat) (N : Int) (uf : Bool)
    (x : storeInfo) (rest : List (Option storeInfo)) (score : Int) (res : Option storeInfo)
    (hx : ¬ qualifiesTo rb ex uf x) :
    rb.selectToStoreLoop ex N uf (some x :: rest) score res =
      rb.selectToStoreLoop ex N uf rest score res := by
  unfold qualifiesTo at hx
  by_cases he : x.id ∈ ex
  · simp [resourceBalancer.selectToStoreLoop, he]
  · have hf : (uf && rb.filterToStore x) = true := by
      cases uf <;> cases hft : rb.filterToStore x <;> simp_all
    simp [resourceBalancer.selectToStoreLoop, he, hf]

theorem toLoop_keep (rb : resourceBalancer) (ex : List Nat) (N : Int) (uf : Bool)
    (x : storeInfo) (rest : List (Option storeInfo)) (score : Int) (res : Option storeInfo)
    (hx : qualifiesTo rb ex uf x) :
    rb.selectToStoreLoop ex N uf (some x :: rest) score res =
      match res with
      | none => rb.selectToStoreLoop ex N uf rest (ownScore rb N x) (some x)
      | some _ =>
        if ownScore rb N x < score then
          rb.selectToStoreLoop ex N uf rest (ownScore rb N x) (some x)
        else rb.selectToStoreLoop ex N uf rest score res := by
  obtain ⟨he, hf⟩ := hx
  have hf' : (uf && rb.filterToStore x) = false := by
    cases uf <;> cases hft : rb.filterToStore x <;> simp_all
  simp [resourceBalancer.selectToStoreLoop, he, hf', ownScore]

theorem toLoop_some (rb : resourceBalancer) (ex : List Nat) (N : Int) (uf : Bool) :
    ∀ (rest l1 l2 : List (Option storeInfo)) (r : storeInfo),
      qualifiesTo rb ex uf r →
      (∀ s, some s ∈ l1 → qualifiesTo rb ex uf s → ownScore rb N r < ownScore rb N s) →
      (∀ s, some s ∈ l2 → qualifiesTo rb ex uf s → ownScore rb N r ≤ ownScore rb N s) →
      ∃ r', rb.selectToStoreLoop ex N uf rest (ownScore rb N r) (some r) = some r' ∧
        FirstMin (qualifiesTo rb ex uf) (ownScore rb N) (l1 ++ some r :: l2 ++ rest) r' := by
  intro rest
  induction rest with
  | nil =>
    intro l1 l2 r hq h1 h2
    exact ⟨r, rfl, hq, l1, l2, by simp, h1, h2⟩
  | cons x rest ih =>
    intro l1 l2 r hq h1 h2
    cases x with
    | none =>
      obtain ⟨r', hr', hf⟩ := ih l1 (l2 ++ [none]) r hq h1 (by
        intro s hs; simp at hs; exact h2 s hs)
      refine ⟨r', by simpa [resourceBalancer.selectToStoreLoop] using hr', ?_⟩
      simpa using hf
    | some x =>
      by_cases hx : qualifiesTo rb ex uf x
      · rw [toLoop_keep rb ex N uf x rest _ _ hx]
        by_cases hlt : ownScore rb N x < ownScore rb N r
        · obtain ⟨r', hr', hf⟩ := ih (l1 ++ some r :: l2) [] x hx (by
            intro s hs hqs
            simp at hs
            rcases hs with hs | hs | hs
            · exact lt_trans hlt (h1 s hs hqs)
            · subst hs; exact hlt
            · exact lt_of_lt_of_le hlt (h2 s hs hqs)) (by simp)
          refine ⟨r', by simpa [hlt] using hr', ?_⟩
          simpa using hf
        · obtain ⟨r', hr', hf⟩ := ih l1 (l2 ++ [some x]) r hq h1 (by
            intro s hs hqs
            simp at hs
            rcases hs with hs | hs
            · exact h2 s hs hqs
            · subst hs; exact not_lt.mp hlt)
          refine ⟨r', by simpa [hlt] using hr', ?_⟩
          simpa using hf
      · rw [toLoop_skip rb ex N uf x rest _ _ hx]
        obtain ⟨r', hr', hf⟩ := ih l1 (l2 ++ [some x]) r hq h1 (by
          intro s hs hqs
          simp at hs
          rcases hs with hs | hs
          · exact h2 s hs hqs
          · subst hs; exact absurd hqs hx)
        exact ⟨r', hr', by simpa using hf⟩

theorem toLoop_none (rb : resourceBalancer) (ex : List Nat) (N : Int) (uf : Bool) :
    ∀ (rest pre : List (Option storeInfo)) (score : Int),
      (∀ s, some s ∈ pre → ¬ qualifiesTo rb ex uf s) →
      (rb.selectToStoreLoop ex N uf rest score none = none ∧
          ∀ s, some s ∈ pre ++ rest → ¬ qualifiesTo rb ex uf s) ∨
        ∃ r', rb.selectToStoreLoop ex N uf rest score none = some r' ∧
          FirstMin (qualifiesTo rb ex uf) (ownScore rb N) (pre ++ rest) r' := by
  intro rest
  induction rest with
  | nil =>
    intro pre score hpre
    exact Or.inl ⟨rfl, by simpa using hpre⟩
  | cons x rest ih =>
    intro pre score hpre
    cases x with
    | none =>
      have := ih (pre ++ [none]) score (by intro s hs; simp at hs; exact hpre s hs)
      simpa [resourceBalancer.selectToStoreLoop] using this
    | some x =>
      by_cases hx : qualifiesTo rb ex uf x
      · rw [toLoop_keep rb ex N uf x rest _ _ hx]
        obtain ⟨r', hr', hf⟩ := toLoop_some rb ex N uf rest pre [] x hx
          (by intro s hs hqs; exact absurd hqs (hpre s hs)) (by simp)
        exact Or.inr ⟨r', hr', by simpa using hf⟩
      · rw [toLoop_skip rb ex N uf x rest _ _ hx]
        have := ih (pre ++ [some x]) score (by
          intro s hs
          simp at hs
          rcases hs with hs | hs
          · exact hpre s hs
          · subst hs; exact hx)
        simpa using this

/-- What `selectToStore` returns: nothing exactly when no entry qualifies as a target,
and otherwise the first qualifying entry of least score. -/
theorem selectToStore_spec (rb : resourceBalancer) (stores : List (Option storeInfo))
    (excluded : List Nat) (regionCount : Int) (useFilter : Bool) :
    (rb.selectToStore stores excluded regionCount useFilter = none ∧
        ∀ s, some s ∈ stores → ¬ qualifiesTo rb excluded useFilter s) ∨
      ∃ r, rb.selectToStore stores excluded regionCount useFilter = some r ∧
        FirstMin (qualifiesTo rb excluded useFilter) (ownScore rb regionCount) stores r := by
  have := toLoop_none rb excluded regionCount useFilter stores [] 0 (by simp)
  simpa [resourceBalancer.selectToStore] using this

/-- What `selectFromStore` returns: nothing exactly when no entry qualifies as a source,
and otherwise the first qualifying entry of greatest score. -/
theorem selectFromStore_spec (rb : resourceBalancer) (stores : List (Option storeInfo))
    (regionCount : Int) (useFilter : Bool) :
    (rb.selectFromStore stores regionCount useFilter = none ∧
        ∀ s, some s ∈ stores → ¬ qualifiesFrom rb useFilter s) ∨
      ∃ r, rb.selectFromStore stores regionCount useFilter = some r ∧
        FirstMax (qualifiesFrom rb useFilter) (ownScore rb regionCount) stores r := by
  have := fromLoop_none rb regionCount useFilter stores [] 0 (by simp)
  simpa [resourceBalancer.selectFromStore] using this

/-- A peer returned by `selectAddPeer` lives on the store `selectToStore` chose. -/
theorem selectAddPeer_some (rb : resourceBalancer) (cluster : clusterInfo)
    (stores : List (Option storeInfo)) (excluded : List Nat) (p : Peer) (alloc : idAllocator)
    (h : rb.selectAddPeer cluster stores excluded = (.ok (some p), alloc)) :
    ∃ store, rb.selectToStore stores excluded cluster.regionCount true = some store ∧
      p.StoreId = store.id ∧ cluster.idAlloc.Alloc = (.ok p.Id, alloc) := by
  unfold resourceBalancer.selectAddPeer at h
  cases hs : rb.selectToStore stores excluded cluster.regionCount true with
  | none => simp [hs] at h
  | some store =>
    rw [hs] at h
    rcases ha : cluster.idAlloc.Alloc with ⟨res, al⟩
    rw [ha] at h
    cases res with
    | error e => simp at h
    | ok id =>
      simp only [Prod.mk.injEq, Except.ok.injEq, Option.some.injEq] at h
      obtain ⟨hp, hal⟩ := h
      subst hp hal
      exact ⟨store, rfl, rfl, rfl⟩

/-- C1: `selectFromStore` returns nothing exactly when no non-nil entry of the list
qualifies as a source; a store it returns is the first entry of the list, in list order,
that qualifies and whose score (with its own leader count) is greatest among the
qualifying entries. -/
theorem selectFromStore_first_max (rb : resourceBalancer) (stores : List (Option storeInfo))
    (regionCount : Int) (useFilter : Bool) :
    (rb.selectFromStore stores regionCount useFilter = none ↔
        ∀ s, some s ∈ stores → ¬ qualifiesFrom rb useFilter s) ∧
      ∀ r, rb.selectFromStore stores regionCount useFilter = some r →
        FirstMax (qualifiesFrom rb useFilter)
          (fun s => rb.score s s.stats.LeaderRegionCount regionCount) stores r := by
  unfold resourceBalancer.selectFromStore
  rcases fromLoop_none rb regionCount useFilter stores [] 0 (by simp) with ⟨h, hn⟩ | ⟨r', h, hf⟩
  · simp only [List.nil_append] at hn
    exact ⟨⟨fun _ => hn, fun _ => h⟩, fun r hr => (by rw [h] at hr; cases hr)⟩
  · simp only [List.nil_append] at hf
    refine ⟨⟨fun hnone => (by rw [h] at hnone; cases hnone), fun hall => ?_⟩, fun r hr => ?_⟩
    · obtain ⟨hq, l1, l2, hl, -, -⟩ := hf
      exact absurd hq (hall r' (by rw [hl]; simp))
    · rw [h] at hr
      cases hr
      exact hf

/-- C2: `selectToStore` returns nothing exactly when no non-nil entry of the list
qualifies as a target (not excluded and, with the filters on, not rejected by
`filterToStore`); a store it returns qualifies, so its id is not excluded and no filter in
use rejects it, and it is the first entry of the list whose score is least among the
qualifying entries. Every peer returned by `selectAddPeer` has a `StoreId` that is not
excluded. -/
theorem selectToStore_first_min (rb : resourceBalancer) (cluster : clusterInfo)
    (stores : List (Option storeInfo)) (excluded : List Nat) (regionCount : Int)
    (useFilter : Bool) :
    (rb.selectToStore stores excluded regionCount useFilter = none ↔
        ∀ s, some s ∈ stores → ¬ qualifiesTo rb excluded useFilter s) ∧
      (∀ r, rb.selectToStore stores excluded regionCount useFilter = some r →
        r.id ∉ excluded ∧ (useFilter = true → rb.filterToStore r = false) ∧
        FirstMin (qualifiesTo rb excluded useFilter)
          (fun s => rb.score s s.stats.LeaderRegionCount regionCount) stores r) ∧
      ∀ p alloc, rb.selectAddPeer cluster stores excluded = (.ok (some p), alloc) →
        p.StoreId ∉ excluded := by
  refine ⟨?_, ?_, ?_⟩
  · rcases selectToStore_spec rb stores excluded regionCount useFilter with ⟨h, hn⟩ | ⟨r', h, hf⟩
    · exact ⟨fun _ => hn, fun _ => h⟩
    · refine ⟨fun hnone => (by rw [h] at hnone; cases hnone), fun hall => ?_⟩
      obtain ⟨hq, l1, l2, hl, -, -⟩ := hf
      exact absurd hq (hall r' (by rw [hl]; simp))
  · intro r hr
    rcases selectToStore_spec rb stores excluded regionCount useFilter with ⟨h, -⟩ | ⟨r', h, hf⟩
    · rw [h] at hr; cases hr
    · rw [h] at hr
      cases hr
      refine ⟨hf.1.1, fun hu => ?_, hf⟩
      rcases hf.1.2 with h' | h'
      · rw [hu] at h'; cases h'
      · exact h'
  · intro p alloc hp
    obtain ⟨store, hs, hid, -⟩ := selectAddPeer_some rb cluster stores excluded p alloc hp
    rcases selectToStore_spec rb stores excluded cluster.regionCount true with ⟨h, -⟩ | ⟨r', h, hf⟩
    · rw [h] at hs; cases hs
    · rw [h] at hs
      cases hs
      rw [hid]
      exact hf.1.1

/-- C1 at `exStoresSnap` with the filters on: store `1` has the greatest score but sends
three snapshots and is rejected, and store `2` is chosen before store `3`. -/
theorem selectFromStore_first_max_witness :
    exRbSnap.selectFromStore exStoresSnap 10 true = some exSnap2 ∧
      FirstMax (qualifiesFrom exRbSnap true)
        (fun s => exRbSnap.score s s.stats.LeaderRegionCount 10) exStoresSnap exSnap2 :=
  ⟨by decide, (selectFromStore_first_max exRbSnap exStoresSnap 10 true).2 exSnap2 (by decide)⟩

/-- C2 at `exStoresSnap` with store `3` excluded and the filters on: store `4` has the
least score but receives three snapshots and is rejected, and store `2` is chosen; the
peer of `selectAddPeer` is on store `2`. -/
theorem selectToStore_first_min_witness :
    exRbSnap.selectToStore exStoresSnap [3] 10 true = some exSnap2 ∧
      exRbSnap.selectAddPeer exClusterMulti exStoresSnap [3] =
        (.ok (some ⟨201, 2⟩), ⟨201, false⟩) ∧
      (exSnap2.id ∉ [3] ∧ (true = true → exRbSnap.filterToStore exSnap2 = false) ∧
        FirstMin (qualifiesTo exRbSnap [3] true)
          (fun s => exRbSnap.score s s.stats.LeaderRegionCount 10) exStoresSnap exSnap2) ∧
      (⟨201, 2⟩ : Peer).StoreId ∉ [3] :=
  ⟨by decide, by rfl,
    (selectToStore_first_min exRbSnap exClusterMulti exStoresSnap [3] 10 true).2.1 exSnap2
      (by decide),
    (selectToStore_first_min exRbSnap exClusterMulti exStoresSnap [3] 10 true).2.2 ⟨201, 2⟩
      ⟨201, false⟩ (by rfl)⟩

/-! ## Rounding -/

theorem excess_min : ∀ (fuel M : Nat), M < 2 ^ 53 * 2 ^ fuel →
    ∀ j, M / 2 ^ j < 2 ^ 53 → F64.excess fuel M ≤ j := by
  intro fuel
  induction fuel with
  | zero => intro M _ j _; simp [F64.excess]
  | succ fuel ih =>
    intro M hM j hj
    unfold F64.excess
    split
    · exact Nat.zero_le _
    · rename_i hge
      cases j with
      | zero => simp at hj; exact absurd hj hge
      | succ j =>
        have h1 : M / 2 < 2 ^ 53 * 2 ^ fuel := by
          rw [Nat.div_lt_iff_lt_mul (by norm_num)]
          calc M < 2 ^ 53 * 2 ^ (fuel + 1) := hM
            _ = 2 ^ 53 * 2 ^ fuel * 2 := by ring
        have h2 : M / 2 / 2 ^ j < 2 ^ 53 := by
          rw [Nat.div_div_eq_div_mul, ← pow_succ']
          exact hj
        have := ih (M / 2) h1 j h2
        omega

theorem excess_self_le (M j : Nat) (h : M / 2 ^ j < 2 ^ 53) : F64.excess M M ≤ j := by
  refine excess_min M M ?_ j h
  calc M < 2 ^ M := Nat.lt_two_pow M
    _ ≤ 2 ^ 53 * 2 ^ M := Nat.le_mul_of_pos_left _ (by positivity)

theorem round_neg (neg : Bool) (M : Nat) (E : Int) : (F64.round neg M E).neg = neg := by
  unfold F64.round
  simp only
  split
  · rfl
  · split <;> rfl

/-- The shift chosen by `round` when the exact value is below `2^53` and `E ≤ 0`. -/
theorem round_shift_le (M j : Nat) (E : Int) (hE : E = -(j : Int)) (hx : M < 2 ^ 53 * 2 ^ j) :
    max (F64.excess M M) (Int.toNat (-1074 - E)) ≤ j := by
  have h1 : F64.excess M M ≤ j := excess_self_le M j (by
    rw [Nat.div_lt_iff_lt_mul (by positivity)]; exact hx)
  have h2 : Int.toNat (-1074 - E) ≤ j := by omega
  exact max_le h1 h2

theorem round_exact_of_lt (neg : Bool) (M : Nat) (E : Int) (hE : 0 ≤ E) (hM : M < 2 ^ 53) :
    F64.round neg M E = ⟨neg, M, E⟩ := by
  have h1 : F64.excess M M = 0 := Nat.le_zero.mp (excess_self_le M 0 (by simpa using hM))
  have h2 : Int.toNat (-1074 - E) = 0 := by omega
  simp [F64.round, h1, h2]

/-- Rounding never falls below a natural number that the exact value reaches, for exact
values below `2^53`. The comparison `n ≤ mant * 2^exp` is written without fractions. -/
theorem round_lower (M : Nat) (E : Int) (n : Nat)
    (hx : M * 2 ^ E.toNat < 2 ^ 53 * 2 ^ (-E).toNat)
    (hn : n * 2 ^ (-E).toNat ≤ M * 2 ^ E.toNat) :
    n * 2 ^ (-(F64.round false M E).exp).toNat ≤
      (F64.round false M E).mant * 2 ^ (F64.round false M E).exp.toNat := by
  rcases le_or_lt 0 E with hE | hE
  · have h0 : (-E).toNat = 0 := by omega
    rw [h0] at hx hn
    have hp : 0 < 2 ^ E.toNat := by positivity
    have hM : M < 2 ^ 53 :=
      calc M = M * 1 := (mul_one M).symm
        _ ≤ M * 2 ^ E.toNat := Nat.mul_le_mul_left M hp
        _ < 2 ^ 53 := by simpa using hx
    rw [round_exact_of_lt false M E hE hM]
    simpa [h0] using hn
  · obtain ⟨j, hj⟩ : ∃ j : Nat, E = -(j : Int) := ⟨(-E).toNat, by omega⟩
    have h0 : E.toNat = 0 := by omega
    have h1 : (-E).toNat = j := by omega
    rw [h0, h1] at hx hn
    simp only [pow_zero, mul_one] at hx hn
    have hk := round_shift_le M j E hj hx
    unfold F64.round
    simp only
    generalize max (F64.excess M M) (Int.toNat (-1074 - E)) = k at hk
    have hq : n * 2 ^ (j - k) ≤ M / 2 ^ k := by
      rw [Nat.le_div_iff_mul_le (by positivity), mul_assoc, ← pow_add]
      have : j - k + k = j := by omega
      rw [this]; exact hn
    have e1 : (E + (k : Int)).toNat = 0 := by omega
    have e2 : (-(E + (k : Int))).toNat = j - k := by omega
    split
    · rename_i hk0
      subst hk0
      simpa [h0, h1] using hn
    · split
      · simp only [e1, e2, pow_zero, mul_one]; omega
      · simp only [e1, e2, pow_zero, mul_one]; exact hq

/-- Rounding never exceeds a natural number below `2^53` that bounds the exact value. -/
theorem round_upper (M : Nat) (E : Int) (n : Nat) (hn53 : n < 2 ^ 53)
    (hn : M * 2 ^ E.toNat ≤ n * 2 ^ (-E).toNat) :
    (F64.round false M E).mant * 2 ^ (F64.round false M E).exp.toNat ≤
      n * 2 ^ (-(F64.round false M E).exp).toNat := by
  have hx : M * 2 ^ E.toNat < 2 ^ 53 * 2 ^ (-E).toNat :=
    lt_of_le_of_lt hn (Nat.mul_lt_mul_of_pos_right hn53 (by positivity))
  rcases le_or_lt 0 E with hE | hE
  · have h0 : (-E).toNat = 0 := by omega
    rw [h0] at hx hn
    have hp : 0 < 2 ^ E.toNat := by positivity
    have hM : M < 2 ^ 53 :=
      calc M = M * 1 := (mul_one M).symm
        _ ≤ M * 2 ^ E.toNat := Nat.mul_le_mul_left M hp
        _ < 2 ^ 53 := by simpa using hx
    rw [round_exact_of_lt false M E hE hM]
    simpa [h0] using hn
  · obtain ⟨j, hj⟩ : ∃ j : Nat, E = -(j : Int) := ⟨(-E).toNat, by omega⟩
    have h0 : E.toNat = 0 := by omega
    have h1 : (-E).toNat = j := by omega
    rw [h0, h1] at hx hn
    simp only [pow_zero, mul_one] at hx hn
    have hk := round_shift_le M j E hj hx
    unfold F64.round
    simp only
    generalize max (F64.excess M M) (Int.toNat (-1074 - E)) = k at hk
    have hjk : n * 2 ^ j = n * 2 ^ (j - k) * 2 ^ k := by
      rw [mul_assoc, ← pow_add]
      have : j - k + k = j := by omega
      rw [this]
    have hq : M / 2 ^ k ≤ n * 2 ^ (j - k) :=
      Nat.div_le_of_le_mul (by rw [mul_comm, ← hjk]; exact hn)
    have e1 : (E + (k : Int)).toNat = 0 := by omega
    have e2 : (-(E + (k : Int))).toNat = j - k := by omega
    split
    · rename_i hk0
      subst hk0
      simpa [h0, h1] using hn
    · rename_i hk0
      split
      · rename_i hup
        simp only [e1, e2, pow_zero, mul_one]
        have hr : 0 < M % 2 ^ k := by
          have hhalf : 0 < 2 ^ (k - 1) := by positivity
          rcases hup with h | ⟨h, -⟩ <;> omega
        by_contra hcon
        have hge : n * 2 ^ (j - k) ≤ M / 2 ^ k := by omega
        have hmul : n * 2 ^ (j - k) * 2 ^ k ≤ M / 2 ^ k * 2 ^ k :=
          Nat.mul_le_mul_right _ hge
        have hdm := Nat.div_add_mod M (2 ^ k)
        rw [← hjk] at hmul
        have : M / 2 ^ k * 2 ^ k = 2 ^ k * (M / 2 ^ k) := mul_comm _ _
        omega
      · simp only [e1, e2, pow_zero, mul_one]; exact hq

/-! ## Binary64 values as rational numbers -/

theorem two_zpow_split (E : Int) :
    (2 : ℚ) ^ E = (2 : ℚ) ^ E.toNat / (2 : ℚ) ^ (-E).toNat := by
  rcases le_or_lt 0 E with hE | hE
  · have h0 : (-E).toNat = 0 := by omega
    have h1 : ((E.toNat : Int)) = E := Int.toNat_of_nonneg hE
    rw [h0, pow_zero, div_one, ← zpow_natCast, h1]
  · have h0 : E.toNat = 0 := by omega
    have h1 : (((-E).toNat : Int)) = -E := Int.toNat_of_nonneg (by omega)
    rw [h0, pow_zero, one_div, ← zpow_natCast, h1, zpow_neg, inv_inv]

theorem nat_le_iff_rat (X Y : Nat) (E : Int) :
    X * 2 ^ (-E).toNat ≤ Y * 2 ^ E.toNat ↔ (X : ℚ) ≤ (Y : ℚ) * (2 : ℚ) ^ E := by
  rw [two_zpow_split E, ← mul_div_assoc, le_div_iff₀ (by positivity)]
  exact_mod_cast Iff.rfl

theorem nat_ge_iff_rat (X Y : Nat) (E : Int) :
    Y * 2 ^ E.toNat ≤ X * 2 ^ (-E).toNat ↔ (Y : ℚ) * (2 : ℚ) ^ E ≤ (X : ℚ) := by
  rw [two_zpow_split E, ← mul_div_assoc, div_le_iff₀ (by positivity)]
  exact_mod_cast Iff.rfl

theorem nat_lt_iff_rat (X Y : Nat) (E : Int) :
    Y * 2 ^ E.toNat < X * 2 ^ (-E).toNat ↔ (Y : ℚ) * (2 : ℚ) ^ E < (X : ℚ) := by
  rw [two_zpow_split E, ← mul_div_assoc, div_lt_iff₀ (by positivity)]
  exact_mod_cast Iff.rfl

/-- The value of a non-negative binary64 number. -/
theorem toRat_of_nonneg (a : F64) (ha : a.neg = false) :
    a.toRat = (a.mant : ℚ) * (2 : ℚ) ^ a.exp := by
  simp [F64.toRat, F64.smant, ha]

theorem round_lower_rat (M : Nat) (E : Int) (n : Nat)
    (hx : (M : ℚ) * (2 : ℚ) ^ E < 2 ^ 53) (hn : (n : ℚ) ≤ (M : ℚ) * (2 : ℚ) ^ E) :
    (n : ℚ) ≤ (F64.round false M E).toRat := by
  rw [toRat_of_nonneg _ (round_neg _ _ _), ← nat_le_iff_rat]
  refine round_lower M E n ?_ ((nat_le_iff_rat _ _ _).mpr hn)
  have := (nat_lt_iff_rat (2 ^ 53) M E).mpr (by exact_mod_cast hx)
  exact this

theorem round_upper_rat (M : Nat) (E : Int) (n : Nat) (hn53 : n < 2 ^ 53)
    (hn : (M : ℚ) * (2 : ℚ) ^ E ≤ (n : ℚ)) :
    (F64.round false M E).toRat ≤ (n : ℚ) := by
  rw [toRat_of_nonneg _ (round_neg _ _ _), ← nat_ge_iff_rat]
  exact round_upper M E n hn53 ((nat_ge_iff_rat _ _ _).mpr hn)

/-- The integer part of a non-negative value is the greatest natural number below it. -/
theorem trunc_of_nonneg (a : F64) (ha : a.neg = false) :
    0 ≤ a.trunc ∧ ((a.trunc : ℚ) ≤ a.toRat) ∧ ∀ n : Nat, (n : ℚ) ≤ a.toRat → (n : Int) ≤ a.trunc := by
  rw [toRat_of_nonneg a ha]
  unfold F64.trunc
  simp only [ha, Bool.false_eq_true, if_false]
  refine ⟨by positivity, ?_, ?_⟩
  · rcases le_or_lt 0 a.exp with hE | hE
    · have h0 : (-a.exp).toNat = 0 := by omega
      have := (nat_le_iff_rat (a.mant * 2 ^ a.exp.toNat) a.mant a.exp).mp (by simp [h0])
      simp only [hE, if_true]
      exact_mod_cast this
    · have h0 : a.exp.toNat = 0 := by omega
      have := (nat_le_iff_rat (a.mant / 2 ^ (-a.exp).toNat) a.mant a.exp).mp (by
        rw [h0, pow_zero, mul_one]
        exact Nat.div_mul_le_self _ _)
      simp only [not_le.mpr hE, if_false]
      exact_mod_cast this
  · intro n hn
    have h := (nat_le_iff_rat n a.mant a.exp).mpr hn
    rcases le_or_lt 0 a.exp with hE | hE
    · have h0 : (-a.exp).toNat = 0 := by omega
      rw [h0, pow_zero, mul_one] at h
      simp only [hE, if_true]
      exact_mod_cast h
    · have h0 : a.exp.toNat = 0 := by omega
      rw [h0, pow_zero, mul_one] at h
      simp only [not_le.mpr hE, if_false]
      exact_mod_cast (Nat.le_div_iff_mul_le (by positivity)).mpr h

/-- Below `2^63` the conversion `int(a)` is the integer part. -/
theorem toInt_of_lt (a : F64) (ha : a.neg = false) (h : a.toRat < 2 ^ 63) :
    a.toInt = a.trunc := by
  obtain ⟨h0, h1, -⟩ := trunc_of_nonneg a ha
  have h2 : (a.trunc : ℚ) < ((2 ^ 63 : Int) : ℚ) := by
    push_cast
    exact lt_of_le_of_lt h1 h
  have h3 : a.trunc < 2 ^ 63 := by exact_mod_cast h2
  unfold F64.toInt
  simp only
  rw [if_pos ⟨by omega, h3⟩]

/-- A conversion `int(a)` with a non-negative result was in range. -/
theorem toInt_nonneg_range (a : F64) (h : 0 ≤ a.toInt) :
    a.toInt = a.trunc ∧ a.trunc < 2 ^ 63 := by
  unfold F64.toInt at h ⊢
  simp only at h ⊢
  split at h
  · rename_i hr
    rw [if_pos hr]
    exact ⟨rfl, hr.2⟩
  · norm_num at h

/-- The conversion `int(a)` is a 64-bit value. -/
theorem toInt_range (a : F64) : -2 ^ 63 ≤ a.toInt ∧ a.toInt < 2 ^ 63 := by
  unfold F64.toInt
  simp only
  split
  · rename_i hr
    exact hr
  · norm_num

/-- The conversion `int(a)` of a non-negative value below `2^63` is the integer part of
the value. -/
theorem toInt_of_nonneg (a : F64) (ha : a.neg = false) (h : a.toRat < 2 ^ 63) :
    0 ≤ a.toInt ∧ ((a.toInt : ℚ) ≤ a.toRat) ∧ ∀ n : Nat, (n : ℚ) ≤ a.toRat → (n : Int) ≤ a.toInt := by
  rw [toInt_of_lt a ha h]
  exact trunc_of_nonneg a ha

theorem ofInt_natCast (n : Nat) (hn : n < 2 ^ 53) : F64.ofInt (n : Int) = ⟨false, n, 0⟩ := by
  unfold F64.ofInt
  have h : decide ((n : Int) < 0) = false := by simp
  rw [h, Int.natAbs_ofNat]
  exact round_exact_of_lt false n 0 le_rfl hn

theorem mul_of_nonneg (a b : F64) (ha : a.neg = false) (hb : b.neg = false) :
    F64.mul a b = F64.round false (a.mant * b.mant) (a.exp + b.exp) := by
  simp [F64.mul, ha, hb]

theorem add_of_nonneg (a b : F64) (ha : a.neg = false) (hb : b.neg = false) :
    F64.add a b = F64.round false
      (a.mant * 2 ^ (a.exp - min a.exp b.exp).toNat + b.mant * 2 ^ (b.exp - min a.exp b.exp).toNat)
      (min a.exp b.exp) := by
  unfold F64.add F64.smant
  simp only [ha, hb, Bool.false_eq_true, if_false]
  have h1 : ((a.mant : Int) * 2 ^ (a.exp - min a.exp b.exp).toNat +
      (b.mant : Int) * 2 ^ (b.exp - min a.exp b.exp).toNat) =
      ((a.mant * 2 ^ (a.exp - min a.exp b.exp).toNat +
        b.mant * 2 ^ (b.exp - min a.exp b.exp).toNat : Nat) : Int) := by push_cast; rfl
  rw [h1, Int.natAbs_ofNat]
  have h2 : decide (((a.mant * 2 ^ (a.exp - min a.exp b.exp).toNat +
        b.mant * 2 ^ (b.exp - min a.exp b.exp).toNat : Nat) : Int) < 0) = false := by
    rw [decide_eq_false_iff_not]
    exact not_lt.mpr (Int.natCast_nonneg _)
  rw [h2]

/-- The exact sum that `add` rounds. -/
theorem add_exact (A B : Nat) (ea eb : Int) :
    ((A * 2 ^ (ea - min ea eb).toNat + B * 2 ^ (eb - min ea eb).toNat : Nat) : ℚ) *
        (2 : ℚ) ^ (min ea eb) = (A : ℚ) * (2 : ℚ) ^ ea + (B : ℚ) * (2 : ℚ) ^ eb := by
  have ha : (((ea - min ea eb).toNat : Int)) = ea - min ea eb :=
    Int.toNat_of_nonneg (by have := min_le_left ea eb; omega)
  have hb : (((eb - min ea eb).toNat : Int)) = eb - min ea eb :=
    Int.toNat_of_nonneg (by have := min_le_right ea eb; omega)
  push_cast
  rw [← zpow_natCast (2 : ℚ) (ea - min ea eb).toNat, ← zpow_natCast (2 : ℚ) (eb - min ea eb).toNat,
    ha, hb, add_mul, mul_assoc, mul_assoc, ← zpow_add₀ (by norm_num), ← zpow_add₀ (by norm_num)]
  simp

/-! ## Range of the scores -/

theorem wrapInt_eq (x : Int) (h1 : -2 ^ 63 ≤ x) (h2 : x < 2 ^ 63) : wrapInt x = x := by
  unfold wrapInt
  norm_num at h1 h2 ⊢
  omega

/-- With a non-negative leader count that does not exceed a non-zero region count, and
whose hundredfold fits in an `int`, `leaderScore` is the quotient and lies in `[0, 100]`. -/
theorem leaderScore_range (c N : Int) (hc : 0 ≤ c) (hc' : c * 100 < 2 ^ 63)
    (hN : N = 0 ∨ c ≤ N) : 0 ≤ leaderScore c N ∧ leaderScore c N ≤ 100 := by
  unfold leaderScore
  split
  · exact ⟨le_rfl, by norm_num⟩
  · rename_i hN0
    have hcN : c ≤ N := hN.resolve_left hN0
    have hNpos : 0 < N := by omega
    rw [wrapInt_eq (c * 100) (by norm_num; omega) hc']
    rw [Int.tdiv_eq_ediv (by omega) (by omega)]
    have h0 : 0 ≤ c * 100 / N := Int.ediv_nonneg (by omega) (by omega)
    have h1 : c * 100 / N ≤ 100 := Int.ediv_le_of_le_mul hNpos (by omega)
    rw [wrapInt_eq _ (by norm_num; omega) (by norm_num; omega)]
    exact ⟨h0, h1⟩

theorem mul_c06_le (un : Nat) (hu : un ≤ 100) :
    (F64.round false (un * 5404319552844595) (0 + -53)).toRat ≤ 60 := by
  have h := round_upper_rat (un * 5404319552844595) (0 + -53) 60 (by norm_num) (by
    rw [← nat_ge_iff_rat]
    have e1 : ((0 : Int) + -53).toNat = 0 := by decide
    have e2 : (-((0 : Int) + -53)).toNat = 53 := by decide
    rw [e1, e2]
    norm_num
    omega)
  exact_mod_cast h

theorem mul_c04_le (ln : Nat) (hl : ln ≤ 100) :
    (F64.round false (ln * 7205759403792794) (0 + -54)).toRat ≤ 40 := by
  rcases Nat.lt_or_ge ln 100 with hlt | hge
  · have h := round_upper_rat (ln * 7205759403792794) (0 + -54) 40 (by norm_num) (by
      rw [← nat_ge_iff_rat]
      have e1 : ((0 : Int) + -54).toNat = 0 := by decide
      have e2 : (-((0 : Int) + -54)).toNat = 54 := by decide
      rw [e1, e2]
      norm_num
      omega)
    exact_mod_cast h
  · have h100 : ln = 100 := le_antisymm hl hge
    subst h100
    have hr : F64.round false (100 * 7205759403792794) (0 + -54) =
        ⟨false, 5629499534213120, -47⟩ := by decide
    rw [hr, toRat_of_nonneg _ rfl]
    have := (nat_ge_iff_rat 40 5629499534213120 (-47)).mp (by decide)
    exact_mod_cast this

/-- The weighted sum of two scores in `[0, 100]`, as `score` computes it, is in `[0, 100]`. -/
theorem blend_range (un ln : Nat) (hu : un ≤ 100) (hl : ln ≤ 100) :
    0 ≤ F64.toInt (F64.add (F64.mul (F64.ofInt (un : Int)) F64.c06)
        (F64.mul (F64.ofInt (ln : Int)) F64.c04)) ∧
      F64.toInt (F64.add (F64.mul (F64.ofInt (un : Int)) F64.c06)
        (F64.mul (F64.ofInt (ln : Int)) F64.c04)) ≤ 100 := by
  rw [ofInt_natCast un (by norm_num; omega), ofInt_natCast ln (by norm_num; omega),
    mul_of_nonneg _ _ rfl rfl, mul_of_nonneg _ _ rfl rfl]
  simp only [F64.c06, F64.c04]
  have ha := mul_c06_le un hu
  have hb := mul_c04_le ln hl
  have hna := round_neg false (un * 5404319552844595) (0 + -53)
  have hnb := round_neg false (ln * 7205759403792794) (0 + -54)
  generalize F64.round false (un * 5404319552844595) (0 + -53) = a at ha hna
  generalize F64.round false (ln * 7205759403792794) (0 + -54) = b at hb hnb
  rw [toRat_of_nonneg a hna] at ha
  rw [toRat_of_nonneg b hnb] at hb
  rw [add_of_nonneg a b hna hnb]
  have hsum := round_upper_rat
    (a.mant * 2 ^ (a.exp - min a.exp b.exp).toNat + b.mant * 2 ^ (b.exp - min a.exp b.exp).toNat)
    (min a.exp b.exp) 100 (by norm_num) (by
      rw [add_exact]
      push_cast
      linarith)
  obtain ⟨h0, hfl, -⟩ := toInt_of_nonneg _ (round_neg false
    (a.mant * 2 ^ (a.exp - min a.exp b.exp).toNat + b.mant * 2 ^ (b.exp - min a.exp b.exp).toNat)
    (min a.exp b.exp)) (lt_of_le_of_lt hsum (by norm_num))
  refine ⟨h0, ?_⟩
  have : ((F64.round false
    (a.mant * 2 ^ (a.exp - min a.exp b.exp).toNat + b.mant * 2 ^ (b.exp - min a.exp b.exp).toNat)
    (min a.exp b.exp)).toInt : ℚ) ≤ ((100 : Nat) : ℚ) := le_trans hfl hsum
  exact_mod_cast this

/-- The score of a store whose used-ratio score and leader score are both in `[0, 100]`
is in `[0, 100]`. -/
theorem score_range_of (rb : resourceBalancer) (s : storeInfo) (c N : Int)
    (hu0 : 0 ≤ s.usedRatioScore) (hu1 : s.usedRatioScore ≤ 100)
    (hl0 : 0 ≤ leaderScore c N) (hl1 : leaderScore c N ≤ 100) :
    0 ≤ rb.score s c N ∧ rb.score s c N ≤ 100 := by
  obtain ⟨un, hun⟩ := Int.eq_ofNat_of_zero_le hu0
  obtain ⟨ln, hln⟩ := Int.eq_ofNat_of_zero_le hl0
  unfold resourceBalancer.score
  simp only
  rw [hun, hln]
  exact blend_range un ln (by omega) (by omega)

theorem checkScore_eq (rb : resourceBalancer) (cluster : clusterInfo)
    (oldPeer newPeer : Option Peer) (isLeaderPeer : Bool) (A B : storeInfo)
    (hA : cluster.getStore (Peer.GetStoreId oldPeer) = some A)
    (hB : cluster.getStore (Peer.GetStoreId newPeer) = some B) :
    rb.checkScore cluster oldPeer newPeer isLeaderPeer =
      decide (F64.toInt (F64.mul (F64.ofInt (ownScore rb cluster.regionCount A))
          rb.cfg.MaxDiffScoreFraction) <
        wrapInt (ownScore rb cluster.regionCount A -
          hypoScore rb cluster.regionCount B isLeaderPeer)) := by
  unfold resourceBalancer.checkScore
  simp only [hA, hB, ownScore, hypoScore]
  cases isLeaderPeer <;> simp only [Bool.false_eq_true, if_false, if_true] <;>
    split <;> rename_i h
  · exact (decide_eq_false (not_lt.mpr h)).symm
  · exact (decide_eq_true (not_le.mp h)).symm
  · exact (decide_eq_false (not_lt.mpr h)).symm
  · exact (decide_eq_true (not_le.mp h)).symm

/-- C3 (amended): with both stores in the view, a fraction in `[0, 1]` and both scores
in `[0, 2^53)`, `checkScore` returns true exactly when the score difference exceeds the
integer part of the binary64 product `float64(scoreA) * MaxDiffScoreFraction`; and whenever
it returns true, the difference exceeds `scoreA * MaxDiffScoreFraction` as exact numbers. -/
theorem checkScore_threshold (rb : resourceBalancer) (cluster : clusterInfo)
    (oldPeer newPeer : Option Peer) (isLeaderPeer : Bool) (A B : storeInfo)
    (hA : cluster.getStore (Peer.GetStoreId oldPeer) = some A)
    (hB : cluster.getStore (Peer.GetStoreId newPeer) = some B)
    (hf0 : rb.cfg.MaxDiffScoreFraction.neg = false)
    (hf1 : rb.cfg.MaxDiffScoreFraction.toRat ≤ 1)
    (hA0 : 0 ≤ ownScore rb cluster.regionCount A)
    (hA1 : ownScore rb cluster.regionCount A < 2 ^ 53)
    (hB0 : 0 ≤ hypoScore rb cluster.regionCount B isLeaderPeer)
    (hB1 : hypoScore rb cluster.regionCount B isLeaderPeer < 2 ^ 53) :
    (rb.checkScore cluster oldPeer newPeer isLeaderPeer = true ↔
        F64.toInt (F64.mul (F64.ofInt (ownScore rb cluster.regionCount A))
            rb.cfg.MaxDiffScoreFraction) <
          ownScore rb cluster.regionCount A - hypoScore rb cluster.regionCount B isLeaderPeer) ∧
      (rb.checkScore cluster oldPeer newPeer isLeaderPeer = true →
        (ownScore rb cluster.regionCount A : ℚ) * rb.cfg.MaxDiffScoreFraction.toRat <
          (ownScore rb cluster.regionCount A : ℚ) -
            (hypoScore rb cluster.regionCount B isLeaderPeer : ℚ)) := by
  have hw : wrapInt (ownScore rb cluster.regionCount A -
      hypoScore rb cluster.regionCount B isLeaderPeer) =
      ownScore rb cluster.regionCount A - hypoScore rb cluster.regionCount B isLeaderPeer :=
    wrapInt_eq _ (by norm_num at hA1 hB1 ⊢; omega) (by norm_num at hA1 hB1 ⊢; omega)
  have hiff : rb.checkScore cluster oldPeer newPeer isLeaderPeer = true ↔
      F64.toInt (F64.mul (F64.ofInt (ownScore rb cluster.regionCount A))
          rb.cfg.MaxDiffScoreFraction) <
        ownScore rb cluster.regionCount A - hypoScore rb cluster.regionCount B isLeaderPeer := by
    rw [checkScore_eq rb cluster oldPeer newPeer isLeaderPeer A B hA hB, hw]
    simp
  refine ⟨hiff, fun hc => ?_⟩
  have hlt := hiff.mp hc
  by_contra hcon
  rw [not_lt] at hcon
  obtain ⟨an, han⟩ := Int.eq_ofNat_of_zero_le hA0
  generalize hypoScore rb cluster.regionCount B isLeaderPeer = sb at *
  generalize ownScore rb cluster.regionCount A = sa at *
  subst han
  obtain ⟨m, hm⟩ : ∃ m, rb.cfg.MaxDiffScoreFraction = m := ⟨_, rfl⟩
  rw [hm] at hlt hcon hf0 hf1
  have han53 : an < 2 ^ 53 := by exact_mod_cast hA1
  rw [ofInt_natCast an han53, mul_of_nonneg _ _ rfl hf0] at hlt
  rw [toRat_of_nonneg m hf0] at hcon hf1
  have hexact : ((an * m.mant : Nat) : ℚ) * (2 : ℚ) ^ (0 + m.exp) =
      (an : ℚ) * ((m.mant : ℚ) * (2 : ℚ) ^ m.exp) := by
    push_cast; rw [zero_add]; ring
  have hprod : (F64.round false (an * m.mant) (0 + m.exp)).toRat ≤ (an : ℚ) :=
    round_upper_rat (an * m.mant) (0 + m.exp) an han53 (by
      rw [hexact]
      have h1 : (an : ℚ) * ((m.mant : ℚ) * (2 : ℚ) ^ m.exp) ≤ (an : ℚ) * 1 :=
        mul_le_mul_of_nonneg_left hf1 (by positivity)
      linarith)
  have han63 : (an : ℚ) < 2 ^ 63 := by
    have h2 : (an : ℚ) < 2 ^ 53 := by exact_mod_cast han53
    linarith [show (2 : ℚ) ^ 53 < 2 ^ 63 by norm_num]
  have hround := toInt_of_nonneg (F64.round false (an * m.mant) (0 + m.exp)) (round_neg _ _ _)
    (lt_of_le_of_lt hprod han63)
  rcases le_or_lt ((an : Int) - sb) 0 with hd | hd
  · have := hround.1
    simp only at hlt this
    omega
  · obtain ⟨n, hn⟩ := Int.eq_ofNat_of_zero_le (le_of_lt hd)
    have hnq : (n : ℚ) = (an : ℚ) - (sb : ℚ) := by
      have : ((n : Int) : ℚ) = (((an : Int) - sb : Int) : ℚ) := by rw [hn]
      push_cast at this
      exact this
    have hx : ((an * m.mant : Nat) : ℚ) * (2 : ℚ) ^ (0 + m.exp) < 2 ^ 53 := by
      rw [hexact]
      have h1 : (an : ℚ) * ((m.mant : ℚ) * (2 : ℚ) ^ m.exp) ≤ (an : ℚ) * 1 :=
        mul_le_mul_of_nonneg_left hf1 (by positivity)
      have h2 : (an : ℚ) < 2 ^ 53 := by exact_mod_cast han53
      linarith
    have hge := round_lower_rat (an * m.mant) (0 + m.exp) n hx (by
      rw [hexact, hnq]
      push_cast at hcon
      exact hcon)
    have := hround.2.2 n hge
    simp only at hlt this
    omega

theorem exScores : ownScore exRb 100 exStoreA = 10 ∧ hypoScore exRb 100 exStoreB false = 3 ∧
    F64.toInt (F64.mul (F64.ofInt 10) exFraction) = 7 := by decide

/-- C3 fails as stated: with `scoreA = 10`, `scoreB = 3` and the fraction `0.7`, whose
binary64 value is below `7/10`, the difference `7` exceeds the exact product, yet the
binary64 product rounds to `7.0` and `checkScore` returns false. -/
theorem checkScore_boundary_counterexample :
    exCluster.getStore (Peer.GetStoreId (some ⟨10, 1⟩)) = some exStoreA ∧
    exCluster.getStore (Peer.GetStoreId (some ⟨11, 2⟩)) = some exStoreB ∧
    exRb.cfg.MaxDiffScoreFraction.neg = false ∧
    exRb.cfg.MaxDiffScoreFraction.toRat ≤ 1 ∧
    exRb.checkScore exCluster (some ⟨10, 1⟩) (some ⟨11, 2⟩) false = false ∧
    (ownScore exRb exCluster.regionCount exStoreA : ℚ) * exRb.cfg.MaxDiffScoreFraction.toRat <
      (ownScore exRb exCluster.regionCount exStoreA : ℚ) -
        (hypoScore exRb exCluster.regionCount exStoreB false : ℚ) := by
  have hA : exCluster.getStore (Peer.GetStoreId (some ⟨10, 1⟩)) = some exStoreA := by decide
  have hB : exCluster.getStore (Peer.GetStoreId (some ⟨11, 2⟩)) = some exStoreB := by decide
  obtain ⟨h1, h2, h3⟩ := exScores
  have hreg : exCluster.regionCount = 100 := rfl
  have hfr : exRb.cfg.MaxDiffScoreFraction.toRat = 6305039478318694 / 2 ^ 53 := by
    rw [toRat_of_nonneg _ rfl]
    show ((6305039478318694 : Nat) : ℚ) * (2 : ℚ) ^ (-53 : Int) = _
    rw [zpow_neg]
    norm_num
  refine ⟨hA, hB, rfl, ?_, ?_, ?_⟩
  · rw [hfr]; norm_num
  · rw [checkScore_eq exRb exCluster _ _ false exStoreA exStoreB hA hB, hreg, h1, h2]
    have : exRb.cfg.MaxDiffScoreFraction = exFraction := rfl
    rw [this, h3]
    decide
  · rw [hreg, h1, h2, hfr]; norm_num

theorem exHalf_le_one : exRbHalf.cfg.MaxDiffScoreFraction.toRat ≤ 1 := by
  rw [toRat_of_nonneg _ rfl]
  show ((1 : Nat) : ℚ) * (2 : ℚ) ^ (-1 : Int) ≤ 1
  rw [zpow_neg]
  norm_num

/-- C3 (amended) at `exCluster` with the fraction `0.5`: the scores are `10` and `3`, the
product truncates to `5`, and `checkScore` returns true. -/
theorem checkScore_threshold_witness :
    exRbHalf.checkScore exCluster (some ⟨10, 1⟩) (some ⟨11, 2⟩) false = true ∧
      ((exRbHalf.checkScore exCluster (some ⟨10, 1⟩) (some ⟨11, 2⟩) false = true ↔
          F64.toInt (F64.mul (F64.ofInt (ownScore exRbHalf exCluster.regionCount exStoreA))
              exRbHalf.cfg.MaxDiffScoreFraction) <
            ownScore exRbHalf exCluster.regionCount exStoreA -
              hypoScore exRbHalf exCluster.regionCount exStoreB false) ∧
        (exRbHalf.checkScore exCluster (some ⟨10, 1⟩) (some ⟨11, 2⟩) false = true →
          (ownScore exRbHalf exCluster.regionCount exStoreA : ℚ) *
              exRbHalf.cfg.MaxDiffScoreFraction.toRat <
            (ownScore exRbHalf exCluster.regionCount exStoreA : ℚ) -
              (hypoScore exRbHalf exCluster.regionCount exStoreB false : ℚ))) :=
  ⟨by decide,
    checkScore_threshold exRbHalf exCluster (some ⟨10, 1⟩) (some ⟨11, 2⟩) false exStoreA exStoreB
      (by decide) (by decide) rfl exHalf_le_one (by decide) (by decide) (by decide) (by decide)⟩

/-! ## Followers and excluded stores -/

theorem followers_fold_excluded (leader : Peer) :
    ∀ (l : List Peer) (acc : List (Nat × Peer) × List Nat) (k : Nat),
      k ∈ (l.foldl (fun acc peer =>
        if peer.Id == leader.Id then (acc.1, peer.StoreId :: acc.2)
        else ((peer.StoreId, peer) :: acc.1, peer.StoreId :: acc.2)) acc).2 ↔
        k ∈ acc.2 ∨ ∃ p ∈ l, p.StoreId = k := by
  intro l
  induction l with
  | nil => intro acc k; simp
  | cons x l ih =>
    intro acc k
    rw [List.foldl_cons, ih]
    by_cases hx : x.Id = leader.Id
    · simp only [hx, beq_self_eq_true, if_true, List.mem_cons, exists_eq_or_imp]
      constructor
      · rintro ((h | h) | h)
        · exact Or.inr (Or.inl h.symm)
        · exact Or.inl h
        · exact Or.inr (Or.inr h)
      · rintro (h | h | h)
        · exact Or.inl (Or.inr h)
        · exact Or.inl (Or.inl h.symm)
        · exact Or.inr h
    · have hx' : (x.Id == leader.Id) = false := by simpa using hx
      simp only [hx', Bool.false_eq_true, if_false, List.mem_cons, exists_eq_or_imp]
      constructor
      · rintro ((h | h) | h)
        · exact Or.inr (Or.inl h.symm)
        · exact Or.inl h
        · exact Or.inr (Or.inr h)
      · rintro (h | h | h)
        · exact Or.inl (Or.inr h)
        · exact Or.inl (Or.inl h.symm)
        · exact Or.inr h

theorem followers_fold_lookup (leader : Peer) :
    ∀ (l : List Peer) (acc : List (Nat × Peer) × List Nat) (k : Nat) (p : Peer),
      (l.foldl (fun acc peer =>
        if peer.Id == leader.Id then (acc.1, peer.StoreId :: acc.2)
        else ((peer.StoreId, peer) :: acc.1, peer.StoreId :: acc.2)) acc).1.lookup k = some p →
        acc.1.lookup k = some p ∨ (p ∈ l ∧ p.Id ≠ leader.Id ∧ p.StoreId = k) := by
  intro l
  induction l with
  | nil => intro acc k p h; exact Or.inl h
  | cons x l ih =>
    intro acc k p h
    rw [List.foldl_cons] at h
    rcases ih _ k p h with h' | ⟨h1, h2, h3⟩
    · by_cases hx : x.Id = leader.Id
      · simp only [hx, beq_self_eq_true, if_true] at h'
        exact Or.inl h'
      · have hx' : (x.Id == leader.Id) = false := by simpa using hx
        simp only [hx', Bool.false_eq_true, if_false, List.lookup_cons] at h'
        by_cases hk : k = x.StoreId
        · subst hk
          simp only [beq_self_eq_true, Option.some.injEq] at h'
          subst h'
          exact Or.inr ⟨List.mem_cons_self _ _, hx, rfl⟩
        · have hk' : (k == x.StoreId) = false := by simpa using hk
          simp only [hk'] at h'
          exact Or.inl h'
    · exact Or.inr ⟨List.mem_cons_of_mem _ h1, h2, h3⟩

theorem followers_fold_isSome (leader : Peer) :
    ∀ (l : List Peer) (acc : List (Nat × Peer) × List Nat) (k : Nat),
      ((acc.1.lookup k).isSome = true ∨ ∃ p ∈ l, p.Id ≠ leader.Id ∧ p.StoreId = k) →
      ((l.foldl (fun acc peer =>
        if peer.Id == leader.Id then (acc.1, peer.StoreId :: acc.2)
        else ((peer.StoreId, peer) :: acc.1, peer.StoreId :: acc.2)) acc).1.lookup k).isSome
          = true := by
  intro l
  induction l with
  | nil =>
    intro acc k h
    rcases h with h | ⟨p, hp, -⟩
    · exact h
    · cases hp
  | cons x l ih =>
    intro acc k h
    rw [List.foldl_cons]
    apply ih
    by_cases hx : x.Id = leader.Id
    · simp only [hx, beq_self_eq_true, if_true]
      rcases h with h | ⟨p, hp, h2, h3⟩
      · exact Or.inl h
      · rcases List.mem_cons.mp hp with rfl | hp
        · exact absurd hx h2
        · exact Or.inr ⟨p, hp, h2, h3⟩
    · have hx' : (x.Id == leader.Id) = false := by simpa using hx
      simp only [hx', Bool.false_eq_true, if_false, List.lookup_cons]
      by_cases hk : k = x.StoreId
      · subst hk
        simp
      · have hk' : (k == x.StoreId) = false := by simpa using hk
        simp only [hk']
        rcases h with h | ⟨p, hp, h2, h3⟩
        · exact Or.inl h
        · rcases List.mem_cons.mp hp with rfl | hp
          · exact absurd h3.symm hk
          · exact Or.inr ⟨p, hp, h2, h3⟩

/-- The excluded set of `getFollowerPeers` holds exactly the store ids of the peers. -/
theorem getFollowerPeers_excluded (region : Region) (leader : Peer) (k : Nat) :
    k ∈ (getFollowerPeers region leader).2 ↔ ∃ p ∈ region.Peers, p.StoreId = k := by
  unfold getFollowerPeers
  rw [followers_fold_excluded]
  simp

/-- An entry of the follower map is a peer of the region other than the leader, stored
under its store id. -/
theorem getFollowerPeers_lookup (region : Region) (leader : Peer) (k : Nat) (p : Peer)
    (h : (getFollowerPeers region leader).1.lookup k = some p) :
    p ∈ region.Peers ∧ p.Id ≠ leader.Id ∧ p.StoreId = k := by
  unfold getFollowerPeers at h
  rcases followers_fold_lookup leader _ _ k p h with h' | h'
  · simp at h'
  · exact h'

/-- Every follower's store id is a key of the follower map. -/
theorem getFollowerPeers_isSome (region : Region) (leader : Peer) (p : Peer)
    (hp : p ∈ region.Peers) (hne : p.Id ≠ leader.Id) :
    ((getFollowerPeers region leader).1.lookup p.StoreId).isSome = true := by
  unfold getFollowerPeers
  exact followers_fold_isSome leader _ _ _ (Or.inr ⟨p, hp, hne, rfl⟩)

theorem getStore_id (cluster : clusterInfo) (k : Nat) (s : storeInfo)
    (h : cluster.getStore k = some s) : s.id = k := by
  unfold clusterInfo.getStore at h
  have := List.find?_some h
  simpa using this

theorem leaderPeer_mem (region : Region) (k : Nat) (p : Peer) (h : leaderPeer region k = some p) :
    p ∈ region.Peers ∧ p.StoreId = k := by
  unfold leaderPeer at h
  exact ⟨List.mem_of_find?_eq_some h, by simpa using List.find?_some h⟩

/-! ## Plans of the resource balancer -/

theorem FirstMin_mem {q : storeInfo → Prop} {f : storeInfo → Int}
    {stores : List (Option storeInfo)} {r : storeInfo} (h : FirstMin q f stores r) :
    some r ∈ stores := by
  obtain ⟨-, l1, l2, hl, -, -⟩ := h
  rw [hl]; simp

theorem FirstMin_le {q : storeInfo → Prop} {f : storeInfo → Int}
    {stores : List (Option storeInfo)} {r : storeInfo} (h : FirstMin q f stores r)
    (s : storeInfo) (hs : some s ∈ stores) (hq : q s) : f r ≤ f s := by
  obtain ⟨-, l1, l2, hl, h1, h2⟩ := h
  rw [hl] at hs
  simp only [List.mem_append, List.mem_cons, Option.some.injEq] at hs
  rcases hs with hs | hs | hs
  · exact le_of_lt (h1 s hs hq)
  · rw [hs]
  · exact h2 s hs hq

theorem selectBalanceRegion_leader (rb : resourceBalancer) (cluster : clusterInfo)
    (stores : List (Option storeInfo)) (region : Region) (leader : Peer)
    (follower : Option Peer)
    (h : rb.selectBalanceRegion cluster stores = (some region, some leader, follower, true)) :
    leader ∈ region.Peers := by
  unfold resourceBalancer.selectBalanceRegion at h
  cases hs : rb.selectFromStore stores cluster.regionCount true with
  | none => simp [hs] at h
  | some store =>
    simp only [hs] at h
    cases hr : cluster.randLeaderRegion store.id with
    | none => simp [hr] at h
    | some region' =>
      simp only [hr, Prod.mk.injEq, Option.some.injEq, and_true] at h
      obtain ⟨h1, h2, -⟩ := h
      subst h1
      exact (leaderPeer_mem _ _ _ h2).1

theorem selectBalanceRegion_follower (rb : resourceBalancer) (cluster : clusterInfo)
    (stores : List (Option storeInfo)) (region : Region) (leader follower : Option Peer)
    (h : rb.selectBalanceRegion cluster stores = (some region, leader, follower, false)) :
    ∃ storeID, cluster.randRegion storeID = (some region, leader, follower) := by
  unfold resourceBalancer.selectBalanceRegion at h
  cases hs : rb.selectFromStore stores cluster.regionCount true with
  | none => simp [hs] at h
  | some store =>
    simp only [hs] at h
    cases hr : cluster.randLeaderRegion store.id with
    | none =>
      rcases hrr : cluster.randRegion store.id with ⟨a, b, c⟩
      simp only [hr, hrr, Prod.mk.injEq, and_true] at h
      obtain ⟨h1, h2, h3⟩ := h
      exact ⟨store.id, by rw [hrr, h1, h2, h3]⟩
    | some region' => simp [hr] at h

theorem doLeaderBalance_ok (rb : resourceBalancer) (cluster : clusterInfo)
    (stores : List (Option storeInfo)) (region : Region) (leader newPeer : Peer)
    (order : List Nat) (w : Nat) :
    rb.doLeaderBalance cluster stores region leader newPeer order w =
      if cluster.MaxPeerCount = 1 then
        if rb.checkScore cluster (some leader) (some newPeer) true = true then
          .ok (some ⟨region, [Operator.AddPeer region.Id newPeer,
            Operator.RemovePeer region.Id (some leader)]⟩)
        else .ok none
      else if rb.checkScore cluster (some leader) (some newPeer) false = true then
        match rb.selectNewLeaderPeer cluster (getFollowerPeers region leader).1 order with
        | none => .ok none
        | some newLeader =>
          .ok (some ⟨region, [Operator.TransferLeader region.Id leader newLeader w,
            Operator.AddPeer region.Id newPeer, Operator.RemovePeer region.Id (some leader)]⟩)
      else .ok none := by
  unfold resourceBalancer.doLeaderBalance newBalanceOperator
  by_cases h1 : cluster.MaxPeerCount = 1
  · cases hc : rb.checkScore cluster (some leader) (some newPeer) true <;> simp [h1, hc]
  · cases hc : rb.checkScore cluster (some leader) (some newPeer) false <;> simp [h1, hc]

theorem doFollowerBalance_ok (rb : resourceBalancer) (cluster : clusterInfo)
    (stores : List (Option storeInfo)) (region : Region) (follower : Option Peer)
    (newPeer : Peer) :
    rb.doFollowerBalance cluster stores region follower newPeer =
      if rb.checkScore cluster follower (some newPeer) false = true then
        .ok (some ⟨region, [Operator.AddPeer region.Id newPeer,
          Operator.RemovePeer region.Id follower]⟩)
      else .ok none := by
  unfold resourceBalancer.doFollowerBalance newBalanceOperator
  cases hc : rb.checkScore cluster follower (some newPeer) false <;> simp [hc]

/-- A plan of `Balance` comes from one of the two assembly functions, for a region of the
configured peer count and a new peer chosen by `selectAddPeer`. -/
theorem Balance_some (rb : resourceBalancer) (cluster : clusterInfo) (order : List Nat)
    (w : Nat) (P : balanceOperator) (alloc : idAllocator)
    (h : rb.Balance cluster order w = (.ok (some P), alloc)) :
    ∃ region leader follower isLeaderBalance newPeer,
      rb.selectBalanceRegion cluster cluster.getStores =
        (some region, some leader, follower, isLeaderBalance) ∧
      region.Peers.length = cluster.MaxPeerCount ∧
      rb.selectAddPeer cluster cluster.getStores (getFollowerPeers region leader).2 =
        (.ok (some newPeer), alloc) ∧
      ((isLeaderBalance = true ∧
          rb.doLeaderBalance cluster cluster.getStores region leader newPeer order w =
            .ok (some P)) ∨
        (isLeaderBalance = false ∧
          rb.doFollowerBalance cluster cluster.getStores region follower newPeer =
            .ok (some P))) := by
  unfold resourceBalancer.Balance at h
  simp only at h
  split at h
  · rename_i region leader follower isLB hsel
    split at h
    · simp at h
    · rename_i hlen
      split at h
      · simp at h
      · simp at h
      · rename_i newPeer alloc' hadd
        refine ⟨region, leader, follower, isLB, newPeer, hsel, not_not.mp hlen, ?_, ?_⟩
        · split at h <;>
          · simp only [Prod.mk.injEq] at h
            rw [hadd, h.2]
        · cases isLB
          · simp only [Bool.false_eq_true, if_false, Prod.mk.injEq] at h
            exact Or.inr ⟨rfl, h.1⟩
          · simp only [if_true, Prod.mk.injEq] at h
            exact Or.inl ⟨rfl, h.1⟩
  · simp at h

/-- The store of a peer returned by `selectAddPeer` hosts no peer of the region whose
store ids were excluded. -/
theorem selectAddPeer_not_hosting (rb : resourceBalancer) (cluster : clusterInfo)
    (stores : List (Option storeInfo)) (region : Region) (leader : Peer) (p : Peer)
    (alloc : idAllocator)
    (h : rb.selectAddPeer cluster stores (getFollowerPeers region leader).2 =
      (.ok (some p), alloc)) :
    ∀ x ∈ region.Peers, p.StoreId ≠ x.StoreId := by
  intro x hx heq
  obtain ⟨store, hs, hid, -⟩ := selectAddPeer_some rb cluster stores _ p alloc h
  rcases selectToStore_spec rb stores (getFollowerPeers region leader).2 cluster.regionCount true
    with ⟨hn, -⟩ | ⟨r, hr, hf⟩
  · rw [hn] at hs; cases hs
  · rw [hr] at hs
    cases hs
    exact hf.1.1 ((getFollowerPeers_excluded region leader store.id).mpr ⟨x, hx, by rw [← heq, hid]⟩)

/-- A new leader chosen by `selectNewLeaderPeer` is a peer of the region other than the
leader. -/
theorem selectNewLeaderPeer_mem (rb : resourceBalancer) (cluster : clusterInfo)
    (region : Region) (leader : Peer) (order : List Nat) (newLeader : Peer)
    (h : rb.selectNewLeaderPeer cluster (getFollowerPeers region leader).1 order =
      some newLeader) :
    newLeader ∈ region.Peers ∧ newLeader.Id ≠ leader.Id := by
  unfold resourceBalancer.selectNewLeaderPeer at h
  simp only at h
  split at h
  · cases h
  · have := getFollowerPeers_lookup region leader _ newLeader h
    exact ⟨this.1, this.2.1⟩

/-- What `selectNewLeaderPeer` returns when `order` lists the store ids of the followers:
nothing when no follower's store is in the view, and otherwise a follower whose store is
in the view and has the least score among the stores of the followers. -/
theorem selectNewLeaderPeer_spec (rb : resourceBalancer) (cluster : clusterInfo)
    (region : Region) (leader : Peer) (order : List Nat)
    (horder : ∀ k, k ∈ order ↔ ∃ p ∈ region.Peers, p.Id ≠ leader.Id ∧ p.StoreId = k) :
    (rb.selectNewLeaderPeer cluster (getFollowerPeers region leader).1 order = none ∧
        ∀ p ∈ region.Peers, p.Id ≠ leader.Id → cluster.getStore p.StoreId = none) ∨
      ∃ newLeader store,
        rb.selectNewLeaderPeer cluster (getFollowerPeers region leader).1 order =
          some newLeader ∧
        newLeader ∈ region.Peers ∧ newLeader.Id ≠ leader.Id ∧
        cluster.getStore newLeader.StoreId = some store ∧
        ∀ f ∈ region.Peers, f.Id ≠ leader.Id → ∀ s, cluster.getStore f.StoreId = some s →
          ownScore rb cluster.regionCount store ≤ ownScore rb cluster.regionCount s := by
  have hq : ∀ s, qualifiesTo rb [] false s := fun s => ⟨by simp, Or.inl rfl⟩
  unfold resourceBalancer.selectNewLeaderPeer
  simp only
  rcases selectToStore_spec rb (order.map (fun storeID => cluster.getStore storeID)) []
    cluster.regionCount false with ⟨hn, hall⟩ | ⟨r, hr, hf⟩
  · refine Or.inl ⟨by rw [hn], fun p hp hne => ?_⟩
    cases hg : cluster.getStore p.StoreId with
    | none => rfl
    | some s =>
      exact absurd (hq s) (hall s (List.mem_map.mpr ⟨p.StoreId, (horder _).mpr ⟨p, hp, hne, rfl⟩, hg⟩))
  · obtain ⟨k, hk, hgk⟩ := List.mem_map.mp (FirstMin_mem hf)
    have hid : r.id = k := getStore_id cluster k r hgk
    obtain ⟨p, hp, hne, hpk⟩ := (horder k).mp hk
    have hsome := getFollowerPeers_isSome region leader p hp hne
    rw [hpk, ← hid] at hsome
    obtain ⟨nl, hnl⟩ := Option.isSome_iff_exists.mp hsome
    obtain ⟨h1, h2, h3⟩ := getFollowerPeers_lookup region leader _ nl hnl
    refine Or.inr ⟨nl, r, by rw [hr]; exact hnl, h1, h2, by rw [h3, hid]; exact hgk, ?_⟩
    intro f hf' hfne s hs
    exact FirstMin_le hf s (List.mem_map.mpr ⟨f.StoreId, (horder _).mpr ⟨f, hf', hfne, rfl⟩, hs⟩)
      (hq s)

/-- C5: when the region chosen by `selectBalanceRegion` has a number of peers other than
`MaxPeerCount`, `resourceBalancer.Balance` returns no plan and no error, and the id
allocator is the one of the view: no id has been allocated. -/
theorem Balance_peer_count_gate (rb : resourceBalancer) (cluster : clusterInfo)
    (order : List Nat) (maxWaitCount : Nat) (region : Region) (leader follower : Option Peer)
    (isLeaderBalance : Bool)
    (hsel : rb.selectBalanceRegion cluster cluster.getStores =
      (some region, leader, follower, isLeaderBalance))
    (hne : region.Peers.length ≠ cluster.MaxPeerCount) :
    rb.Balance cluster order maxWaitCount = (.ok none, cluster.idAlloc) := by
  unfold resourceBalancer.Balance
  simp only [hsel]
  cases leader with
  | none => rfl
  | some leader => simp [hne]

/-- C5 at `exClusterGate`: the chosen region has three peers, five are configured. -/
theorem Balance_peer_count_gate_witness :
    exRbHalf.selectBalanceRegion exClusterGate exClusterGate.getStores =
        (some exRegion, some ⟨101, 1⟩, none, true) ∧
      exRegion.Peers.length ≠ exClusterGate.MaxPeerCount ∧
      exRbHalf.Balance exClusterGate [2, 3] 10 = (.ok none, ⟨200, false⟩) :=
  ⟨by decide, by decide,
    Balance_peer_count_gate exRbHalf exClusterGate [2, 3] 10 exRegion (some ⟨101, 1⟩) none true
      (by decide) (by decide)⟩

/-- C6: a plan of `resourceBalancer.Balance` that contains a leader transfer consists of
that transfer followed by one `AddPeer` and one `RemovePeer` of the same region, so the
transfer comes first and is the only one; and when the store ids of the peers of the
planned region are pairwise distinct, the new leader is on another store than the old. -/
theorem Balance_transfer_leader_first (rb : resourceBalancer) (cluster : clusterInfo)
    (order : List Nat) (maxWaitCount : Nat) (P : balanceOperator) (alloc : idAllocator)
    (regionID : Nat) (oldLeader newLeader : Peer) (wait : Nat)
    (hP : rb.Balance cluster order maxWaitCount = (.ok (some P), alloc))
    (hT : Operator.TransferLeader regionID oldLeader newLeader wait ∈ P.ops) :
    (∃ p q, P.ops = [Operator.TransferLeader regionID oldLeader newLeader wait,
        Operator.AddPeer regionID p, Operator.RemovePeer regionID q]) ∧
      P.ops.head? = some (Operator.TransferLeader regionID oldLeader newLeader wait) ∧
      P.ops.countP Operator.isTransferLeader = 1 ∧
      ((P.region.Peers.map (fun p => p.StoreId)).Nodup →
        newLeader.StoreId ≠ oldLeader.StoreId) := by
  obtain ⟨region, leader, follower, isLB, newPeer, hsel, -, -, hdo⟩ :=
    Balance_some rb cluster order maxWaitCount P alloc hP
  rcases hdo with ⟨hLB, hdo⟩ | ⟨-, hdo⟩
  · subst hLB
    rw [doLeaderBalance_ok] at hdo
    split at hdo
    · split at hdo
      · simp only [Except.ok.injEq, Option.some.injEq] at hdo
        subst hdo
        simp at hT
      · simp at hdo
    · split at hdo
      · split at hdo
        · simp at hdo
        · rename_i nl hnl
          simp only [Except.ok.injEq, Option.some.injEq] at hdo
          subst hdo
          simp only [List.mem_cons, Operator.TransferLeader.injEq, List.mem_singleton,
            reduceCtorEq, or_false, List.not_mem_nil] at hT
          obtain ⟨h1, h2, h3, h4⟩ := hT
          subst h1 h2 h3 h4
          refine ⟨⟨newPeer, some oldLeader, rfl⟩, rfl, rfl, fun hnd heq => ?_⟩
          obtain ⟨hmem, hne⟩ := selectNewLeaderPeer_mem rb cluster region oldLeader order _ hnl
          have hl := selectBalanceRegion_leader rb cluster _ region oldLeader follower hsel
          have := List.inj_on_of_nodup_map hnd hmem hl heq
          exact hne (by rw [this])
      · simp at hdo
  · rw [doFollowerBalance_ok] at hdo
    split at hdo
    · simp only [Except.ok.injEq, Option.some.injEq] at hdo
      subst hdo
      simp at hT
    · simp at hdo

/-- The plan of `Balance` at `exClusterMulti`: leadership moves from store `1` to the
lighter follower store `3`, a peer is added on store `4`, the old leader is removed. -/
theorem exBalanceMulti :
    exRbHalf.Balance exClusterMulti [2, 3] 10 = (.ok (some exPlanMulti), ⟨201, false⟩) := by
  rfl

/-- C6 at `exClusterMulti`: the plan holds the transfer from the peer on store `1` to the
peer on store `3`, it is the first of its three operators and the only transfer, and the
two leaders are on different stores. -/
theorem Balance_transfer_leader_first_witness :
    exRbHalf.Balance exClusterMulti [2, 3] 10 = (.ok (some exPlanMulti), ⟨201, false⟩) ∧
      Operator.TransferLeader 7 ⟨101, 1⟩ ⟨103, 3⟩ 10 ∈ exPlanMulti.ops ∧
      ((∃ p q, exPlanMulti.ops = [Operator.TransferLeader 7 ⟨101, 1⟩ ⟨103, 3⟩ 10,
          Operator.AddPeer 7 p, Operator.RemovePeer 7 q]) ∧
        exPlanMulti.ops.head? = some (Operator.TransferLeader 7 ⟨101, 1⟩ ⟨103, 3⟩ 10) ∧
        exPlanMulti.ops.countP Operator.isTransferLeader = 1 ∧
        ((exPlanMulti.region.Peers.map (fun p => p.StoreId)).Nodup →
          (⟨103, 3⟩ : Peer).StoreId ≠ (⟨101, 1⟩ : Peer).StoreId)) :=
  ⟨exBalanceMulti, by decide,
    Balance_transfer_leader_first exRbHalf exClusterMulti [2, 3] 10 exPlanMulti ⟨201, false⟩ 7
      ⟨101, 1⟩ ⟨103, 3⟩ 10 exBalanceMulti (by decide)⟩

/-- C7: in a plan of `resourceBalancer.Balance`, the store of an added peer hosts no peer
of the planned region, and it differs from the store of a removed peer. The follower that
`randRegion` returns with a region is taken to be a peer of that region. -/
theorem Balance_add_remove_disjoint (rb : resourceBalancer) (cluster : clusterInfo)
    (order : List Nat) (maxWaitCount : Nat) (P : balanceOperator) (alloc : idAllocator)
    (r1 r2 : Nat) (p q : Peer)
    (hfol : ∀ storeID region leader f,
      cluster.randRegion storeID = (some region, leader, some f) → f ∈ region.Peers)
    (hP : rb.Balance cluster order maxWaitCount = (.ok (some P), alloc))
    (hadd : Operator.AddPeer r1 p ∈ P.ops)
    (hrem : Operator.RemovePeer r2 (some q) ∈ P.ops) :
    p.StoreId ≠ q.StoreId ∧ ∀ x ∈ P.region.Peers, p.StoreId ≠ x.StoreId := by
  obtain ⟨region, leader, follower, isLB, newPeer, hsel, -, hsap, hdo⟩ :=
    Balance_some rb cluster order maxWaitCount P alloc hP
  have hhost := selectAddPeer_not_hosting rb cluster _ region leader newPeer alloc hsap
  rcases hdo with ⟨hLB, hdo⟩ | ⟨hLB, hdo⟩
  · subst hLB
    have hl := selectBalanceRegion_leader rb cluster _ region leader follower hsel
    rw [doLeaderBalance_ok] at hdo
    split at hdo
    · split at hdo
      · simp only [Except.ok.injEq, Option.some.injEq] at hdo
        subst hdo
        simp only [List.mem_cons, Operator.AddPeer.injEq, reduceCtorEq, List.mem_singleton,
          or_false, List.not_mem_nil, Operator.RemovePeer.injEq, Option.some.injEq,
          false_or] at hadd hrem
        obtain ⟨-, rfl⟩ := hadd
        obtain ⟨-, rfl⟩ := hrem
        exact ⟨hhost _ hl, hhost⟩
      · simp at hdo
    · split at hdo
      · split at hdo
        · simp at hdo
        · simp only [Except.ok.injEq, Option.some.injEq] at hdo
          subst hdo
          simp only [List.mem_cons, Operator.AddPeer.injEq, reduceCtorEq, List.mem_singleton,
            or_false, List.not_mem_nil, Operator.RemovePeer.injEq, Option.some.injEq,
            false_or] at hadd hrem
          obtain ⟨-, rfl⟩ := hadd
          obtain ⟨-, rfl⟩ := hrem
          exact ⟨hhost _ hl, hhost⟩
      · simp at hdo
  · subst hLB
    obtain ⟨storeID, hrr⟩ := selectBalanceRegion_follower rb cluster _ region _ follower hsel
    rw [doFollowerBalance_ok] at hdo
    split at hdo
    · simp only [Except.ok.injEq, Option.some.injEq] at hdo
      subst hdo
      simp only [List.mem_cons, Operator.AddPeer.injEq, reduceCtorEq, List.mem_singleton,
        or_false, List.not_mem_nil, Operator.RemovePeer.injEq,
        false_or] at hadd hrem
      obtain ⟨-, rfl⟩ := hadd
      obtain ⟨-, rfl⟩ := hrem
      exact ⟨hhost _ (hfol storeID region _ q hrr), hhost⟩
    · simp at hdo

/-- The plan of `Balance` at `exClusterFollower`: the follower on store `1` moves to
store `4`. -/
theorem exBalanceFollower :
    exRbHalf.Balance exClusterFollower [] 10 = (.ok (some exPlanFollower), ⟨201, false⟩) := by
  rfl

/-- The follower that `randRegion` returns in `exClusterFollower` is a peer of the
region it returns. -/
theorem exFollowerMem (storeID : Nat) (region : Region) (leader : Option Peer) (f : Peer)
    (h : exClusterFollower.randRegion storeID = (some region, leader, some f)) :
    f ∈ region.Peers := by
  unfold exClusterFollower at h
  simp only at h
  split at h
  · simp only [Prod.mk.injEq, Option.some.injEq] at h
    obtain ⟨h1, -, h3⟩ := h
    subst h1 h3
    decide
  · simp at h

/-- C7 at `exClusterFollower`: the peer added on store `4` and the peer removed from store
`1` are on different stores, and store `4` hosts no peer of the region. -/
theorem Balance_add_remove_disjoint_witness :
    exRbHalf.Balance exClusterFollower [] 10 = (.ok (some exPlanFollower), ⟨201, false⟩) ∧
      Operator.AddPeer 7 ⟨201, 4⟩ ∈ exPlanFollower.ops ∧
      Operator.RemovePeer 7 (some ⟨101, 1⟩) ∈ exPlanFollower.ops ∧
      ((⟨201, 4⟩ : Peer).StoreId ≠ (⟨101, 1⟩ : Peer).StoreId ∧
        ∀ x ∈ exPlanFollower.region.Peers, (⟨201, 4⟩ : Peer).StoreId ≠ x.StoreId) :=
  ⟨exBalanceFollower, by decide, by decide,
    Balance_add_remove_disjoint exRbHalf exClusterFollower [] 10 exPlanFollower ⟨201, false⟩
      7 7 ⟨201, 4⟩ ⟨101, 1⟩ exFollowerMem exBalanceFollower (by decide) (by decide)⟩

/-- C8: with `MaxPeerCount == 1`, `doLeaderBalance` returns nothing when
`checkScore(leader, newPeer, true)` is false, and otherwise the plan of the two operators
`AddPeer(region.id, newPeer)`, `RemovePeer(region.id, leader)` in that order; no plan it
returns holds a leader transfer. -/
theorem doLeaderBalance_single_replica (rb : resourceBalancer) (cluster : clusterInfo)
    (stores : List (Option storeInfo)) (region : Region) (leader newPeer : Peer)
    (order : List Nat) (maxWaitCount : Nat) (h1 : cluster.MaxPeerCount = 1) :
    (rb.checkScore cluster (some leader) (some newPeer) true = false →
        rb.doLeaderBalance cluster stores region leader newPeer order maxWaitCount =
          .ok none) ∧
      (rb.checkScore cluster (some leader) (some newPeer) true = true →
        rb.doLeaderBalance cluster stores region leader newPeer order maxWaitCount =
          .ok (some ⟨region, [Operator.AddPeer region.Id newPeer,
            Operator.RemovePeer region.Id (some leader)]⟩)) ∧
      ∀ P, rb.doLeaderBalance cluster stores region leader newPeer order maxWaitCount =
          .ok (some P) → ∀ op ∈ P.ops, op.isTransferLeader = false := by
  rw [doLeaderBalance_ok]
  simp only [h1, if_true]
  refine ⟨fun h => by simp [h], fun h => by simp [h], fun P hP => ?_⟩
  split at hP
  · simp only [Except.ok.injEq, Option.some.injEq] at hP
    subst hP
    intro op hop
    simp only [List.mem_cons, List.mem_singleton, List.not_mem_nil, or_false] at hop
    rcases hop with rfl | rfl <;> rfl
  · simp at hP

/-- C8 at `exCluster`: the single replica on store `1` moves to store `2`. -/
theorem doLeaderBalance_single_replica_witness :
    exCluster.MaxPeerCount = 1 ∧
      exRbHalf.checkScore exCluster (some ⟨10, 1⟩) (some ⟨11, 2⟩) true = true ∧
      exRbHalf.doLeaderBalance exCluster exCluster.getStores exRegionSingle ⟨10, 1⟩ ⟨11, 2⟩ [] 10 =
        .ok (some ⟨exRegionSingle, [Operator.AddPeer 8 ⟨11, 2⟩,
          Operator.RemovePeer 8 (some ⟨10, 1⟩)]⟩) :=
  ⟨rfl, by decide,
    (doLeaderBalance_single_replica exRbHalf exCluster exCluster.getStores exRegionSingle
      ⟨10, 1⟩ ⟨11, 2⟩ [] 10 rfl).2.1 (by decide)⟩

/-- C9: with `MaxPeerCount != 1` and `order` listing the store ids of the followers (the
peers of the region other than the leader), `doLeaderBalance` never fails; it returns a
plan exactly when `checkScore(leader, newPeer, false)` holds and the store of some follower
is in the view; and a plan it returns is the leader transfer to a follower whose store has
the least score among the stores of the followers, then `AddPeer(region.id, newPeer)`, then
`RemovePeer(region.id, leader)`. -/
theorem doLeaderBalance_multi_replica (rb : resourceBalancer) (cluster : clusterInfo)
    (stores : List (Option storeInfo)) (region : Region) (leader newPeer : Peer)
    (order : List Nat) (maxWaitCount : Nat) (h1 : cluster.MaxPeerCount ≠ 1)
    (horder : ∀ k, k ∈ order ↔ ∃ p ∈ region.Peers, p.Id ≠ leader.Id ∧ p.StoreId = k) :
    (∃ res, rb.doLeaderBalance cluster stores region leader newPeer order maxWaitCount =
        .ok res) ∧
      ((∃ P, rb.doLeaderBalance cluster stores region leader newPeer order maxWaitCount =
          .ok (some P)) ↔
        (rb.checkScore cluster (some leader) (some newPeer) false = true ∧
          ∃ p ∈ region.Peers, p.Id ≠ leader.Id ∧ (cluster.getStore p.StoreId).isSome = true)) ∧
      ∀ P, rb.doLeaderBalance cluster stores region leader newPeer order maxWaitCount =
          .ok (some P) →
        ∃ newLeader store,
          P = ⟨region, [Operator.TransferLeader region.Id leader newLeader maxWaitCount,
            Operator.AddPeer region.Id newPeer, Operator.RemovePeer region.Id (some leader)]⟩ ∧
          newLeader ∈ region.Peers ∧ newLeader.Id ≠ leader.Id ∧
          cluster.getStore newLeader.StoreId = some store ∧
          ∀ f ∈ region.Peers, f.Id ≠ leader.Id → ∀ s, cluster.getStore f.StoreId = some s →
            rb.score store store.stats.LeaderRegionCount cluster.regionCount ≤
              rb.score s s.stats.LeaderRegionCount cluster.regionCount := by
  rw [doLeaderBalance_ok]
  simp only [h1, if_false]
  cases hc : rb.checkScore cluster (some leader) (some newPeer) false with
  | false => simp
  | true =>
    simp only [if_true, true_and]
    rcases selectNewLeaderPeer_spec rb cluster region leader order horder with
      ⟨hn, hall⟩ | ⟨nl, store, hnl, hmem, hne, hst, hmin⟩
    · rw [hn]
      refine ⟨⟨_, rfl⟩, ⟨fun ⟨P, hP⟩ => by simp at hP, fun ⟨p, hp, hpne, hsome⟩ => ?_⟩,
        fun P hP => by simp at hP⟩
      rw [hall p hp hpne] at hsome
      cases hsome
    · rw [hnl]
      refine ⟨⟨_, rfl⟩, ⟨fun _ => ⟨nl, hmem, hne, by rw [hst]; rfl⟩, fun _ => ⟨_, rfl⟩⟩,
        fun P hP => ?_⟩
      simp only [Except.ok.injEq, Option.some.injEq] at hP
      exact ⟨nl, store, hP.symm, hmem, hne, hst, hmin⟩

theorem exOrder (k : Nat) :
    k ∈ [2, 3] ↔ ∃ p ∈ exRegion.Peers, p.Id ≠ (⟨101, 1⟩ : Peer).Id ∧ p.StoreId = k := by
  simp only [exRegion, List.mem_cons, List.mem_singleton, List.not_mem_nil, or_false,
    exists_eq_or_imp, exists_eq_left]
  constructor
  · rintro (h | h) <;> simp [h]
  · rintro (⟨h, -⟩ | ⟨-, h⟩ | ⟨-, h⟩)
    · exact absurd rfl h
    · exact Or.inl h.symm
    · exact Or.inr h.symm

/-- C9 at `exClusterMulti`: the followers are on the stores `2` and `3`, a plan is
returned, and it is the transfer to the follower on store `3` and the two changes. -/
theorem doLeaderBalance_multi_replica_witness :
    exClusterMulti.MaxPeerCount ≠ 1 ∧
      exRbHalf.doLeaderBalance exClusterMulti exClusterMulti.getStores exRegion ⟨101, 1⟩
        ⟨201, 4⟩ [2, 3] 10 = .ok (some exPlanMulti) ∧
      (exRbHalf.checkScore exClusterMulti (some ⟨101, 1⟩) (some ⟨201, 4⟩) false = true ∧
        ∃ p ∈ exRegion.Peers, p.Id ≠ (⟨101, 1⟩ : Peer).Id ∧
          (exClusterMulti.getStore p.StoreId).isSome = true) :=
  ⟨by decide, by rfl,
    (doLeaderBalance_multi_replica exRbHalf exClusterMulti exClusterMulti.getStores exRegion
      ⟨101, 1⟩ ⟨201, 4⟩ [2, 3] 10 (by decide) exOrder).2.1.mp ⟨exPlanMulti, by rfl⟩⟩

/-- C10 fails as stated: the region of `exDbUnder` has two peers where three are
configured, and in a view without stores `defaultBalancer.Balance` yields no plan. -/
theorem defaultBalance_counterexample :
    exDbUnder.region.Peers.length < exClusterEmpty.MaxPeerCount ∧
      exDbUnder.Balance exClusterEmpty [] = (.ok none, exClusterEmpty.idAlloc) :=
  ⟨by decide, by rfl⟩

/-- Where the code keeps the range `[0, 100]`: for a store whose used-ratio score is in
`[0, 100]` and whose leader count is non-negative, has a hundredfold that fits in an
`int`, and does not exceed the region count `N` (or `N` is zero), the score is in
`[0, 100]`. -/
theorem score_range (rb : resourceBalancer) (s : storeInfo) (N : Int)
    (hu0 : 0 ≤ s.usedRatioScore) (hu1 : s.usedRatioScore ≤ 100)
    (hc0 : 0 ≤ s.stats.LeaderRegionCount) (hc1 : s.stats.LeaderRegionCount * 100 < 2 ^ 63)
    (hN : N = 0 ∨ s.stats.LeaderRegionCount ≤ N) :
    0 ≤ rb.score s s.stats.LeaderRegionCount N ∧ rb.score s s.stats.LeaderRegionCount N ≤ 100 :=
  score_range_of rb s _ N hu0 hu1 (leaderScore_range _ N hc0 hc1 hN).1
    (leaderScore_range _ N hc0 hc1 hN).2

/-- The range `[0, 100]` at `exStoreA`, which leads none of the hundred regions. -/
theorem score_range_witness :
    0 ≤ exRb.score exStoreA exStoreA.stats.LeaderRegionCount 100 ∧
      exRb.score exStoreA exStoreA.stats.LeaderRegionCount 100 ≤ 100 :=
  score_range exRb exStoreA 100 (by decide) (by decide) (by decide) (by decide) (by decide)

/-- C4 does not hold of the code: `exStoreHot` satisfies the store invariants (available
within capacity, five leaders among its five regions, used-ratio score `0`), the region
count `1` is non-negative, and `score` returns `200`, outside the range `[0, 100]` that
its doc comment states. -/
theorem score_exceeds_range :
    exStoreHot.stats.Available ≤ exStoreHot.stats.Capacity ∧
      exStoreHot.stats.LeaderRegionCount ≤ exStoreHot.stats.RegionCount ∧
      0 ≤ exStoreHot.usedRatioScore ∧ exStoreHot.usedRatioScore ≤ 100 ∧ (0 : Int) ≤ 1 ∧
      exRb.score exStoreHot exStoreHot.stats.LeaderRegionCount 1 = 200 ∧
      ¬ (0 ≤ exRb.score exStoreHot exStoreHot.stats.LeaderRegionCount 1 ∧
        exRb.score exStoreHot exStoreHot.stats.LeaderRegionCount 1 ≤ 100) := by
  have h : exRb.score exStoreHot exStoreHot.stats.LeaderRegionCount 1 = 200 := by decide
  refine ⟨by decide, by decide, by decide, by decide, by decide, h, ?_⟩
  rw [h]
  decide

/-! ## Allocator, missing stores and region ids -/

/-- C13: when `idAlloc.Alloc` returns an error, `selectAddPeer` returns that error and no
peer as soon as a target store is selected; `resourceBalancer.Balance`, once it has chosen
a region with a leader and the configured peer count, and `defaultBalancer.Balance` on an
under-replicated region then return that error and no plan. -/
theorem alloc_failure_propagated (rb : resourceBalancer) (cluster : clusterInfo) (err : Error)
    (alloc : idAllocator) (herr : cluster.idAlloc.Alloc = (.error err, alloc)) :
    (∀ stores excluded store,
        rb.selectToStore stores excluded cluster.regionCount true = some store →
        rb.selectAddPeer cluster stores excluded = (.error err, alloc)) ∧
      (∀ order maxWaitCount region leader follower isLeaderBalance store,
        rb.selectBalanceRegion cluster cluster.getStores =
          (some region, some leader, follower, isLeaderBalance) →
        region.Peers.length = cluster.MaxPeerCount →
        rb.selectToStore cluster.getStores (getFollowerPeers region leader).2
          cluster.regionCount true = some store →
        rb.Balance cluster order maxWaitCount = (.error err, alloc)) ∧
      (∀ region leader order store,
        region.Peers.length < cluster.MaxPeerCount →
        rb.selectToStore cluster.getStores
          (region.Peers.foldl (fun acc peer => peer.StoreId :: acc) [])
          cluster.regionCount true = some store →
        (⟨rb, region, leader⟩ : defaultBalancer).Balance cluster order = (.error err, alloc)) := by
  have hadd : ∀ stores excluded store,
      rb.selectToStore stores excluded cluster.regionCount true = some store →
      rb.selectAddPeer cluster stores excluded = (.error err, alloc) := by
    intro stores excluded store hs
    unfold resourceBalancer.selectAddPeer
    rw [hs]
    simp only [herr]
  refine ⟨hadd, ?_, ?_⟩
  · intro order w region leader follower isLB store hsel hlen hs
    unfold resourceBalancer.Balance
    simp only [hsel, hlen, ne_eq, not_true_eq_false, if_false, hadd _ _ store hs]
  · intro region leader order store hlt hs
    have hne : region.Peers.length ≠ cluster.MaxPeerCount := Nat.ne_of_lt hlt
    simp only [defaultBalancer.Balance, hne, hlt, if_false, if_true]
    unfold defaultBalancer.addPeer
    simp only [hadd _ _ store hs]

/-- C13 at `exClusterDown`, whose allocator fails: the three calls return the error. -/
theorem alloc_failure_propagated_witness :
    exClusterDown.idAlloc.Alloc = (.error "alloc failed", ⟨200, true⟩) ∧
      exRbHalf.selectAddPeer exClusterDown exClusterDown.getStores [1, 2, 3] =
        (.error "alloc failed", ⟨200, true⟩) ∧
      exRbHalf.Balance exClusterDown [2, 3] 10 = (.error "alloc failed", ⟨200, true⟩) ∧
      exDbUnder.Balance exClusterDown [] = (.error "alloc failed", ⟨200, true⟩) :=
  ⟨rfl,
    (alloc_failure_propagated exRbHalf exClusterDown "alloc failed" ⟨200, true⟩ rfl).1
      exClusterDown.getStores [1, 2, 3] ⟨4, ⟨0, 0, 100, 90, 0, 0⟩, 10⟩ (by decide),
    (alloc_failure_propagated exRbHalf exClusterDown "alloc failed" ⟨200, true⟩ rfl).2.1
      [2, 3] 10 exRegion ⟨101, 1⟩ none true ⟨4, ⟨0, 0, 100, 90, 0, 0⟩, 10⟩
      (by decide) (by decide) (by decide),
    (alloc_failure_propagated exRbHalf exClusterDown "alloc failed" ⟨200, true⟩ rfl).2.2
      ⟨9, [⟨101, 1⟩, ⟨102, 2⟩]⟩ ⟨101, 1⟩ [] ⟨4, ⟨0, 0, 100, 90, 0, 0⟩, 10⟩
      (by decide) (by decide)⟩

/-- C14: for a non-negative leader count whose hundredfold fits in an `int` and a
non-negative region count, `leaderScore` is `0` when the region count is `0` and
otherwise the integer part of `leaderCount * 100 / regionCount`. -/
theorem leaderScore_floor (leaderCount regionCount : Int) (hc : 0 ≤ leaderCount)
    (hN : 0 ≤ regionCount) (hrep : leaderCount * 100 < 2 ^ 63) :
    (regionCount = 0 → leaderScore leaderCount regionCount = 0) ∧
      (regionCount ≠ 0 →
        leaderScore leaderCount regionCount = leaderCount * 100 / regionCount ∧
        leaderScore leaderCount regionCount =
          ⌊((leaderCount * 100 : Int) : ℚ) / (regionCount : ℚ)⌋) := by
  refine ⟨fun h => by simp [leaderScore, h], fun h => ?_⟩
  have hpos : 0 < regionCount := lt_of_le_of_ne hN (Ne.symm h)
  have hq0 : 0 ≤ leaderCount * 100 / regionCount := Int.ediv_nonneg (by omega) hN
  have hq1 : leaderCount * 100 / regionCount ≤ leaderCount * 100 :=
    Int.ediv_le_self _ (by omega)
  have heq : leaderScore leaderCount regionCount = leaderCount * 100 / regionCount := by
    unfold leaderScore
    rw [if_neg h, wrapInt_eq (leaderCount * 100) (by norm_num; omega) hrep,
      Int.tdiv_eq_ediv (by omega) hN,
      wrapInt_eq _ (by norm_num; omega) (lt_of_le_of_lt hq1 hrep)]
  refine ⟨heq, ?_⟩
  obtain ⟨n, hn⟩ := Int.eq_ofNat_of_zero_le hN
  rw [heq, hn]
  exact (Rat.floor_intCast_div_natCast (leaderCount * 100) n).symm

/-- C14 at nine leaders among ten regions, and without regions. -/
theorem leaderScore_floor_witness :
    leaderScore 9 10 = 90 ∧ leaderScore 9 0 = 0 ∧
      (leaderScore 9 10 = 9 * 100 / 10 ∧
        leaderScore 9 10 = ⌊(((9 : Int) * 100 : Int) : ℚ) / ((10 : Int) : ℚ)⌋) :=
  ⟨by decide, (leaderScore_floor 9 0 (by decide) (by decide) (by decide)).1 rfl,
    (leaderScore_floor 9 10 (by decide) (by decide) (by decide)).2 (by decide)⟩

/-- C15 does not hold of the code: `checkScore` with `isLeaderPeer` passes the leader count
of the target store plus one, and for `exStoreLead`, which leads the one region of
`exClusterOne`, `leaderScore` is called with `2` and `1` and returns `200`. -/
theorem leaderScore_exceeds_range :
    exClusterOne.getStore 2 = some exStoreLead ∧
      leaderScore (wrapInt (exStoreLead.stats.LeaderRegionCount + 1))
        exClusterOne.regionCount = 200 ∧
      ¬ (0 ≤ leaderScore (wrapInt (exStoreLead.stats.LeaderRegionCount + 1))
            exClusterOne.regionCount ∧
          leaderScore (wrapInt (exStoreLead.stats.LeaderRegionCount + 1))
            exClusterOne.regionCount ≤ 100) := by
  decide

/-- C16: when the store of the old peer or the store of the new peer is not in the view,
`checkScore` returns false whatever `isLeaderPeer` and the configuration are, and
`doLeaderBalance` and `doFollowerBalance` for these two peers return no plan. -/
theorem checkScore_missing_store (rb : resourceBalancer) (cluster : clusterInfo)
    (oldPeer newPeer : Option Peer)
    (h : cluster.getStore (Peer.GetStoreId oldPeer) = none ∨
      cluster.getStore (Peer.GetStoreId newPeer) = none) :
    (∀ isLeaderPeer, rb.checkScore cluster oldPeer newPeer isLeaderPeer = false) ∧
      (∀ stores region leader np order maxWaitCount,
        oldPeer = some leader → newPeer = some np →
        rb.doLeaderBalance cluster stores region leader np order maxWaitCount = .ok none) ∧
      (∀ stores region np, newPeer = some np →
        rb.doFollowerBalance cluster stores region oldPeer np = .ok none) := by
  have hcs : ∀ isLeaderPeer, rb.checkScore cluster oldPeer newPeer isLeaderPeer = false := by
    intro b
    unfold resourceBalancer.checkScore
    rcases h with h | h
    · simp only [h]
    · simp only [h]
      split
      · rename_i heq
        cases heq
      · rfl
  refine ⟨hcs, ?_, ?_⟩
  · intro stores region leader np order w ho hn
    subst ho hn
    rw [doLeaderBalance_ok]
    simp [hcs]
  · intro stores region np hn
    subst hn
    rw [doFollowerBalance_ok]
    simp [hcs]

/-- C16 at `exCluster`, which has no store `9`. -/
theorem checkScore_missing_store_witness :
    exCluster.getStore (Peer.GetStoreId (some ⟨10, 1⟩)) = some exStoreA ∧
      exCluster.getStore (Peer.GetStoreId (some ⟨11, 9⟩)) = none ∧
      exRbHalf.checkScore exCluster (some ⟨10, 1⟩) (some ⟨11, 9⟩) true = false ∧
      exRbHalf.doLeaderBalance exCluster exCluster.getStores exRegionSingle ⟨10, 1⟩ ⟨11, 9⟩ []
        10 = .ok none :=
  ⟨by decide, by decide,
    (checkScore_missing_store exRbHalf exCluster (some ⟨10, 1⟩) (some ⟨11, 9⟩)
      (Or.inr (by decide))).1 true,
    (checkScore_missing_store exRbHalf exCluster (some ⟨10, 1⟩) (some ⟨11, 9⟩)
      (Or.inr (by decide))).2.1 exCluster.getStores exRegionSingle ⟨10, 1⟩ ⟨11, 9⟩ [] 10
      rfl rfl⟩

/-- C17: every operator of a plan returned by `resourceBalancer.Balance` carries the id
of the region stored in the plan. -/
theorem Balance_single_region (rb : resourceBalancer) (cluster : clusterInfo)
    (order : List Nat) (maxWaitCount : Nat) (P : balanceOperator) (alloc : idAllocator)
    (hP : rb.Balance cluster order maxWaitCount = (.ok (some P), alloc)) :
    ∀ op ∈ P.ops, op.regionID = P.region.Id := by
  obtain ⟨region, leader, follower, isLB, newPeer, -, -, -, hdo⟩ :=
    Balance_some rb cluster order maxWaitCount P alloc hP
  rcases hdo with ⟨-, hdo⟩ | ⟨-, hdo⟩
  · rw [doLeaderBalance_ok] at hdo
    split at hdo
    · split at hdo
      · simp only [Except.ok.injEq, Option.some.injEq] at hdo
        subst hdo
        intro op hop
        simp only [List.mem_cons, List.mem_singleton, List.not_mem_nil, or_false] at hop
        rcases hop with rfl | rfl <;> rfl
      · simp at hdo
    · split at hdo
      · split at hdo
        · simp at hdo
        · simp only [Except.ok.injEq, Option.some.injEq] at hdo
          subst hdo
          intro op hop
          simp only [List.mem_cons, List.mem_singleton, List.not_mem_nil, or_false] at hop
          rcases hop with rfl | rfl | rfl <;> rfl
      · simp at hdo
  · rw [doFollowerBalance_ok] at hdo
    split at hdo
    · simp only [Except.ok.injEq, Option.some.injEq] at hdo
      subst hdo
      intro op hop
      simp only [List.mem_cons, List.mem_singleton, List.not_mem_nil, or_false] at hop
      rcases hop with rfl | rfl <;> rfl
    · simp at hdo

/-- C17 at `exClusterMulti`: the three operators of the plan carry the region id `7`. -/
theorem Balance_single_region_witness :
    exRbHalf.Balance exClusterMulti [2, 3] 10 = (.ok (some exPlanMulti), ⟨201, false⟩) ∧
      ∀ op ∈ exPlanMulti.ops, op.regionID = exPlanMulti.region.Id :=
  ⟨exBalanceMulti,
    Balance_single_region exRbHalf exClusterMulti [2, 3] 10 exPlanMulti ⟨201, false⟩
      exBalanceMulti⟩

/-- C19: when `selectToStore` with the filters on returns nothing, `selectAddPeer` returns
no peer and no error and the id allocator is the one of the view; and the allocator after
a call of `Balance`, of either balancer, is the one of the view or the one after a single
call of `Alloc`. -/
theorem no_target_no_alloc (rb : resourceBalancer) (cluster : clusterInfo) :
    (∀ stores excluded,
        rb.selectToStore stores excluded cluster.regionCount true = none →
        rb.selectAddPeer cluster stores excluded = (.ok none, cluster.idAlloc)) ∧
      (∀ stores excluded,
        (rb.selectAddPeer cluster stores excluded).2 = cluster.idAlloc ∨
        (rb.selectAddPeer cluster stores excluded).2 = cluster.idAlloc.Alloc.2) ∧
      (∀ order maxWaitCount,
        (rb.Balance cluster order maxWaitCount).2 = cluster.idAlloc ∨
        (rb.Balance cluster order maxWaitCount).2 = cluster.idAlloc.Alloc.2) ∧
      (∀ region leader order,
        ((⟨rb, region, leader⟩ : defaultBalancer).Balance cluster order).2 = cluster.idAlloc ∨
        ((⟨rb, region, leader⟩ : defaultBalancer).Balance cluster order).2 =
          cluster.idAlloc.Alloc.2) := by
  have hadd : ∀ stores excluded,
      (rb.selectAddPeer cluster stores excluded).2 = cluster.idAlloc ∨
      (rb.selectAddPeer cluster stores excluded).2 = cluster.idAlloc.Alloc.2 := by
    intro stores excluded
    unfold resourceBalancer.selectAddPeer
    split
    · exact Or.inl rfl
    · split
      · rename_i ha
        exact Or.inr (by rw [ha])
      · rename_i ha
        exact Or.inr (by rw [ha])
  refine ⟨?_, hadd, ?_, ?_⟩
  · intro stores excluded hs
    unfold resourceBalancer.selectAddPeer
    rw [hs]
  · intro order w
    unfold resourceBalancer.Balance
    simp only
    split
    · rename_i region leader follower isLB hsel
      split
      · exact Or.inl rfl
      · have := hadd cluster.getStores (getFollowerPeers region leader).2
        split
        · rename_i ha
          rw [ha] at this
          exact this
        · rename_i ha
          rw [ha] at this
          exact this
        · rename_i ha
          rw [ha] at this
          split <;> exact this
    · exact Or.inl rfl
  · intro region leader order
    simp only [defaultBalancer.Balance]
    split
    · exact Or.inl rfl
    · split
      · unfold defaultBalancer.addPeer
        simp only
        have := hadd cluster.getStores
          (region.Peers.foldl (fun acc peer => peer.StoreId :: acc) [])
        split
        · rename_i ha
          rw [ha] at this
          exact this
        · rename_i ha
          rw [ha] at this
          exact this
        · rename_i ha
          rw [ha] at this
          exact this
      · exact Or.inl rfl

/-- C19 at `exClusterMulti` with every store excluded: no store is selected and the
allocator still stands at `200`. -/
theorem no_target_no_alloc_witness :
    exRbHalf.selectToStore exClusterMulti.getStores [1, 2, 3, 4] exClusterMulti.regionCount
        true = none ∧
      exRbHalf.selectAddPeer exClusterMulti exClusterMulti.getStores [1, 2, 3, 4] =
        (.ok none, ⟨200, false⟩) :=
  ⟨by decide,
    (no_target_no_alloc exRbHalf exClusterMulti).1 exClusterMulti.getStores [1, 2, 3, 4]
      (by decide)⟩

/-! ## Plans of the default balancer -/

theorem FirstMax_mem {q : storeInfo → Prop} {f : storeInfo → Int}
    {stores : List (Option storeInfo)} {r : storeInfo} (h : FirstMax q f stores r) :
    some r ∈ stores := by
  obtain ⟨-, l1, l2, hl, -, -⟩ := h
  rw [hl]; simp

theorem FirstMax_le {q : storeInfo → Prop} {f : storeInfo → Int}
    {stores : List (Option storeInfo)} {r : storeInfo} (h : FirstMax q f stores r)
    (s : storeInfo) (hs : some s ∈ stores) (hq : q s) : f s ≤ f r := by
  obtain ⟨-, l1, l2, hl, h1, h2⟩ := h
  rw [hl] at hs
  simp only [List.mem_append, List.mem_cons, Option.some.injEq] at hs
  rcases hs with hs | hs | hs
  · exact le_of_lt (h1 s hs hq)
  · rw [hs]
  · exact h2 s hs hq

/-- The excluded set that `defaultBalancer.addPeer` builds holds exactly the store ids of
the peers of the region. -/
theorem addPeer_excluded (l : List Peer) :
    ∀ (acc : List Nat) (k : Nat),
      k ∈ l.foldl (fun acc peer => peer.StoreId :: acc) acc ↔
        k ∈ acc ∨ ∃ p ∈ l, p.StoreId = k := by
  induction l with
  | nil => intro acc k; simp
  | cons x l ih =>
    intro acc k
    rw [List.foldl_cons, ih]
    simp only [List.mem_cons, exists_eq_or_imp]
    constructor
    · rintro ((h | h) | h)
      · exact Or.inr (Or.inl h.symm)
      · exact Or.inl h
      · exact Or.inr (Or.inr h)
    · rintro (h | h | h)
      · exact Or.inl (Or.inr h)
      · exact Or.inl (Or.inl h.symm)
      · exact Or.inr h

/-- The follower map that `defaultBalancer.removePeer` builds is the one of
`getFollowerPeers`. -/
theorem removePeer_followers (leader : Peer) (l : List Peer) :
    ∀ (a : List (Nat × Peer)) (b : List Nat),
      l.foldl (fun (acc : List (Nat × Peer)) peer =>
        if peer.Id == leader.Id then acc else (peer.StoreId, peer) :: acc) a =
      (l.foldl (fun acc peer =>
        if peer.Id == leader.Id then (acc.1, peer.StoreId :: acc.2)
        else ((peer.StoreId, peer) :: acc.1, peer.StoreId :: acc.2)) (a, b)).1 := by
  induction l with
  | nil => intro a b; rfl
  | cons x l ih =>
    intro a b
    rw [List.foldl_cons, List.foldl_cons]
    by_cases hx : x.Id = leader.Id
    · simp only [hx, beq_self_eq_true, if_true]
      exact ih a (x.StoreId :: b)
    · have hx' : (x.Id == leader.Id) = false := by simpa using hx
      simp only [hx', Bool.false_eq_true, if_false]
      exact ih ((x.StoreId, x) :: a) (x.StoreId :: b)

/-- What `selectRemovePeer` returns when `order` lists the store ids of the followers:
nothing when no follower's store is in the view, and otherwise a follower whose store is
in the view and has the greatest score among the stores of the followers. -/
theorem selectRemovePeer_spec (rb : resourceBalancer) (cluster : clusterInfo)
    (region : Region) (leader : Peer) (order : List Nat)
    (horder : ∀ k, k ∈ order ↔ ∃ p ∈ region.Peers, p.Id ≠ leader.Id ∧ p.StoreId = k) :
    (rb.selectRemovePeer cluster (getFollowerPeers region leader).1 order = .ok none ∧
        ∀ p ∈ region.Peers, p.Id ≠ leader.Id → cluster.getStore p.StoreId = none) ∨
      ∃ peer store,
        rb.selectRemovePeer cluster (getFollowerPeers region leader).1 order =
          .ok (some peer) ∧
        peer ∈ region.Peers ∧ peer.Id ≠ leader.Id ∧
        cluster.getStore peer.StoreId = some store ∧
        ∀ f ∈ region.Peers, f.Id ≠ leader.Id → ∀ s, cluster.getStore f.StoreId = some s →
          ownScore rb cluster.regionCount s ≤ ownScore rb cluster.regionCount store := by
  have hq : ∀ s, qualifiesFrom rb false s := fun s => Or.inl rfl
  unfold resourceBalancer.selectRemovePeer
  simp only
  rcases selectFromStore_spec rb (order.map (fun storeID => cluster.getStore storeID))
    cluster.regionCount false with ⟨hn, hall⟩ | ⟨r, hr, hf⟩
  · refine Or.inl ⟨by rw [hn], fun p hp hne => ?_⟩
    cases hg : cluster.getStore p.StoreId with
    | none => rfl
    | some s =>
      exact absurd (hq s)
        (hall s (List.mem_map.mpr ⟨p.StoreId, (horder _).mpr ⟨p, hp, hne, rfl⟩, hg⟩))
  · obtain ⟨k, hk, hgk⟩ := List.mem_map.mp (FirstMax_mem hf)
    have hid : r.id = k := getStore_id cluster k r hgk
    obtain ⟨p, hp, hne, hpk⟩ := (horder k).mp hk
    have hsome := getFollowerPeers_isSome region leader p hp hne
    rw [hpk, ← hid] at hsome
    obtain ⟨nl, hnl⟩ := Option.isSome_iff_exists.mp hsome
    obtain ⟨h1, h2, h3⟩ := getFollowerPeers_lookup region leader _ nl hnl
    refine Or.inr ⟨nl, r, by rw [hr]; simp only [hnl], h1, h2, by rw [h3, hid]; exact hgk, ?_⟩
    intro f hf' hfne s hs
    exact FirstMax_le hf s (List.mem_map.mpr ⟨f.StoreId, (horder _).mpr ⟨f, hf', hfne, rfl⟩, hs⟩)
      (hq s)

/-- C11: a plan that `defaultBalancer.Balance` returns for an under-replicated region is
the one operator `Once(AddPeer(region.id, p))`, where the store of `p` hosts no peer of
the region, is a store of the view that the target filters do not reject, and has the
least score among the stores of the view that host no peer of the region and are not
rejected. -/
theorem defaultBalance_addPeer (db : defaultBalancer) (cluster : clusterInfo)
    (order : List Nat) (P : balanceOperator) (alloc : idAllocator)
    (hlt : db.region.Peers.length < cluster.MaxPeerCount)
    (hP : db.Balance cluster order = (.ok (some P), alloc)) :
    ∃ p store,
      P = ⟨db.region, [Operator.Once (Operator.AddPeer db.region.Id p)]⟩ ∧
      (∀ x ∈ db.region.Peers, p.StoreId ≠ x.StoreId) ∧
      store ∈ cluster.stores ∧ store.id = p.StoreId ∧ db.rb.filterToStore store = false ∧
      ∀ s ∈ cluster.stores, (∀ x ∈ db.region.Peers, s.id ≠ x.StoreId) →
        db.rb.filterToStore s = false →
        db.rb.score store store.stats.LeaderRegionCount cluster.regionCount ≤
          db.rb.score s s.stats.LeaderRegionCount cluster.regionCount := by
  have hne : db.region.Peers.length ≠ cluster.MaxPeerCount := Nat.ne_of_lt hlt
  simp only [defaultBalancer.Balance, hne, hlt, if_false, if_true] at hP
  unfold defaultBalancer.addPeer newBalanceOperator at hP
  simp only at hP
  split at hP
  · simp at hP
  · simp at hP
  · rename_i p alloc' hadd
    simp only [Prod.mk.injEq, Except.ok.injEq, Option.some.injEq] at hP
    obtain ⟨hP, -⟩ := hP
    obtain ⟨store, hs, hid, -⟩ := selectAddPeer_some db.rb cluster _ _ p alloc' hadd
    rcases selectToStore_spec db.rb cluster.getStores
      (db.region.Peers.foldl (fun acc peer => peer.StoreId :: acc) []) cluster.regionCount true
      with ⟨hn, -⟩ | ⟨r, hr, hf⟩
    · rw [hn] at hs; cases hs
    · rw [hr] at hs
      cases hs
      have hex : ∀ k, k ∈ db.region.Peers.foldl (fun acc peer => peer.StoreId :: acc) [] ↔
          ∃ x ∈ db.region.Peers, x.StoreId = k := by
        intro k
        rw [addPeer_excluded]
        simp
      have hmem : store ∈ cluster.stores := by
        have := FirstMin_mem hf
        unfold clusterInfo.getStores at this
        simpa using this
      have hflt : db.rb.filterToStore store = false := by
        rcases hf.1.2 with h | h
        · cases h
        · exact h
      refine ⟨p, store, hP.symm, ?_, hmem, hid.symm, hflt, ?_⟩
      · intro x hx heq
        exact hf.1.1 ((hex store.id).mpr ⟨x, hx, by rw [← heq, hid]⟩)
      · intro s hs hhost hfs
        refine FirstMin_le hf s ?_ ⟨?_, Or.inr hfs⟩
        · unfold clusterInfo.getStores
          simpa using hs
        · intro hin
          obtain ⟨x, hx, hxk⟩ := (hex s.id).mp hin
          exact hhost x hx hxk.symm

/-- C11 at `exClusterMulti` for the region of `exDbUnder`, which has two of three
replicas: the new peer goes to store `4`. -/
theorem defaultBalance_addPeer_witness :
    exDbUnder.region.Peers.length < exClusterMulti.MaxPeerCount ∧
      exDbUnder.Balance exClusterMulti [] =
        (.ok (some ⟨exDbUnder.region, [Operator.Once (Operator.AddPeer 9 ⟨201, 4⟩)]⟩),
          ⟨201, false⟩) ∧
      ∃ p store,
        (⟨exDbUnder.region, [Operator.Once (Operator.AddPeer 9 ⟨201, 4⟩)]⟩ : balanceOperator) =
          ⟨exDbUnder.region, [Operator.Once (Operator.AddPeer exDbUnder.region.Id p)]⟩ ∧
        (∀ x ∈ exDbUnder.region.Peers, p.StoreId ≠ x.StoreId) ∧
        store ∈ exClusterMulti.stores ∧ store.id = p.StoreId ∧
        exDbUnder.rb.filterToStore store = false ∧
        ∀ s ∈ exClusterMulti.stores, (∀ x ∈ exDbUnder.region.Peers, s.id ≠ x.StoreId) →
          exDbUnder.rb.filterToStore s = false →
          exDbUnder.rb.score store store.stats.LeaderRegionCount exClusterMulti.regionCount ≤
            exDbUnder.rb.score s s.stats.LeaderRegionCount exClusterMulti.regionCount :=
  ⟨by decide, by rfl,
    defaultBalance_addPeer exDbUnder exClusterMulti [] _ ⟨201, false⟩ (by decide) (by rfl)⟩

/-- C12: with `order` listing the store ids of the followers (the peers of the region
whose id is not the leader's), a plan that `defaultBalancer.Balance` returns for an
over-replicated region is the one operator `Once(RemovePeer(region.id, p))`, where `p` is
a peer of the region other than the leader whose store is in the view and has the
greatest score among the stores of the followers that are in the view. -/
theorem defaultBalance_removePeer (db : defaultBalancer) (cluster : clusterInfo)
    (order : List Nat) (P : balanceOperator) (alloc : idAllocator)
    (hgt : cluster.MaxPeerCount < db.region.Peers.length)
    (horder : ∀ k, k ∈ order ↔ ∃ p ∈ db.region.Peers, p.Id ≠ db.leader.Id ∧ p.StoreId = k)
    (hP : db.Balance cluster order = (.ok (some P), alloc)) :
    ∃ p store,
      P = ⟨db.region, [Operator.Once (Operator.RemovePeer db.region.Id (some p))]⟩ ∧
      p ∈ db.region.Peers ∧ p.Id ≠ db.leader.Id ∧
      cluster.getStore p.StoreId = some store ∧
      ∀ f ∈ db.region.Peers, f.Id ≠ db.leader.Id → ∀ s, cluster.getStore f.StoreId = some s →
        db.rb.score s s.stats.LeaderRegionCount cluster.regionCount ≤
          db.rb.score store store.stats.LeaderRegionCount cluster.regionCount := by
  have hne : db.region.Peers.length ≠ cluster.MaxPeerCount := Nat.ne_of_gt hgt
  have hnl : ¬ db.region.Peers.length < cluster.MaxPeerCount := Nat.not_lt.mpr (Nat.le_of_lt hgt)
  simp only [defaultBalancer.Balance, hne, hnl, if_false] at hP
  unfold defaultBalancer.removePeer newBalanceOperator at hP
  simp only at hP
  rw [removePeer_followers db.leader db.region.Peers [] []] at hP
  have hfp : (db.region.Peers.foldl (fun acc peer =>
        if peer.Id == db.leader.Id then (acc.1, peer.StoreId :: acc.2)
        else ((peer.StoreId, peer) :: acc.1, peer.StoreId :: acc.2))
        (([] : List (Nat × Peer)), ([] : List Nat))).1 =
      (getFollowerPeers db.region db.leader).1 := rfl
  rw [hfp] at hP
  rcases selectRemovePeer_spec db.rb cluster db.region db.leader order horder with
    ⟨hn, -⟩ | ⟨peer, store, hsel, hmem, hpne, hst, hmax⟩
  · rw [hn] at hP
    simp at hP
  · rw [hsel] at hP
    simp only [Prod.mk.injEq, Except.ok.injEq, Option.some.injEq] at hP
    exact ⟨peer, store, hP.1.symm, hmem, hpne, hst, hmax⟩

/-- C12 at `exClusterPair` for `exRegion`, which has three replicas where two are
configured: of the followers on the stores `2` and `3`, the one on store `2` goes. -/
theorem defaultBalance_removePeer_witness :
    exClusterPair.MaxPeerCount < exDbOver.region.Peers.length ∧
      exDbOver.Balance exClusterPair [2, 3] =
        (.ok (some ⟨exRegion, [Operator.Once (Operator.RemovePeer 7 (some ⟨102, 2⟩))]⟩),
          ⟨200, false⟩) ∧
      ∃ p store,
        (⟨exRegion, [Operator.Once (Operator.RemovePeer 7 (some ⟨102, 2⟩))]⟩ :
            balanceOperator) =
          ⟨exDbOver.region,
            [Operator.Once (Operator.RemovePeer exDbOver.region.Id (some p))]⟩ ∧
        p ∈ exDbOver.region.Peers ∧ p.Id ≠ exDbOver.leader.Id ∧
        exClusterPair.getStore p.StoreId = some store ∧
        ∀ f ∈ exDbOver.region.Peers, f.Id ≠ exDbOver.leader.Id →
          ∀ s, exClusterPair.getStore f.StoreId = some s →
          exDbOver.rb.score s s.stats.LeaderRegionCount exClusterPair.regionCount ≤
            exDbOver.rb.score store store.stats.LeaderRegionCount exClusterPair.regionCount :=
  ⟨by decide, by rfl,
    defaultBalance_removePeer exDbOver exClusterPair [2, 3] _ ⟨200, false⟩ (by decide) exOrder
      (by rfl)⟩

/-- C10 (amended): `defaultBalancer.Balance` yields nothing when the peer count equals
`MaxPeerCount`. For an under-replicated region, it yields nothing when no store of the
view both hosts no peer of the region and passes the target filters; when there is such
a store, it returns the error of the allocator if the allocator fails, and otherwise the
plan of the one operator `Once(AddPeer)` with the allocated id on such a store. For an
over-replicated region, with `order` listing the store ids of the followers, it yields
nothing when no store of a follower is in the view, and otherwise the plan of the one
operator `Once(RemovePeer)` of a follower whose store is in the view. -/
theorem defaultBalance_outcomes (db : defaultBalancer) (cluster : clusterInfo)
    (order : List Nat) :
    (db.region.Peers.length = cluster.MaxPeerCount →
        db.Balance cluster order = (.ok none, cluster.idAlloc)) ∧
      (db.region.Peers.length < cluster.MaxPeerCount →
        ((∀ s ∈ cluster.stores,
            ¬ ((∀ x ∈ db.region.Peers, s.id ≠ x.StoreId) ∧ db.rb.filterToStore s = false)) →
          db.Balance cluster order = (.ok none, cluster.idAlloc)) ∧
        ((∃ s ∈ cluster.stores,
            (∀ x ∈ db.region.Peers, s.id ≠ x.StoreId) ∧ db.rb.filterToStore s = false) →
          (∀ err alloc, cluster.idAlloc.Alloc = (.error err, alloc) →
            db.Balance cluster order = (.error err, alloc)) ∧
          (∀ id alloc, cluster.idAlloc.Alloc = (.ok id, alloc) →
            ∃ store ∈ cluster.stores,
              ((∀ x ∈ db.region.Peers, store.id ≠ x.StoreId) ∧
                db.rb.filterToStore store = false) ∧
              db.Balance cluster order =
                (.ok (some ⟨db.region,
                  [Operator.Once (Operator.AddPeer db.region.Id ⟨id, store.id⟩)]⟩), alloc)))) ∧
      (cluster.MaxPeerCount < db.region.Peers.length →
        (∀ k, k ∈ order ↔ ∃ p ∈ db.region.Peers, p.Id ≠ db.leader.Id ∧ p.StoreId = k) →
        ((∀ p ∈ db.region.Peers, p.Id ≠ db.leader.Id → cluster.getStore p.StoreId = none) →
          db.Balance cluster order = (.ok none, cluster.idAlloc)) ∧
        ((∃ p ∈ db.region.Peers, p.Id ≠ db.leader.Id ∧ cluster.getStore p.StoreId ≠ none) →
          ∃ p ∈ db.region.Peers, p.Id ≠ db.leader.Id ∧ cluster.getStore p.StoreId ≠ none ∧
            db.Balance cluster order =
              (.ok (some ⟨db.region,
                [Operator.Once (Operator.RemovePeer db.region.Id (some p))]⟩),
                cluster.idAlloc))) := by
  refine ⟨fun h => ?_, fun hlt => ?_, fun hgt horder => ?_⟩
  · simp [defaultBalancer.Balance, h]
  · have hne : db.region.Peers.length ≠ cluster.MaxPeerCount := Nat.ne_of_lt hlt
    have hB : db.Balance cluster order = db.addPeer cluster := by
      simp only [defaultBalancer.Balance, hne, hlt, if_false, if_true]
    have hex : ∀ k, k ∈ db.region.Peers.foldl (fun acc peer => peer.StoreId :: acc) [] ↔
        ∃ x ∈ db.region.Peers, x.StoreId = k := by
      intro k
      rw [addPeer_excluded]
      simp
    have hq : ∀ s, qualifiesTo db.rb
        (db.region.Peers.foldl (fun acc peer => peer.StoreId :: acc) []) true s ↔
        ((∀ x ∈ db.region.Peers, s.id ≠ x.StoreId) ∧ db.rb.filterToStore s = false) := by
      intro s
      unfold qualifiesTo
      rw [hex]
      constructor
      · rintro ⟨h1, h2⟩
        refine ⟨fun x hx heq => h1 ⟨x, hx, heq.symm⟩, ?_⟩
        rcases h2 with h | h
        · cases h
        · exact h
      · rintro ⟨h1, h2⟩
        exact ⟨fun ⟨x, hx, heq⟩ => h1 x hx heq.symm, Or.inr h2⟩
    have hmemS : ∀ s, some s ∈ cluster.getStores ↔ s ∈ cluster.stores := by
      intro s
      unfold clusterInfo.getStores
      simp
    rw [hB]
    unfold defaultBalancer.addPeer resourceBalancer.selectAddPeer newBalanceOperator
    simp only
    rcases selectToStore_spec db.rb cluster.getStores
      (db.region.Peers.foldl (fun acc peer => peer.StoreId :: acc) []) cluster.regionCount true
      with ⟨hn, hnq⟩ | ⟨r, hr, hf⟩
    · rw [hn]
      refine ⟨fun _ => rfl, fun hex2 => ?_⟩
      obtain ⟨s, hs, hel⟩ := hex2
      exact absurd ((hq s).mpr hel) (hnq s ((hmemS s).mpr hs))
    · rw [hr]
      have hmem : r ∈ cluster.stores := (hmemS r).mp (FirstMin_mem hf)
      have hel := (hq r).mp hf.1
      refine ⟨fun hall => absurd hel (hall r hmem), fun _ => ⟨fun err alloc ha => ?_,
        fun id alloc ha => ⟨r, hmem, hel, ?_⟩⟩⟩
      · simp only [ha]
      · simp only [ha]
  · have hne : db.region.Peers.length ≠ cluster.MaxPeerCount := Nat.ne_of_gt hgt
    have hnl : ¬ db.region.Peers.length < cluster.MaxPeerCount := Nat.not_lt.mpr (Nat.le_of_lt hgt)
    have hB : db.Balance cluster order = (db.removePeer cluster order, cluster.idAlloc) := by
      simp only [defaultBalancer.Balance, hne, hnl, if_false]
    rw [hB]
    unfold defaultBalancer.removePeer newBalanceOperator
    simp only
    rw [removePeer_followers db.leader db.region.Peers [] []]
    have hfp : (db.region.Peers.foldl (fun acc peer =>
          if peer.Id == db.leader.Id then (acc.1, peer.StoreId :: acc.2)
          else ((peer.StoreId, peer) :: acc.1, peer.StoreId :: acc.2))
          (([] : List (Nat × Peer)), ([] : List Nat))).1 =
        (getFollowerPeers db.region db.leader).1 := rfl
    rw [hfp]
    rcases selectRemovePeer_spec db.rb cluster db.region db.leader order horder with
      ⟨hn, hnone⟩ | ⟨peer, store, hsel, hmem, hpne, hst, -⟩
    · rw [hn]
      refine ⟨fun _ => rfl, fun hex2 => ?_⟩
      obtain ⟨p, hp, hpl, hps⟩ := hex2
      exact absurd (hnone p hp hpl) hps
    · rw [hsel]
      refine ⟨fun hall => ?_, fun _ => ⟨peer, hmem, hpne, ?_, rfl⟩⟩
      · rw [hall peer hmem hpne] at hst
        cases hst
      · rw [hst]
        exact Option.some_ne_none store

/-- C10 (amended) at `exClusterPair`, which asks for two replicas while `exRegion` has
three and holds the stores of both followers: the follower on the more loaded store `2`
is removed. -/
theorem defaultBalance_outcomes_witness :
    exClusterPair.MaxPeerCount < exDbOver.region.Peers.length ∧
      exDbOver.Balance exClusterPair [2, 3] =
        (.ok (some ⟨exRegion, [Operator.Once (Operator.RemovePeer 7 (some ⟨102, 2⟩))]⟩),
          ⟨200, false⟩) ∧
      ∃ p ∈ exDbOver.region.Peers, p.Id ≠ exDbOver.leader.Id ∧
        exClusterPair.getStore p.StoreId ≠ none ∧
        exDbOver.Balance exClusterPair [2, 3] =
          (.ok (some ⟨exDbOver.region,
            [Operator.Once (Operator.RemovePeer exDbOver.region.Id (some p))]⟩),
            exClusterPair.idAlloc) :=
  ⟨by decide, by rfl,
    ((defaultBalance_outcomes exDbOver exClusterPair [2, 3]).2.2 (by decide) exOrder).2
      ⟨⟨102, 2⟩, by decide, by decide, by decide⟩⟩

/-! ## Monotonicity of rounding -/

theorem excess_bounds : ∀ (fuel M : Nat), M < 2 ^ 53 * 2 ^ fuel →
    M / 2 ^ F64.excess fuel M < 2 ^ 53 ∧
      (0 < F64.excess fuel M → 2 ^ 52 ≤ M / 2 ^ F64.excess fuel M) := by
  intro fuel
  induction fuel with
  | zero =>
    intro M hM
    simp only [F64.excess, pow_zero, Nat.div_one, lt_self_iff_false, false_implies, and_true]
    simpa using hM
  | succ fuel ih =>
    intro M hM
    unfold F64.excess
    split
    · rename_i hlt
      simp only [pow_zero, Nat.div_one, lt_self_iff_false, false_implies, and_true]
      exact hlt
    · rename_i hge
      have h1 : M / 2 < 2 ^ 53 * 2 ^ fuel := by
        rw [Nat.div_lt_iff_lt_mul (by norm_num)]
        calc M < 2 ^ 53 * 2 ^ (fuel + 1) := hM
          _ = 2 ^ 53 * 2 ^ fuel * 2 := by ring
      obtain ⟨ih1, ih2⟩ := ih (M / 2) h1
      have hdiv : M / 2 ^ (F64.excess fuel (M / 2) + 1) = M / 2 / 2 ^ F64.excess fuel (M / 2) := by
        rw [Nat.div_div_eq_div_mul, ← pow_succ']
      rw [hdiv]
      refine ⟨ih1, fun _ => ?_⟩
      rcases Nat.eq_zero_or_pos (F64.excess fuel (M / 2)) with h0 | hpos
      · rw [h0, pow_zero, Nat.div_one]
        norm_num at hge ⊢
        omega
      · exact ih2 hpos

theorem excess_self_bounds (M : Nat) :
    M / 2 ^ F64.excess M M < 2 ^ 53 ∧ (0 < F64.excess M M → 2 ^ 52 ≤ M / 2 ^ F64.excess M M) :=
  excess_bounds M M (calc M < 2 ^ M := Nat.lt_two_pow M
    _ ≤ 2 ^ 53 * 2 ^ M := Nat.le_mul_of_pos_left _ (by positivity))

theorem excess_mono (M M' : Nat) (h : M ≤ M') : F64.excess M M ≤ F64.excess M' M' :=
  excess_self_le M _ (lt_of_le_of_lt (Nat.div_le_div_right h) (excess_self_bounds M').1)

theorem round_eq_exact (M : Nat) (E : Int)
    (hk : max (F64.excess M M) (Int.toNat (-1074 - E)) = 0) :
    F64.round false M E = ⟨false, M, E⟩ := by
  simp [F64.round, hk]

theorem round_eq_shift (M : Nat) (E : Int) (k : Nat)
    (hk : max (F64.excess M M) (Int.toNat (-1074 - E)) = k) (hpos : 0 < k) :
    F64.round false M E =
      ⟨false, if 2 ^ (k - 1) < M % 2 ^ k ∨ (M % 2 ^ k = 2 ^ (k - 1) ∧ M / 2 ^ k % 2 = 1)
        then M / 2 ^ k + 1 else M / 2 ^ k, E + k⟩ := by
  unfold F64.round
  simp only [hk, Nat.ne_of_gt hpos, if_false]
  split <;> rfl

/-- The value of a result of `round` in units of `2^E`. -/
theorem toRat_shift (m k : Nat) (E : Int) :
    (⟨false, m, E + (k : Int)⟩ : F64).toRat = ((m * 2 ^ k : Nat) : ℚ) * (2 : ℚ) ^ E := by
  rw [toRat_of_nonneg _ rfl]
  simp only
  rw [zpow_add₀ (by norm_num : (2 : ℚ) ≠ 0), zpow_natCast]
  push_cast
  ring

theorem toRat_le_of_scaled (m k m' k' : Nat) (E : Int) (h : m * 2 ^ k ≤ m' * 2 ^ k') :
    (⟨false, m, E + (k : Int)⟩ : F64).toRat ≤ (⟨false, m', E + (k' : Int)⟩ : F64).toRat := by
  rw [toRat_shift, toRat_shift]
  exact mul_le_mul_of_nonneg_right (by exact_mod_cast h) (by positivity)

/-- Rounding is monotone in the mantissa, for a fixed exponent. -/
theorem round_mono_same (M M' : Nat) (E : Int) (h : M ≤ M') :
    (F64.round false M E).toRat ≤ (F64.round false M' E).toRat := by
  obtain ⟨k, hk⟩ : ∃ k, max (F64.excess M M) (Int.toNat (-1074 - E)) = k := ⟨_, rfl⟩
  obtain ⟨k', hk'⟩ : ∃ k', max (F64.excess M' M') (Int.toNat (-1074 - E)) = k' := ⟨_, rfl⟩
  have hkk : k ≤ k' := by
    rw [← hk, ← hk']
    exact max_le_max (excess_mono M M' h) le_rfl
  have hexM := excess_self_bounds M
  have hexM' := excess_self_bounds M'
  -- the rounded mantissa of `M`, in units of `2 ^ (E + k)`, is at most `2 ^ 53`
  rcases Nat.eq_zero_or_pos k' with h0' | hpos'
  · have h0 : k = 0 := by omega
    subst h0 h0'
    rw [round_eq_exact M E hk, round_eq_exact M' E hk']
    have := toRat_le_of_scaled M 0 M' 0 E (by simpa using h)
    simpa using this
  · rw [round_eq_shift M' E k' hk' hpos']
    rcases Nat.lt_or_ge k k' with hlt | hge
    · -- a coarser grid for `M'`: the results are separated by a power of two
      have hex' : F64.excess M' M' = k' := by
        rcases max_choice (F64.excess M' M') (Int.toNat (-1074 - E)) with hc | hc
        · rw [hc] at hk'; exact hk'
        · rw [hc] at hk'
          have : Int.toNat (-1074 - E) ≤ k := by rw [← hk]; exact le_max_right _ _
          omega
      have hq' : 2 ^ 52 ≤ M' / 2 ^ k' := by
        have := hexM'.2 (by rw [hex']; exact hpos')
        rwa [hex'] at this
      have hm' : 2 ^ 52 ≤ (if 2 ^ (k' - 1) < M' % 2 ^ k' ∨
          (M' % 2 ^ k' = 2 ^ (k' - 1) ∧ M' / 2 ^ k' % 2 = 1)
          then M' / 2 ^ k' + 1 else M' / 2 ^ k') := by
        split <;> omega
      have hexk : F64.excess M M ≤ k := by rw [← hk]; exact le_max_left _ _
      have hqM : M / 2 ^ k < 2 ^ 53 :=
        lt_of_le_of_lt (Nat.div_le_div_left (Nat.pow_le_pow_right (by norm_num) hexk)
          (by positivity)) hexM.1
      have hpow : 2 ^ 53 * 2 ^ k ≤ 2 ^ 52 * 2 ^ k' := by
        calc 2 ^ 53 * 2 ^ k = 2 ^ 52 * 2 ^ (k + 1) := by ring
          _ ≤ 2 ^ 52 * 2 ^ k' :=
            Nat.mul_le_mul_left _ (Nat.pow_le_pow_right (by norm_num) hlt)
      rcases Nat.eq_zero_or_pos k with h0 | hpos
      · subst h0
        rw [round_eq_exact M E hk]
        have hM : M < 2 ^ 53 := by simpa using hqM
        have := toRat_le_of_scaled M 0 _ k' E (by
          calc M * 2 ^ 0 ≤ 2 ^ 53 * 2 ^ 0 := Nat.mul_le_mul_right _ (le_of_lt hM)
            _ ≤ 2 ^ 52 * 2 ^ k' := hpow
            _ ≤ _ := Nat.mul_le_mul_right _ hm')
        simpa using this
      · rw [round_eq_shift M E k hk hpos]
        apply toRat_le_of_scaled
        have hm : (if 2 ^ (k - 1) < M % 2 ^ k ∨ (M % 2 ^ k = 2 ^ (k - 1) ∧ M / 2 ^ k % 2 = 1)
            then M / 2 ^ k + 1 else M / 2 ^ k) ≤ 2 ^ 53 := by
          split <;> omega
        calc _ ≤ 2 ^ 53 * 2 ^ k := Nat.mul_le_mul_right _ hm
          _ ≤ 2 ^ 52 * 2 ^ k' := hpow
          _ ≤ _ := Nat.mul_le_mul_right _ hm'
    · -- the same grid
      have hkeq : k = k' := le_antisymm hkk hge
      subst hkeq
      rw [round_eq_shift M E k hk hpos']
      apply toRat_le_of_scaled
      apply Nat.mul_le_mul_right
      have hq : M / 2 ^ k ≤ M' / 2 ^ k := Nat.div_le_div_right h
      have hd := Nat.div_add_mod M (2 ^ k)
      have hd' := Nat.div_add_mod M' (2 ^ k)
      rcases Nat.lt_or_ge (M / 2 ^ k) (M' / 2 ^ k) with hql | hqg
      · split <;> split <;> omega
      · have hqe : M / 2 ^ k = M' / 2 ^ k := le_antisymm hq hqg
        have hr : M % 2 ^ k ≤ M' % 2 ^ k := by
          rw [hqe] at hd
          have : 2 ^ k * (M' / 2 ^ k) + M % 2 ^ k ≤ 2 ^ k * (M' / 2 ^ k) + M' % 2 ^ k := by
            rw [hd, hd']; exact h
          omega
        rw [hqe]
        split
        · rename_i hup
          have hup' : 2 ^ (k - 1) < M' % 2 ^ k ∨
              (M' % 2 ^ k = 2 ^ (k - 1) ∧ M' / 2 ^ k % 2 = 1) := by
            rcases hup with hu | ⟨hu1, hu2⟩
            · exact Or.inl (lt_of_lt_of_le hu hr)
            · rcases Nat.lt_or_ge (2 ^ (k - 1)) (M' % 2 ^ k) with h1 | h1
              · exact Or.inl h1
              · exact Or.inr ⟨le_antisymm h1 (by rw [← hu1]; exact hr), hu2⟩
          rw [if_pos hup']
        · split <;> omega

theorem excess_pos_ge (M : Nat) (h : 0 < F64.excess M M) : 2 ^ 53 ≤ M := by
  by_contra hlt
  have : F64.excess M M ≤ 0 := excess_self_le M 0 (by simpa using hlt)
  omega

theorem excess_scale (M j : Nat) (h : 0 < F64.excess M M) :
    F64.excess (M * 2 ^ j) (M * 2 ^ j) = F64.excess M M + j := by
  have hM := excess_pos_ge M h
  apply le_antisymm
  · apply excess_self_le
    rw [pow_add, Nat.mul_div_mul_right _ _ (by positivity)]
    exact (excess_self_bounds M).1
  · have hb := (excess_self_bounds (M * 2 ^ j)).1
    generalize F64.excess (M * 2 ^ j) (M * 2 ^ j) = e at hb
    rcases Nat.lt_or_ge e j with hlt | hge
    · exfalso
      have hsplit : M * 2 ^ j = M * 2 ^ (j - e) * 2 ^ e := by
        rw [mul_assoc, ← pow_add]
        congr 2
        omega
      rw [hsplit, Nat.mul_div_cancel _ (by positivity)] at hb
      have : M ≤ M * 2 ^ (j - e) := Nat.le_mul_of_pos_right M (by positivity)
      omega
    · have hsplit : (2 : Nat) ^ e = 2 ^ (e - j) * 2 ^ j := by
        rw [← pow_add]
        congr 1
        omega
      rw [hsplit, Nat.mul_div_mul_right _ _ (by positivity)] at hb
      have := excess_self_le M (e - j) hb
      omega

/-- Rounding does not depend on how the exact value is written. -/
theorem round_scale (M j : Nat) (E : Int) :
    (F64.round false (M * 2 ^ j) (E - j)).toRat = (F64.round false M E).toRat := by
  obtain ⟨k, hk⟩ : ∃ k, max (F64.excess M M) (Int.toNat (-1074 - E)) = k := ⟨_, rfl⟩
  obtain ⟨k', hk'⟩ : ∃ k',
      max (F64.excess (M * 2 ^ j) (M * 2 ^ j)) (Int.toNat (-1074 - (E - j))) = k' := ⟨_, rfl⟩
  have hexM := excess_self_bounds M
  rcases Nat.eq_zero_or_pos k with h0 | hpos
  · subst h0
    have hex0 : F64.excess M M = 0 := by
      have := le_max_left (F64.excess M M) (Int.toNat (-1074 - E)); omega
    have hT0 : Int.toNat (-1074 - E) = 0 := by
      have := le_max_right (F64.excess M M) (Int.toNat (-1074 - E)); omega
    have hM : M < 2 ^ 53 := by
      have := hexM.1
      rw [hex0] at this
      simpa using this
    have hexj : F64.excess (M * 2 ^ j) (M * 2 ^ j) ≤ j :=
      excess_self_le _ j (by rw [Nat.mul_div_cancel _ (by positivity)]; exact hM)
    have hTj : Int.toNat (-1074 - (E - j)) ≤ j := by omega
    have hk'j : k' ≤ j := by rw [← hk']; exact max_le hexj hTj
    rw [round_eq_exact M E hk]
    have hsplit : M * 2 ^ j = M * 2 ^ (j - k') * 2 ^ k' := by
      rw [mul_assoc, ← pow_add]
      congr 2
      omega
    have hval : ∀ m : Nat, m = M * 2 ^ (j - k') →
        (⟨false, m, E - j + k'⟩ : F64).toRat = (⟨false, M, E⟩ : F64).toRat := by
      intro m hm
      have h1 := toRat_shift m k' (E - j)
      have h2 := toRat_shift M j (E - j)
      have h3 : (⟨false, M, E - (j : Int) + (j : Int)⟩ : F64) = ⟨false, M, E⟩ := by
        congr 1
        omega
      rw [h3] at h2
      rw [h1, h2, hm, ← hsplit]
    rcases Nat.eq_zero_or_pos k' with h0' | hpos'
    · subst h0'
      rw [round_eq_exact _ _ hk']
      have := hval (M * 2 ^ j) (by simp)
      simpa using this
    · rw [round_eq_shift _ _ k' hk' hpos']
      apply hval
      have hmod : M * 2 ^ j % 2 ^ k' = 0 := by
        rw [hsplit]
        exact Nat.mul_mod_left _ _
      have hdiv : M * 2 ^ j / 2 ^ k' = M * 2 ^ (j - k') := by
        rw [hsplit]
        exact Nat.mul_div_cancel _ (by positivity)
      have hhalf : 0 < 2 ^ (k' - 1) := by positivity
      rw [hmod, hdiv]
      rw [if_neg (by
        rintro (h | ⟨h, -⟩)
        · omega
        · omega)]
  · have hk'eq : k' = k + j := by
      rw [← hk', ← hk]
      rcases Nat.eq_zero_or_pos (F64.excess M M) with hex0 | hexpos
      · have hM : M < 2 ^ 53 := by
          have := hexM.1
          rw [hex0] at this
          simpa using this
        have hexj : F64.excess (M * 2 ^ j) (M * 2 ^ j) ≤ j :=
          excess_self_le _ j (by rw [Nat.mul_div_cancel _ (by positivity)]; exact hM)
        have hT : 0 < Int.toNat (-1074 - E) := by
          rw [hex0] at hk
          have : max 0 (Int.toNat (-1074 - E)) = Int.toNat (-1074 - E) := Nat.zero_max _
          omega
        have hT' : Int.toNat (-1074 - (E - j)) = Int.toNat (-1074 - E) + j := by omega
        rw [hex0, hT', Nat.zero_max]
        exact max_eq_right (by omega)
      · rw [excess_scale M j hexpos]
        rcases Nat.eq_zero_or_pos (Int.toNat (-1074 - E)) with hT0 | hT
        · have hT' : Int.toNat (-1074 - (E - j)) ≤ j := by omega
          rw [hT0, Nat.max_zero]
          exact max_eq_left (by omega)
        · have hT' : Int.toNat (-1074 - (E - j)) = Int.toNat (-1074 - E) + j := by omega
          rw [hT']
          exact Nat.add_max_add_right _ _ _
    subst hk'eq
    rw [round_eq_shift _ _ (k + j) hk' (by omega), round_eq_shift M E k hk hpos]
    have hdiv : M * 2 ^ j / 2 ^ (k + j) = M / 2 ^ k := by
      rw [pow_add, Nat.mul_div_mul_right _ _ (by positivity)]
    have hmod : M * 2 ^ j % 2 ^ (k + j) = M % 2 ^ k * 2 ^ j := by
      rw [pow_add, Nat.mul_mod_mul_right]
    have hhalf : (2 : Nat) ^ (k + j - 1) = 2 ^ (k - 1) * 2 ^ j := by
      rw [← pow_add]
      congr 1
      omega
    have hexp : E - (j : Int) + ((k + j : Nat) : Int) = E + (k : Int) := by
      push_cast
      ring
    have hj : 0 < 2 ^ j := by positivity
    rw [hdiv, hmod, hhalf, hexp]
    have hc : (2 ^ (k - 1) * 2 ^ j < M % 2 ^ k * 2 ^ j ∨
        (M % 2 ^ k * 2 ^ j = 2 ^ (k - 1) * 2 ^ j ∧ M / 2 ^ k % 2 = 1)) ↔
        (2 ^ (k - 1) < M % 2 ^ k ∨ (M % 2 ^ k = 2 ^ (k - 1) ∧ M / 2 ^ k % 2 = 1)) := by
      rw [Nat.mul_lt_mul_right hj, Nat.mul_left_inj (Nat.ne_of_gt hj)]
    simp only [hc]

/-- Rounding is monotone: a greater exact value rounds to a value that is not smaller. -/
theorem round_mono (M1 M2 : Nat) (E1 E2 : Int)
    (h : (M1 : ℚ) * (2 : ℚ) ^ E1 ≤ (M2 : ℚ) * (2 : ℚ) ^ E2) :
    (F64.round false M1 E1).toRat ≤ (F64.round false M2 E2).toRat := by
  obtain ⟨j1, hj1⟩ : ∃ j1 : Nat, (j1 : Int) = E1 - min E1 E2 :=
    ⟨(E1 - min E1 E2).toNat, Int.toNat_of_nonneg (by have := min_le_left E1 E2; omega)⟩
  obtain ⟨j2, hj2⟩ : ∃ j2 : Nat, (j2 : Int) = E2 - min E1 E2 :=
    ⟨(E2 - min E1 E2).toNat, Int.toNat_of_nonneg (by have := min_le_right E1 E2; omega)⟩
  rw [← round_scale M1 j1 E1, ← round_scale M2 j2 E2]
  have he1 : E1 - (j1 : Int) = min E1 E2 := by omega
  have he2 : E2 - (j2 : Int) = min E1 E2 := by omega
  rw [he1, he2]
  apply round_mono_same
  have hp : (0 : ℚ) < (2 : ℚ) ^ (min E1 E2) := by positivity
  have h1 : (M1 : ℚ) * (2 : ℚ) ^ E1 = ((M1 * 2 ^ j1 : Nat) : ℚ) * (2 : ℚ) ^ (min E1 E2) := by
    have : E1 = min E1 E2 + (j1 : Int) := by omega
    rw [this, zpow_add₀ (by norm_num : (2 : ℚ) ≠ 0), zpow_natCast, ← this]
    push_cast
    ring
  have h2 : (M2 : ℚ) * (2 : ℚ) ^ E2 = ((M2 * 2 ^ j2 : Nat) : ℚ) * (2 : ℚ) ^ (min E1 E2) := by
    have : E2 = min E1 E2 + (j2 : Int) := by omega
    rw [this, zpow_add₀ (by norm_num : (2 : ℚ) ≠ 0), zpow_natCast, ← this]
    push_cast
    ring
  rw [h1, h2] at h
  exact_mod_cast le_of_mul_le_mul_right h hp

/-! ## Monotonicity of the score in the leader count -/

theorem trunc_mono (a b : F64) (ha : a.neg = false) (hb : b.neg = false)
    (h : a.toRat ≤ b.toRat) : a.trunc ≤ b.trunc := by
  obtain ⟨h0, h1, -⟩ := trunc_of_nonneg a ha
  obtain ⟨n, hn⟩ := Int.eq_ofNat_of_zero_le h0
  rw [hn] at h1 ⊢
  exact (trunc_of_nonneg b hb).2.2 n (le_trans (by exact_mod_cast h1) h)

/-- Below a conversion with a non-negative result, `int(a)` is monotone. -/
theorem toInt_mono (a b : F64) (ha : a.neg = false) (hb : b.neg = false)
    (h : a.toRat ≤ b.toRat) (h0 : 0 ≤ b.toInt) : 0 ≤ a.toInt ∧ a.toInt ≤ b.toInt := by
  obtain ⟨hb1, hb2⟩ := toInt_nonneg_range b h0
  have hm := trunc_mono a b ha hb h
  have ha0 := (trunc_of_nonneg a ha).1
  have hat : a.toInt = a.trunc := by
    unfold F64.toInt
    simp only
    rw [if_pos ⟨by omega, by omega⟩]
  rw [hat, hb1]
  exact ⟨ha0, hm⟩

theorem ofInt_of_nonneg (n : Int) (h : 0 ≤ n) : F64.ofInt n = F64.round false n.natAbs 0 := by
  unfold F64.ofInt
  have : decide (n < 0) = false := by
    rw [decide_eq_false_iff_not]
    exact not_lt.mpr h
  rw [this]

theorem ofInt_mono (l l' : Int) (hl : 0 ≤ l) (hll : l ≤ l') :
    (F64.ofInt l).toRat ≤ (F64.ofInt l').toRat := by
  rw [ofInt_of_nonneg l hl, ofInt_of_nonneg l' (le_trans hl hll)]
  apply round_mono
  simp only [zpow_zero, mul_one]
  have : l.natAbs ≤ l'.natAbs := by omega
  exact_mod_cast this

theorem toRat_nonneg (a : F64) (ha : a.neg = false) : 0 ≤ a.toRat := by
  rw [toRat_of_nonneg a ha]
  positivity

theorem mul_mono (b b' c : F64) (hb : b.neg = false) (hb' : b'.neg = false)
    (hc : c.neg = false) (h : b.toRat ≤ b'.toRat) :
    (F64.mul b c).toRat ≤ (F64.mul b' c).toRat := by
  rw [mul_of_nonneg b c hb hc, mul_of_nonneg b' c hb' hc]
  apply round_mono
  have e1 : ((b.mant * c.mant : Nat) : ℚ) * (2 : ℚ) ^ (b.exp + c.exp) = b.toRat * c.toRat := by
    rw [toRat_of_nonneg b hb, toRat_of_nonneg c hc, zpow_add₀ (by norm_num : (2 : ℚ) ≠ 0)]
    push_cast
    ring
  have e2 : ((b'.mant * c.mant : Nat) : ℚ) * (2 : ℚ) ^ (b'.exp + c.exp) =
      b'.toRat * c.toRat := by
    rw [toRat_of_nonneg b' hb', toRat_of_nonneg c hc, zpow_add₀ (by norm_num : (2 : ℚ) ≠ 0)]
    push_cast
    ring
  rw [e1, e2]
  exact mul_le_mul_of_nonneg_right h (toRat_nonneg c hc)

theorem add_mono (a b b' : F64) (ha : a.neg = false) (hb : b.neg = false)
    (hb' : b'.neg = false) (h : b.toRat ≤ b'.toRat) :
    (F64.add a b).toRat ≤ (F64.add a b').toRat := by
  rw [add_of_nonneg a b ha hb, add_of_nonneg a b' ha hb']
  apply round_mono
  rw [add_exact, add_exact, ← toRat_of_nonneg a ha, ← toRat_of_nonneg b hb,
    ← toRat_of_nonneg b' hb']
  linarith

theorem mul_neg_of_nonneg (a b : F64) (ha : a.neg = false) (hb : b.neg = false) :
    (F64.mul a b).neg = false := by
  rw [mul_of_nonneg a b ha hb]
  exact round_neg _ _ _

theorem add_neg_of_nonneg (a b : F64) (ha : a.neg = false) (hb : b.neg = false) :
    (F64.add a b).neg = false := by
  rw [add_of_nonneg a b ha hb]
  exact round_neg _ _ _

theorem ofInt_neg_of_nonneg (n : Int) (h : 0 ≤ n) : (F64.ofInt n).neg = false := by
  rw [ofInt_of_nonneg n h]
  exact round_neg _ _ _

/-- With a non-negative used-ratio score, the score does not decrease when the leader
score grows, as long as the greater score is a non-negative `int`; the smaller score is
then non-negative too. -/
theorem score_mono_leaders (rb : resourceBalancer) (s : storeInfo) (c c' N : Int)
    (hu : 0 ≤ s.usedRatioScore) (hl : 0 ≤ leaderScore c N)
    (hll : leaderScore c N ≤ leaderScore c' N) (h0 : 0 ≤ rb.score s c' N) :
    0 ≤ rb.score s c N ∧ rb.score s c N ≤ rb.score s c' N := by
  unfold resourceBalancer.score at h0 ⊢
  simp only at h0 ⊢
  have hA := mul_neg_of_nonneg _ F64.c06 (ofInt_neg_of_nonneg _ hu) rfl
  have hB := mul_neg_of_nonneg _ F64.c04 (ofInt_neg_of_nonneg _ hl) rfl
  have hB' := mul_neg_of_nonneg _ F64.c04 (ofInt_neg_of_nonneg _ (le_trans hl hll)) rfl
  apply toInt_mono _ _ (add_neg_of_nonneg _ _ hA hB) (add_neg_of_nonneg _ _ hA hB') _ h0
  apply add_mono _ _ _ hA hB hB'
  exact mul_mono _ _ _ (ofInt_neg_of_nonneg _ hl) (ofInt_neg_of_nonneg _ (le_trans hl hll)) rfl
    (ofInt_mono _ _ hl hll)

theorem leaderScore_eq_ediv (c N : Int) (hc : 0 ≤ c) (hN : 0 < N) (hrep : c * 100 < 2 ^ 63) :
    leaderScore c N = c * 100 / N := by
  have hq0 : 0 ≤ c * 100 / N := Int.ediv_nonneg (by omega) (le_of_lt hN)
  have hq1 : c * 100 / N ≤ c * 100 := Int.ediv_le_self _ (by omega)
  unfold leaderScore
  rw [if_neg (ne_of_gt hN), wrapInt_eq (c * 100) (by norm_num; omega) hrep,
    Int.tdiv_eq_ediv (by omega) (le_of_lt hN),
    wrapInt_eq _ (by norm_num; omega) (lt_of_le_of_lt hq1 hrep)]

/-- One more leader does not lower the leader score, as long as the hundredfold of the
greater count fits in an `int`. -/
theorem leaderScore_succ (c N : Int) (hc : 0 ≤ c) (hN : 0 ≤ N)
    (hrep : (c + 1) * 100 < 2 ^ 63) :
    0 ≤ leaderScore c N ∧ leaderScore c N ≤ leaderScore (wrapInt (c + 1)) N := by
  have hw : wrapInt (c + 1) = c + 1 :=
    wrapInt_eq _ (by norm_num; omega) (by norm_num at hrep ⊢; omega)
  rw [hw]
  rcases eq_or_lt_of_le hN with h0 | hpos
  · simp [leaderScore, ← h0]
  · rw [leaderScore_eq_ediv c N hc hpos (by omega),
      leaderScore_eq_ediv (c + 1) N (by omega) hpos hrep]
    exact ⟨Int.ediv_nonneg (by omega) hN, Int.ediv_le_ediv hpos (by omega)⟩

theorem hypoScore_false (rb : resourceBalancer) (N : Int) (s : storeInfo) :
    hypoScore rb N s false = ownScore rb N s := by
  unfold hypoScore ownScore
  simp only [Bool.false_eq_true, if_false]

theorem hypoScore_true (rb : resourceBalancer) (N : Int) (s : storeInfo) :
    hypoScore rb N s true = rb.score s (wrapInt (s.stats.LeaderRegionCount + 1)) N := by
  unfold hypoScore
  simp only [if_true]

/-- The score `checkScore` gives a store as a target is not below its own score, when it
is a non-negative `int`. -/
theorem own_le_hypo (rb : resourceBalancer) (s : storeInfo) (N : Int) (b : Bool)
    (hu : 0 ≤ s.usedRatioScore) (hc : 0 ≤ s.stats.LeaderRegionCount) (hN : 0 ≤ N)
    (hrep : (s.stats.LeaderRegionCount + 1) * 100 < 2 ^ 63)
    (h0 : 0 ≤ hypoScore rb N s b) :
    0 ≤ ownScore rb N s ∧ ownScore rb N s ≤ hypoScore rb N s b := by
  cases b
  · rw [hypoScore_false] at h0 ⊢
    exact ⟨h0, le_rfl⟩
  · obtain ⟨h1, h2⟩ := leaderScore_succ _ N hc hN hrep
    rw [hypoScore_true] at h0 ⊢
    have hown := score_mono_leaders rb s s.stats.LeaderRegionCount
      (wrapInt (s.stats.LeaderRegionCount + 1)) N hu h1 h2 h0
    unfold ownScore
    exact hown

theorem getStore_mem (cluster : clusterInfo) (k : Nat) (s : storeInfo)
    (h : cluster.getStore k = some s) : s ∈ cluster.stores := by
  unfold clusterInfo.getStore at h
  exact List.mem_of_find?_eq_some h

theorem checkScore_true_stores (rb : resourceBalancer) (cluster : clusterInfo)
    (oldPeer newPeer : Option Peer) (b : Bool)
    (h : rb.checkScore cluster oldPeer newPeer b = true) :
    ∃ A B, cluster.getStore (Peer.GetStoreId oldPeer) = some A ∧
      cluster.getStore (Peer.GetStoreId newPeer) = some B := by
  cases hA : cluster.getStore (Peer.GetStoreId oldPeer) with
  | none =>
    unfold resourceBalancer.checkScore at h
    simp [hA] at h
  | some A =>
    cases hB : cluster.getStore (Peer.GetStoreId newPeer) with
    | none =>
      unfold resourceBalancer.checkScore at h
      simp [hA, hB] at h
    | some B => exact ⟨A, B, rfl, rfl⟩

/-! ## The threshold of `checkScore` -/

theorem round_mant_exp (neg : Bool) (M : Nat) (E : Int) :
    (F64.round neg M E).mant = (F64.round false M E).mant ∧
      (F64.round neg M E).exp = (F64.round false M E).exp := by
  unfold F64.round
  simp only
  split
  · exact ⟨rfl, rfl⟩
  · split <;> exact ⟨rfl, rfl⟩

/-- A result of `round` has at most 54 bits, all but the first zero, and an exponent of
at least `-1074`. -/
theorem round_out_bounds (M : Nat) (E : Int) :
    (F64.round false M E).mant ≤ 2 ^ 53 ∧ -1074 ≤ (F64.round false M E).exp := by
  obtain ⟨k, hk⟩ : ∃ k, max (F64.excess M M) (Int.toNat (-1074 - E)) = k := ⟨_, rfl⟩
  have hex := (excess_self_bounds M).1
  rcases Nat.eq_zero_or_pos k with h0 | hpos
  · subst h0
    have hex0 : F64.excess M M = 0 := by
      have := le_max_left (F64.excess M M) (Int.toNat (-1074 - E)); omega
    have hT0 : Int.toNat (-1074 - E) = 0 := by
      have := le_max_right (F64.excess M M) (Int.toNat (-1074 - E)); omega
    rw [round_eq_exact M E hk]
    rw [hex0] at hex
    simp only [pow_zero, Nat.div_one] at hex
    refine ⟨le_of_lt hex, ?_⟩
    show -1074 ≤ E
    omega
  · rw [round_eq_shift M E k hk hpos]
    have hexk : F64.excess M M ≤ k := by rw [← hk]; exact le_max_left _ _
    have hTk : Int.toNat (-1074 - E) ≤ k := by rw [← hk]; exact le_max_right _ _
    have hq : M / 2 ^ k < 2 ^ 53 :=
      lt_of_le_of_lt (Nat.div_le_div_left (Nat.pow_le_pow_right (by norm_num) hexk)
        (by positivity)) hex
    refine ⟨?_, ?_⟩
    · simp only
      split <;> omega
    · simp only
      omega

theorem excess_two_pow_53 : F64.excess (2 ^ 53) (2 ^ 53) = 1 := by
  apply le_antisymm
  · exact excess_self_le _ 1 (by norm_num)
  · by_contra h
    have h0 : F64.excess (2 ^ 53) (2 ^ 53) = 0 := by omega
    have := (excess_self_bounds (2 ^ 53)).1
    rw [h0] at this
    simp at this

/-- Rounding a binary64 value again returns the same value. -/
theorem round_idem (M : Nat) (E : Int) :
    (F64.round false (F64.round false M E).mant (F64.round false M E).exp).toRat =
      (F64.round false M E).toRat := by
  obtain ⟨hm, he⟩ := round_out_bounds M E
  rw [toRat_of_nonneg (F64.round false M E) (round_neg _ _ _)]
  generalize (F64.round false M E).mant = m at hm
  generalize (F64.round false M E).exp = e at he
  have hT : Int.toNat (-1074 - e) = 0 := by omega
  rcases Nat.lt_or_ge m (2 ^ 53) with hlt | hge
  · have hex : F64.excess m m = 0 := Nat.le_zero.mp (excess_self_le m 0 (by simpa using hlt))
    rw [round_eq_exact m e (by rw [hex, hT]; rfl), toRat_of_nonneg _ rfl]
  · have hm53 : m = 2 ^ 53 := le_antisymm hm hge
    subst hm53
    rw [round_eq_shift (2 ^ 53) e 1 (by rw [excess_two_pow_53, hT]; rfl) (by norm_num)]
    have h := toRat_shift (2 ^ 52) 1 e
    have hif : (if 2 ^ (1 - 1) < 2 ^ 53 % 2 ^ 1 ∨
        (2 ^ 53 % 2 ^ 1 = 2 ^ (1 - 1) ∧ 2 ^ 53 / 2 ^ 1 % 2 = 1)
        then 2 ^ 53 / 2 ^ 1 + 1 else 2 ^ 53 / 2 ^ 1) = 2 ^ 52 := by norm_num
    rw [hif, h]
    norm_num

/-- A value whose integer part is below `2^63` is below `2^63`. -/
theorem toRat_lt_of_trunc_lt (a : F64) (ha : a.neg = false) (h : a.trunc < 2 ^ 63) :
    a.toRat < 2 ^ 63 := by
  by_contra hcon
  rw [not_lt] at hcon
  have := (trunc_of_nonneg a ha).2.2 (2 ^ 63) (by exact_mod_cast hcon)
  norm_num at this h
  omega

/-- A non-negative `int` that was converted from a binary64 value converts back to a
value that is not above it. -/
theorem ofInt_toInt_le (neg : Bool) (M : Nat) (E : Int)
    (h0 : 0 ≤ (F64.round neg M E).toInt) :
    (F64.ofInt (F64.round neg M E).toInt).toRat < 2 ^ 63 ∧
      ∃ B : F64, B.neg = false ∧ B.toRat < 2 ^ 63 ∧
        (F64.round false B.mant B.exp).toRat = B.toRat ∧
        (F64.ofInt (F64.round neg M E).toInt).toRat ≤ B.toRat := by
  obtain ⟨ht, hlt⟩ := toInt_nonneg_range _ h0
  rw [ht] at h0 ⊢
  cases neg with
  | true =>
    have hz : (F64.round true M E).trunc = 0 := by
      have hn := round_neg true M E
      unfold F64.trunc at h0 ⊢
      simp only [hn, if_true] at h0 ⊢
      omega
    rw [hz]
    have h00 : F64.ofInt 0 = ⟨false, 0, 0⟩ := by decide
    rw [h00]
    have hv : (⟨false, 0, 0⟩ : F64).toRat = 0 := by simp [F64.toRat, F64.smant]
    refine ⟨by rw [hv]; norm_num, ⟨false, 0, 0⟩, rfl, by rw [hv]; norm_num, ?_, le_rfl⟩
    have : F64.round false 0 0 = ⟨false, 0, 0⟩ := by decide
    show (F64.round false 0 0).toRat = _
    rw [this]
  | false =>
    have hn := round_neg false M E
    have hrat := toRat_lt_of_trunc_lt _ hn hlt
    obtain ⟨t0, t1, -⟩ := trunc_of_nonneg _ hn
    have hle : (F64.ofInt (F64.round false M E).trunc).toRat ≤ (F64.round false M E).toRat := by
      obtain ⟨n, hnat⟩ := Int.eq_ofNat_of_zero_le t0
      rw [hnat] at t1 ⊢
      rw [ofInt_of_nonneg _ (Int.natCast_nonneg n), Int.natAbs_ofNat, ← round_idem M E]
      apply round_mono
      rw [← toRat_of_nonneg _ hn]
      simp only [zpow_zero, mul_one]
      exact_mod_cast t1
    exact ⟨lt_of_le_of_lt hle hrat, F64.round false M E, hn, hrat, round_idem M E, hle⟩

/-- The scores are 64-bit values. -/
theorem score_int64 (rb : resourceBalancer) (s : storeInfo) (c N : Int) :
    -2 ^ 63 ≤ rb.score s c N ∧ rb.score s c N < 2 ^ 63 := by
  unfold resourceBalancer.score
  exact toInt_range _

/-- With a fraction in `[0, 1]`, the threshold that `checkScore` derives from a
non-negative score is non-negative. -/
theorem threshold_nonneg (rb : resourceBalancer) (s : storeInfo) (c N : Int) (f : F64)
    (hf0 : f.neg = false) (hf1 : f.toRat ≤ 1) (h0 : 0 ≤ rb.score s c N) :
    0 ≤ F64.toInt (F64.mul (F64.ofInt (rb.score s c N)) f) := by
  have ho := ofInt_neg_of_nonneg _ h0
  unfold resourceBalancer.score at h0 ho ⊢
  simp only at h0 ho ⊢
  unfold F64.add at h0 ho ⊢
  simp only at h0 ho ⊢
  obtain ⟨-, B, hB0, hB1, hBi, hBle⟩ := ofInt_toInt_le _ _ _ h0
  generalize F64.ofInt (F64.round _ _ _).toInt = o at ho hBle
  have hp : (F64.mul o f).toRat ≤ B.toRat := by
    rw [mul_of_nonneg o f ho hf0, ← hBi]
    apply round_mono
    rw [← toRat_of_nonneg B hB0]
    have e1 : ((o.mant * f.mant : Nat) : ℚ) * (2 : ℚ) ^ (o.exp + f.exp) = o.toRat * f.toRat := by
      rw [toRat_of_nonneg o ho, toRat_of_nonneg f hf0, zpow_add₀ (by norm_num : (2 : ℚ) ≠ 0)]
      push_cast
      ring
    rw [e1]
    calc o.toRat * f.toRat ≤ o.toRat * 1 :=
          mul_le_mul_of_nonneg_left hf1 (toRat_nonneg o ho)
      _ = o.toRat := mul_one _
      _ ≤ B.toRat := hBle
  exact (toInt_of_nonneg _ (mul_neg_of_nonneg o f ho hf0) (lt_of_le_of_lt hp hB1)).1

/-- With a fraction in `[0, 1]` and non-negative scores, `checkScore` accepts only when
the source score exceeds the score it gives the target. -/
theorem checkScore_true_lt (rb : resourceBalancer) (cluster : clusterInfo)
    (oldPeer newPeer : Option Peer) (b : Bool) (A B : storeInfo)
    (hf0 : rb.cfg.MaxDiffScoreFraction.neg = false)
    (hf1 : rb.cfg.MaxDiffScoreFraction.toRat ≤ 1)
    (hA : cluster.getStore (Peer.GetStoreId oldPeer) = some A)
    (hB : cluster.getStore (Peer.GetStoreId newPeer) = some B)
    (hA0 : 0 ≤ ownScore rb cluster.regionCount A)
    (hB0 : 0 ≤ hypoScore rb cluster.regionCount B b)
    (h : rb.checkScore cluster oldPeer newPeer b = true) :
    hypoScore rb cluster.regionCount B b < ownScore rb cluster.regionCount A := by
  have hA1 : ownScore rb cluster.regionCount A < 2 ^ 63 := (score_int64 rb A _ _).2
  have hB1 : hypoScore rb cluster.regionCount B b < 2 ^ 63 := by
    cases b
    · rw [hypoScore_false]
      exact (score_int64 rb B _ _).2
    · rw [hypoScore_true]
      exact (score_int64 rb B _ _).2
  have hthr : 0 ≤ F64.toInt (F64.mul (F64.ofInt (ownScore rb cluster.regionCount A))
      rb.cfg.MaxDiffScoreFraction) :=
    threshold_nonneg rb A A.stats.LeaderRegionCount cluster.regionCount
      rb.cfg.MaxDiffScoreFraction hf0 hf1 hA0
  rw [checkScore_eq rb cluster oldPeer newPeer b A B hA hB, decide_eq_true_eq] at h
  rw [wrapInt_eq _ (by norm_num at hA1 hB1 ⊢; omega) (by norm_num at hA1 hB1 ⊢; omega)] at h
  omega

/-- With a fraction in `[0, 1]`, `checkScore` rejects when the non-negative source score
does not exceed the score it gives the target. -/
theorem checkScore_false_of_le (rb : resourceBalancer) (cluster : clusterInfo)
    (oldPeer newPeer : Option Peer) (b : Bool) (A B : storeInfo)
    (hf0 : rb.cfg.MaxDiffScoreFraction.neg = false)
    (hf1 : rb.cfg.MaxDiffScoreFraction.toRat ≤ 1)
    (hA : cluster.getStore (Peer.GetStoreId oldPeer) = some A)
    (hB : cluster.getStore (Peer.GetStoreId newPeer) = some B)
    (hA0 : 0 ≤ ownScore rb cluster.regionCount A)
    (hle : ownScore rb cluster.regionCount A ≤ hypoScore rb cluster.regionCount B b) :
    rb.checkScore cluster oldPeer newPeer b = false := by
  cases hc : rb.checkScore cluster oldPeer newPeer b with
  | false => rfl
  | true =>
    have := checkScore_true_lt rb cluster oldPeer newPeer b A B hf0 hf1 hA hB hA0
      (le_trans hA0 hle) hc
    omega

/-! ## Moves that do not improve the balance -/

/-- C18 (amended): with a `MaxDiffScoreFraction` in `[0, 1]` and non-negative scores,
`checkScore` returns true only when the score of the source store exceeds the score it
gives the target store, so it rejects when the two are equal. When moreover the
used-ratio score and the leader count of the stores and the region count are
non-negative and the hundredfold of a leader count plus one fits in an `int`, it rejects
a move whose target is the source store, and a view whose stores all have the same score
gets no plan from `resourceBalancer.Balance`. -/
theorem checkScore_rejects_no_improvement (rb : resourceBalancer) (cluster : clusterInfo)
    (hf0 : rb.cfg.MaxDiffScoreFraction.neg = false)
    (hf1 : rb.cfg.MaxDiffScoreFraction.toRat ≤ 1) :
    (∀ oldPeer newPeer isLeaderPeer A B,
        cluster.getStore (Peer.GetStoreId oldPeer) = some A →
        cluster.getStore (Peer.GetStoreId newPeer) = some B →
        0 ≤ ownScore rb cluster.regionCount A →
        0 ≤ hypoScore rb cluster.regionCount B isLeaderPeer →
        (rb.checkScore cluster oldPeer newPeer isLeaderPeer = true →
          hypoScore rb cluster.regionCount B isLeaderPeer < ownScore rb cluster.regionCount A) ∧
        (ownScore rb cluster.regionCount A = hypoScore rb cluster.regionCount B isLeaderPeer →
          rb.checkScore cluster oldPeer newPeer isLeaderPeer = false)) ∧
      (∀ oldPeer newPeer isLeaderPeer S,
        cluster.getStore (Peer.GetStoreId oldPeer) = some S →
        cluster.getStore (Peer.GetStoreId newPeer) = some S →
        0 ≤ S.usedRatioScore → 0 ≤ S.stats.LeaderRegionCount →
        (S.stats.LeaderRegionCount + 1) * 100 < 2 ^ 63 → 0 ≤ cluster.regionCount →
        0 ≤ hypoScore rb cluster.regionCount S isLeaderPeer →
        rb.checkScore cluster oldPeer newPeer isLeaderPeer = false) ∧
      (∀ c order maxWaitCount,
        0 ≤ cluster.regionCount →
        (∀ s ∈ cluster.stores,
          ownScore rb cluster.regionCount s = c ∧ 0 ≤ s.usedRatioScore ∧
          0 ≤ s.stats.LeaderRegionCount ∧ (s.stats.LeaderRegionCount + 1) * 100 < 2 ^ 63 ∧
          0 ≤ hypoScore rb cluster.regionCount s true) →
        ∀ P alloc, rb.Balance cluster order maxWaitCount ≠ (.ok (some P), alloc)) := by
  refine ⟨?_, ?_, ?_⟩
  · intro oldPeer newPeer b A B hA hB hA0 hB0
    exact ⟨checkScore_true_lt rb cluster oldPeer newPeer b A B hf0 hf1 hA hB hA0 hB0,
      fun heq => checkScore_false_of_le rb cluster oldPeer newPeer b A B hf0 hf1 hA hB hA0
        (le_of_eq heq)⟩
  · intro oldPeer newPeer b S hA hB hu hc hrep hN hB0
    obtain ⟨h0, hle⟩ := own_le_hypo rb S cluster.regionCount b hu hc hN hrep hB0
    exact checkScore_false_of_le rb cluster oldPeer newPeer b S S hf0 hf1 hA hB h0 hle
  · intro c order w hN hall P alloc hP
    have hrej : ∀ oldPeer newPeer b, rb.checkScore cluster oldPeer newPeer b = false := by
      intro oldPeer newPeer b
      cases hc : rb.checkScore cluster oldPeer newPeer b with
      | false => rfl
      | true =>
        obtain ⟨A, B, hA, hB⟩ := checkScore_true_stores rb cluster oldPeer newPeer b hc
        obtain ⟨hcA, huA, hlA, hrA, hbA⟩ := hall A (getStore_mem cluster _ A hA)
        obtain ⟨hcB, huB, hlB, hrB, hbB⟩ := hall B (getStore_mem cluster _ B hB)
        have hA0 := (own_le_hypo rb A cluster.regionCount true huA hlA hN hrA hbA).1
        have hB0 := (own_le_hypo rb B cluster.regionCount true huB hlB hN hrB hbB).1
        have hBb : 0 ≤ hypoScore rb cluster.regionCount B b := by
          cases b
          · rw [hypoScore_false]
            exact hB0
          · exact hbB
        have hBle := (own_le_hypo rb B cluster.regionCount b huB hlB hN hrB hBb).2
        have hle : ownScore rb cluster.regionCount A ≤ hypoScore rb cluster.regionCount B b :=
          le_trans (le_of_eq (hcA.trans hcB.symm)) hBle
        have := checkScore_false_of_le rb cluster oldPeer newPeer b A B hf0 hf1 hA hB hA0 hle
        rw [this] at hc
        cases hc
    obtain ⟨region, leader, follower, isLB, newPeer, -, -, -, hdo⟩ :=
      Balance_some rb cluster order w P alloc hP
    rcases hdo with ⟨-, hdo⟩ | ⟨-, hdo⟩
    · rw [doLeaderBalance_ok] at hdo
      simp [hrej] at hdo
    · rw [doFollowerBalance_ok] at hdo
      simp [hrej] at hdo

theorem exEvenStores : ∀ s ∈ exClusterEven.stores,
    ownScore exRbHalf exClusterEven.regionCount s = 40 ∧ 0 ≤ s.usedRatioScore ∧
      0 ≤ s.stats.LeaderRegionCount ∧ (s.stats.LeaderRegionCount + 1) * 100 < 2 ^ 63 ∧
      0 ≤ hypoScore exRbHalf exClusterEven.regionCount s true := by
  decide

/-- C18 (amended) at `exClusterEven` with the fraction `0.5`: the four stores all have
the score `40`; a region and a target store are chosen and an id is allocated, but the
move is rejected. -/
theorem checkScore_rejects_no_improvement_witness :
    exRbHalf.cfg.MaxDiffScoreFraction.neg = false ∧
      exRbHalf.cfg.MaxDiffScoreFraction.toRat ≤ 1 ∧
      exRbHalf.Balance exClusterEven [2, 3] 10 = (.ok none, ⟨201, false⟩) ∧
      ∀ P alloc, exRbHalf.Balance exClusterEven [2, 3] 10 ≠ (.ok (some P), alloc) :=
  ⟨rfl, exHalf_le_one, by rfl,
    (checkScore_rejects_no_improvement exRbHalf exClusterEven rfl exHalf_le_one).2.2 40 [2, 3] 10
      (by decide) exEvenStores⟩

/-- C18 fails as stated. With the fraction `10^18`, which is not negative, the threshold
`int(float64(40) * 10^18)` is out of range and the conversion yields the most negative
`int`: in `exClusterEven`, whose stores all have the score `40`, `checkScore` accepts a
move between stores of equal score and onto the source store itself, and `Balance`
returns a plan. With the fraction `0.5`, a store whose leader count plus one has a
hundredfold that wraps around has the score `1` as a source and the score `0` as the
target of a leader, and `checkScore` accepts the move of the store onto itself. -/
theorem checkScore_no_improvement_counterexample :
    (exRbHuge.cfg.MaxDiffScoreFraction.neg = false ∧
      (∀ s ∈ exClusterEven.stores,
        ownScore exRbHuge exClusterEven.regionCount s = 40 ∧
          hypoScore exRbHuge exClusterEven.regionCount s false = 40) ∧
      F64.toInt (F64.mul (F64.ofInt 40) exRbHuge.cfg.MaxDiffScoreFraction) = -2 ^ 63 ∧
      exRbHuge.checkScore exClusterEven (some ⟨101, 1⟩) (some ⟨201, 4⟩) false = true ∧
      exRbHuge.checkScore exClusterEven (some ⟨101, 1⟩) (some ⟨201, 1⟩) false = true ∧
      exRbHuge.Balance exClusterEven [2, 3] 10 =
        (.ok (some ⟨exRegion, [Operator.TransferLeader 7 ⟨101, 1⟩ ⟨102, 2⟩ 10,
          Operator.AddPeer 7 ⟨201, 4⟩, Operator.RemovePeer 7 (some ⟨101, 1⟩)]⟩),
          ⟨201, false⟩)) ∧
    (exRbHalf.cfg.MaxDiffScoreFraction.neg = false ∧
      exClusterWrap.getStore (Peer.GetStoreId (some ⟨10, 1⟩)) = some exStoreWrap ∧
      exClusterWrap.getStore (Peer.GetStoreId (some ⟨11, 1⟩)) = some exStoreWrap ∧
      leaderScore exStoreWrap.stats.LeaderRegionCount exClusterWrap.regionCount = 1 ∧
      leaderScore (wrapInt (exStoreWrap.stats.LeaderRegionCount + 1))
        exClusterWrap.regionCount = 0 ∧
      ownScore exRbHalf exClusterWrap.regionCount exStoreWrap = 1 ∧
      hypoScore exRbHalf exClusterWrap.regionCount exStoreWrap true = 0 ∧
      exRbHalf.checkScore exClusterWrap (some ⟨10, 1⟩) (some ⟨11, 1⟩) true = true) :=
  ⟨⟨rfl, by decide, by decide, by decide, by decide, by rfl⟩, by decide⟩

end PD
